import Mathlib

/-!
# Physarum slime-mold simulation: embedding and verified properties

Shallow embedding of `config.js`, `agent.js`, `simulation.js` and `ui.js`.

* JavaScript numbers are modelled by an arbitrary linearly ordered field `α`
  with a floor function (exact arithmetic; `ℚ` for evaluation, `ℝ` for the
  statements "for all real x, y").  Quantities that can become infinite in
  the program (food distances, reward, fitness) live in `JNum α`, which adds
  `+Infinity`, `-Infinity` and `NaN` with the IEEE rules the program relies on.
* `Math.cos`, `Math.sin`, `Math.sqrt`, `Math.exp`, `Math.atan2`, `Math.PI` and
  the canvas size are fields of the environment `Env`.
* Every `Math.random()` call site is an explicit argument (`Draws`, or a
  function from the loop index to the draw).
* The `Float32Array` grids are `Array α`; a write outside the array is ignored,
  as it is for a typed array.
* Rendering (`render`, `drawStaticScene`, `updateUI`) writes no simulation
  state and is left out.
-/

set_option linter.unusedSectionVars false
set_option linter.unusedVariables false

namespace Physarum

/-! ## Numbers with infinities -/

/-- A JavaScript number: a finite value, `+Infinity`, `-Infinity` or `NaN`. -/
inductive JNum (α : Type) where
  | fin (a : α)
  | posInf
  | negInf
  | nan

namespace JNum

variable {α : Type} [LinearOrderedField α]

/-- IEEE addition. -/
def add : JNum α → JNum α → JNum α
  | fin a, fin b => fin (a + b)
  | fin _, posInf => posInf
  | fin _, negInf => negInf
  | fin _, nan => nan
  | posInf, fin _ => posInf
  | posInf, posInf => posInf
  | posInf, negInf => nan
  | posInf, nan => nan
  | negInf, fin _ => negInf
  | negInf, posInf => nan
  | negInf, negInf => negInf
  | negInf, nan => nan
  | nan, _ => nan

/-- IEEE negation. -/
def neg : JNum α → JNum α
  | fin a => fin (-a)
  | posInf => negInf
  | negInf => posInf
  | nan => nan

/-- IEEE subtraction. -/
def sub (a b : JNum α) : JNum α := add a (neg b)

/-- Sign of an infinity multiplied or divided by a finite value. -/
def infTimes (positive : Bool) (b : α) : JNum α :=
  if 0 < b then (if positive then posInf else negInf)
  else if b < 0 then (if positive then negInf else posInf)
  else nan

/-- IEEE multiplication. -/
def mul : JNum α → JNum α → JNum α
  | fin a, fin b => fin (a * b)
  | fin a, posInf => infTimes true a
  | fin a, negInf => infTimes false a
  | fin _, nan => nan
  | posInf, fin b => infTimes true b
  | posInf, posInf => posInf
  | posInf, negInf => negInf
  | posInf, nan => nan
  | negInf, fin b => infTimes false b
  | negInf, posInf => negInf
  | negInf, negInf => posInf
  | negInf, nan => nan
  | nan, _ => nan

/-- IEEE division (zero divisors are taken as `+0`). -/
def div : JNum α → JNum α → JNum α
  | fin a, fin b => if b = 0 then infTimes true a else fin (a / b)
  | fin _, posInf => fin 0
  | fin _, negInf => fin 0
  | fin _, nan => nan
  | posInf, fin b => if b < 0 then negInf else posInf
  | posInf, _ => nan
  | negInf, fin b => if b < 0 then posInf else negInf
  | negInf, _ => nan
  | nan, _ => nan

/-- IEEE `<`: false as soon as one side is `NaN`. -/
def lt : JNum α → JNum α → Bool
  | fin a, fin b => decide (a < b)
  | fin _, posInf => true
  | fin _, negInf => false
  | fin _, nan => false
  | posInf, _ => false
  | negInf, fin _ => true
  | negInf, posInf => true
  | negInf, negInf => false
  | negInf, nan => false
  | nan, _ => false

instance : Add (JNum α) := ⟨add⟩
instance : Sub (JNum α) := ⟨sub⟩
instance : Mul (JNum α) := ⟨mul⟩
instance : Div (JNum α) := ⟨div⟩
instance : LT (JNum α) := ⟨fun a b => lt a b = true⟩
instance (a b : JNum α) : Decidable (a < b) := inferInstanceAs (Decidable (lt a b = true))

end JNum

/-! ## Environment, grids and loops -/

/-- The canvas size and the `Math` functions used by the program. -/
structure Env (α : Type) where
  width : Nat
  height : Nat
  cos : α → α
  sin : α → α
  sqrt : α → α
  exp : α → α
  atan2 : α → α → α
  PI : α

/-- Read of a `Float32Array` cell. -/
def rd {α : Type} [Zero α] (g : Array α) (i : Nat) : α := g.getD i 0

/-- Write of a `Float32Array` cell; ignored outside the array. -/
def wr {α : Type} (g : Array α) (i : Nat) (v : α) : Array α := g.setD i v

/-- The integers `lo, lo+1, ..., hi`. -/
def intRange (lo hi : Int) : List Int :=
  (List.range (hi + 1 - lo).toNat).map (fun (k : Nat) => lo + (k : Int))

/-- The loop `for (let i = lo; i <= hi; i++) body`. -/
def forInt {σ : Type} (lo hi : Int) (body : Int → σ → σ) (init : σ) : σ :=
  (intRange lo hi).foldl (fun s i => body i s) init

/-- The naturals `lo, lo+1, ..., hi-1`. -/
def natRange (lo hi : Nat) : List Nat :=
  (List.range (hi - lo)).map (fun (k : Nat) => lo + k)

/-- The loop `for (let i = lo; i < hi; i++) body`. -/
def forNat {σ : Type} (lo hi : Nat) (body : Nat → σ → σ) (init : σ) : σ :=
  (natRange lo hi).foldl (fun s i => body i s) init

/-! ## config.js -/

/-- A food piece or mold source: `{x, y, radius}`. -/
structure Source (α : Type) where
  x : α
  y : α
  radius : α

/-- Fields of `class Agent`. -/
structure Agent (α : Type) where
  x : α
  y : α
  angle : α
  fitness : JNum α
  lastFoodDistance : JNum α

/-- The placement mode of the canvas. -/
inductive Mode where
  | mold
  | food
deriving DecidableEq

/-- The mutable globals of `config.js`. -/
structure State (α : Type) where
  NUM_AGENTS_PER_SOURCE : Nat
  SENSOR_ANGLE : α
  SENSOR_DIST : α
  ROTATION_ANGLE : α
  STEP_SIZE : α
  DEPOSIT_AMOUNT : α
  DECAY_SPEED : α
  DIFFUSE_RATE : α
  FOOD_ATTRACTION : α
  agents : List (Agent α)
  trailMap : Array α
  tempMap : Array α
  foodMap : Array α
  foodPieces : List (Source α)
  moldSources : List (Source α)
  mode : Mode
  running : Bool
  animationId : Option Nat
  simulationSteps : Nat

section Program

variable {α : Type} [LinearOrderedField α] [FloorRing α]

/-- The state right after `config.js` is loaded. -/
def initialState (E : Env α) : State α where
  NUM_AGENTS_PER_SOURCE := 18000
  SENSOR_ANGLE := 0.45
  SENSOR_DIST := 30
  ROTATION_ANGLE := 0.4
  STEP_SIZE := 3.0
  DEPOSIT_AMOUNT := 6
  DECAY_SPEED := 5
  DIFFUSE_RATE := 0.7
  FOOD_ATTRACTION := 10.0
  agents := []
  trailMap := mkArray (E.width * E.height) 0
  tempMap := mkArray (E.width * E.height) 0
  foodMap := mkArray (E.width * E.height) 0
  foodPieces := []
  moldSources := []
  mode := Mode.mold
  running := false
  animationId := none
  simulationSteps := 0

/-- Function `getIdx`: the cell index of a point, `-1` outside the grid rectangle. -/
def getIdx (E : Env α) (x y : α) : Int :=
  let ix : Int := ⌊x⌋
  let iy : Int := ⌊y⌋
  if ix < 0 ∨ ix ≥ E.width ∨ iy < 0 ∨ iy ≥ E.height then -1
  else iy * E.width + ix

/-- Function `isInCircle`: the plate test. -/
def isInCircle (E : Env α) (x y : α) : Bool :=
  let dx := x - (E.width : α) / 2
  let dy := y - (E.height : α) / 2
  decide (dx * dx + dy * dy ≤ ((E.width : α) / 2 - 10) ^ 2)

/-- Constructor `new Agent(x, y, angle)`; `rnd` is the draw used when `angle` is `null`. -/
def Agent.new (E : Env α) (x y : α) (angle : Option α) (rnd : α) : Agent α where
  x := x
  y := y
  angle := match angle with
    | some a => a
    | none => rnd * E.PI * 2
  fitness := JNum.fin 0
  lastFoodDistance := JNum.posInf

/-- The expression `Math.min(simulationSteps / 3000, 1.0)`. -/
def convergence (steps : Nat) : α := min ((steps : α) / 3000) 1.0

/-! ## agent.js -/

/-- The four locals of the food scan in `calculateReward`. -/
structure Scan (α : Type) where
  minDistToFood : JNum α
  secondMinDistToFood : JNum α
  nearestFood : Option (Source α)
  secondNearestFood : Option (Source α)

/-- Euclidean distance from the point `(x, y)` to a food piece. -/
def foodDist (E : Env α) (x y : α) (food : Source α) : α :=
  E.sqrt ((x - food.x) ^ 2 + (y - food.y) ^ 2)

/-- One iteration of `for (let food of foodPieces)` in `calculateReward`. -/
def scanStep (E : Env α) (x y : α) (sc : Scan α) (food : Source α) : Scan α :=
  let dist := foodDist E x y food
  if JNum.fin dist < sc.minDistToFood then
    { minDistToFood := JNum.fin dist
      secondMinDistToFood := sc.minDistToFood
      nearestFood := some food
      secondNearestFood := sc.nearestFood }
  else if JNum.fin dist < sc.secondMinDistToFood then
    { sc with secondMinDistToFood := JNum.fin dist, secondNearestFood := some food }
  else sc

/-- The food scan of `calculateReward`: the two nearest food sources. -/
def scanFood (E : Env α) (x y : α) (foodPieces : List (Source α)) : Scan α :=
  foodPieces.foldl (scanStep E x y)
    { minDistToFood := JNum.posInf
      secondMinDistToFood := JNum.posInf
      nearestFood := none
      secondNearestFood := none }

/-- The value `idx >= 0 ? trailMap[idx] : 0`. -/
def trailAt (E : Env α) (s : State α) (x y : α) : α :=
  let idx := getIdx E x y
  if idx ≥ 0 then rd s.trailMap idx.toNat else 0

/-- The reward computed by `calculateReward` (the local `reward` at `return`). -/
def rewardValue (E : Env α) (s : State α) (a : Agent α) : JNum α :=
  let sc := scanFood E a.x a.y s.foodPieces
  let minDistToFood := sc.minDistToFood
  let secondMinDistToFood := sc.secondMinDistToFood
  let trailStrength := trailAt E s a.x a.y
  let convergence : α := convergence s.simulationSteps
  let reward : JNum α := JNum.fin 0
  let reward :=
    if minDistToFood < JNum.fin 100 then
      reward + (JNum.fin 100 - minDistToFood) / JNum.fin 10
    else reward
  let reward :=
    if trailStrength > 30 then reward + JNum.fin (5 + convergence * 10)
    else if trailStrength > 10 then reward + JNum.fin 2
    else reward
  let reward :=
    if minDistToFood > a.lastFoodDistance then reward - JNum.fin (2 + convergence * 3)
    else if minDistToFood < a.lastFoodDistance then reward + JNum.fin 3
    else reward
  let reward :=
    if minDistToFood > JNum.fin 150 then
      let penalty := (minDistToFood - JNum.fin 150) / JNum.fin 15
      reward - penalty * JNum.fin (1 + convergence * 2)
    else reward
  let reward :=
    if sc.secondNearestFood.isSome ∧ minDistToFood > JNum.fin 80
        ∧ secondMinDistToFood < minDistToFood * JNum.fin 0.6 then
      reward - JNum.fin (8 * convergence)
    else reward
  reward

/-- Method `Agent.calculateReward`: the returned reward and the mutated agent. -/
def calculateReward (E : Env α) (s : State α) (a : Agent α) : JNum α × Agent α :=
  let reward := rewardValue E s a
  (reward,
    { a with
      lastFoodDistance := (scanFood E a.x a.y s.foodPieces).minDistToFood
      fitness := a.fitness + reward * JNum.fin 0.1 })

/-- The body of the two nested loops of `sense` for one sample cell. -/
def senseCell (E : Env α) (s : State α) (sensorX sensorY : α) (ox oy : Int)
    (acc : α × Nat) : α × Nat :=
  let idx := getIdx E (sensorX + (ox : α)) (sensorY + (oy : α))
  if idx ≥ 0 then
    let convergence : α := convergence s.simulationSteps
    let baseTrailWeight := 0.3 + convergence * 1.2
    let trailWeight := min (rd s.trailMap idx.toNat * baseTrailWeight) 80
    (acc.1 + (trailWeight + rd s.foodMap idx.toNat * s.FOOD_ATTRACTION), acc.2 + 1)
  else acc

/-- Method `Agent.sense(offsetAngle)`. -/
def sense (E : Env α) (s : State α) (a : Agent α) (offsetAngle : α) : α :=
  let sensorAngle := a.angle + offsetAngle
  let sensorX := a.x + E.cos sensorAngle * s.SENSOR_DIST
  let sensorY := a.y + E.sin sensorAngle * s.SENSOR_DIST
  let acc : α × Nat :=
    forInt (-2) 2 (fun ox acc =>
      forInt (-2) 2 (fun oy acc => senseCell E s sensorX sensorY ox oy acc) acc) (0, 0)
  if acc.2 > 0 then acc.1 / (acc.2 : α) else 0

/-- The `Math.random()` draws of one `update`, one field per call site. -/
structure Draws (α : Type) where
  steer : α
  explore : α
  jump : α
  side : α
  jitter : α

/-- One iteration of the nearest-food loop of the lost branch of `update`. -/
def nearestStep (E : Env α) (x y : α) (acc : JNum α × Option (Source α))
    (food : Source α) : JNum α × Option (Source α) :=
  let dist := foodDist E x y food
  if JNum.fin dist < acc.1 then (JNum.fin dist, some food) else acc

/-- The heading after the first steering block of `update` (lost / exploring). -/
def steerLost (E : Env α) (s : State α) (r : Draws α) (a : Agent α) (totalSignal : α) : α :=
  if a.fitness < JNum.fin (-20) then
    let nearestFood := (s.foodPieces.foldl (nearestStep E a.x a.y) (JNum.posInf, none)).2
    match nearestFood with
    | some food =>
      let targetAngle := E.atan2 (food.y - a.y) (food.x - a.x)
      a.angle + (targetAngle - a.angle) * 0.3
    | none => a.angle
  else if totalSignal < 80 then
    if r.explore < 0.6 then a.angle + (r.jump - 0.5) * s.ROTATION_ANGLE * 4
    else a.angle
  else a.angle

/-- The heading after the second steering block of `update` (sensed steering). -/
def steerSensed (s : State α) (r : Draws α) (weightForward weightLeft weightRight : α)
    (randomSteer angle : α) : α :=
  if weightForward > weightLeft ∧ weightForward > weightRight then
    angle + randomSteer * 0.5
  else if weightForward < weightLeft ∧ weightForward < weightRight then
    angle + ((if r.side < 0.5 then -1 else 1) * s.ROTATION_ANGLE + randomSteer)
  else if weightRight > weightLeft then
    angle + (s.ROTATION_ANGLE + randomSteer)
  else if weightLeft > weightRight then
    angle - (s.ROTATION_ANGLE + randomSteer)
  else
    angle + randomSteer

/-- The movement block of `update`: step, or turn back at the plate edge. -/
def move (E : Env α) (s : State α) (r : Draws α) (a : Agent α) : Agent α :=
  let newX := a.x + E.cos a.angle * s.STEP_SIZE
  let newY := a.y + E.sin a.angle * s.STEP_SIZE
  if isInCircle E newX newY then
    { a with x := newX, y := newY }
  else
    let dx := a.x - (E.width : α) / 2
    let dy := a.y - (E.height : α) / 2
    let a := { a with
      angle := E.atan2 (-dy) (-dx) + (r.jitter - 0.5) * 0.8
      fitness := a.fitness - JNum.fin 10 }
    let newX := a.x + E.cos a.angle * s.STEP_SIZE
    let newY := a.y + E.sin a.angle * s.STEP_SIZE
    if isInCircle E newX newY then
      { a with x := newX, y := newY }
    else a

/-- The local `depositMultiplier` of `update`. -/
def depositMultiplier (fitness : JNum α) : α :=
  if fitness > JNum.fin 10 then 1.5
  else if fitness < JNum.fin (-10) then 0.3
  else 1.0

/-- The deposit block of `update`. -/
def deposit (E : Env α) (s : State α) (a : Agent α) : Array α :=
  let idx := getIdx E a.x a.y
  if idx ≥ 0 then
    let depositAmount := s.DEPOSIT_AMOUNT * depositMultiplier a.fitness
    wr s.trailMap idx.toNat (min (rd s.trailMap idx.toNat + depositAmount) 255)
  else s.trailMap

/-- The agent of `update` after the second `calculateReward`, before the deposit. -/
def updateAgent (E : Env α) (s : State α) (r : Draws α) (a : Agent α) : Agent α :=
  let a := (calculateReward E s a).2
  let weightForward := sense E s a 0
  let weightLeft := sense E s a (-s.SENSOR_ANGLE)
  let weightRight := sense E s a s.SENSOR_ANGLE
  let explorationFactor : α := if a.fitness > JNum.fin (-10) then 0.6 else 0.3
  let randomSteer := (r.steer - 0.5) * explorationFactor
  let totalSignal := weightForward + weightLeft + weightRight
  let a := { a with angle := steerLost E s r a totalSignal }
  let a := { a with
    angle := steerSensed s r weightForward weightLeft weightRight randomSteer a.angle }
  let a := move E s r a
  (calculateReward E s a).2

/-- Method `Agent.update`: the mutated agent and the state with the deposit made. -/
def update (E : Env α) (s : State α) (r : Draws α) (a : Agent α) : Agent α × State α :=
  let a := updateAgent E s r a
  (a, { s with trailMap := deposit E s a })

/-! ## simulation.js -/

/-- Body of the blur loops of `diffuseTrails` at the cell `(x, y)`. -/
def blurCell (E : Env α) (trailMap : Array α) (x y : Nat) (tempMap : Array α) : Array α :=
  let i := y * E.width + x
  let sum :=
    rd trailMap i +
    rd trailMap (i - 1) + rd trailMap (i + 1) +
    rd trailMap (i - E.width) + rd trailMap (i + E.width) +
    rd trailMap (i - E.width - 1) + rd trailMap (i - E.width + 1) +
    rd trailMap (i + E.width - 1) + rd trailMap (i + E.width + 1)
  wr tempMap i (sum / 9)

/-- The first loop nest of `diffuseTrails`: the 3x3 blur into `tempMap`. -/
def blur (E : Env α) (trailMap tempMap : Array α) : Array α :=
  forNat 1 (E.height - 1) (fun y t =>
    forNat 1 (E.width - 1) (fun x t => blurCell E trailMap x y t) t) tempMap

/-- Body of the second loop of `diffuseTrails` at index `i`. -/
def blendCell (s : State α) (tempMap : Array α) (i : Nat) (trailMap : Array α) : Array α :=
  let trailMap :=
    wr trailMap i (rd tempMap i * s.DIFFUSE_RATE + rd trailMap i * (1 - s.DIFFUSE_RATE))
  let decayFactor := 1 - s.DECAY_SPEED * 0.001
  let trailMap := wr trailMap i (rd trailMap i * decayFactor)
  let convergence : α := convergence s.simulationSteps
  let pruningThreshold := 2 + convergence * 8
  let trailMap :=
    if rd trailMap i < pruningThreshold then
      let pruningRate := 0.97 - convergence * 0.1
      wr trailMap i (rd trailMap i * pruningRate)
    else trailMap
  if rd trailMap i < 0.3 then wr trailMap i 0 else trailMap

/-- The function `diffuseTrails`. -/
def diffuseTrails (E : Env α) (s : State α) : State α :=
  let tempMap := blur E s.trailMap s.tempMap
  let trailMap := forNat 0 s.trailMap.size (fun i t => blendCell s tempMap i t) s.trailMap
  { s with tempMap := tempMap, trailMap := trailMap }

/-- The statement `agents.forEach(agent => agent.update())`; `draws k` are the
random draws of the agent at position `k` of the list. -/
def forEachUpdate (E : Env α) (draws : Nat → Draws α) (s : State α) : State α :=
  let res := s.agents.foldl
    (fun (acc : List (Agent α) × State α) a =>
      let upd := update E acc.2 (draws acc.1.length) a
      (acc.1 ++ [upd.1], upd.2))
    ([], s)
  { res.2 with agents := res.1 }

/-- The function `loop` (one animation frame); `frame` is the handle returned by
`requestAnimationFrame`. -/
def loop (E : Env α) (draws : Nat → Draws α) (frame : Nat) (s : State α) : State α :=
  if s.running = false then { s with animationId := none }
  else
    let s := { s with simulationSteps := s.simulationSteps + 1 }
    let s := forEachUpdate E draws s
    let s := diffuseTrails E s
    { s with animationId := some frame }

/-! ## ui.js -/

/-- The agent-spawning loop of a mold placement; `rnd i` is the draw of agent `i`. -/
def spawnAgents (E : Env α) (s : State α) (x y : α) (rnd : Nat → α) : List (Agent α) :=
  forNat 0 s.NUM_AGENTS_PER_SOURCE (fun i agents =>
    let angle := ((i : α) / (s.NUM_AGENTS_PER_SOURCE : α)) * E.PI * 2
    let radius := rnd i * 15
    let agentX := x + E.cos angle * radius
    let agentY := y + E.sin angle * radius
    agents ++ [Agent.new E agentX agentY (some angle) 0]) s.agents

/-- Body of the mold-blob loops at offset `(dx, dy)`.  The click handler uses
`falloff = 0.5, base = 120, gain = 80`, auto-setup `0.6, 150, 70`. -/
def moldCell (E : Env α) (x y falloff base gain : α) (dx dy : Int) (trailMap : Array α) :
    Array α :=
  let dist := E.sqrt ((dx : α) * (dx : α) + (dy : α) * (dy : α))
  if dist ≤ 18 then
    let idx := getIdx E (x + (dx : α)) (y + (dy : α))
    if idx ≥ 0 then
      let intensity := 1 - (dist / 18) * falloff
      wr trailMap idx.toNat (max (rd trailMap idx.toNat) (base + intensity * gain))
    else trailMap
  else trailMap

/-- The mold-blob loop nest ("create initial compact yellow mass"). -/
def stampMold (E : Env α) (x y falloff base gain : α) (trailMap : Array α) : Array α :=
  forInt (-18) 18 (fun dy t =>
    forInt (-18) 18 (fun dx t => moldCell E x y falloff base gain dx dy t) t) trailMap

/-- The local `strength` of the food-gradient loops. -/
def strength (E : Env α) (dist : α) : α :=
  if dist ≤ 12 then 255 else 150 * E.exp (-dist / 15)

/-- Body of the food-gradient loops at offset `(dx, dy)`. -/
def foodCell (E : Env α) (x y : α) (dx dy : Int) (foodMap : Array α) : Array α :=
  let dist := E.sqrt ((dx : α) * (dx : α) + (dy : α) * (dy : α))
  if dist ≤ 40 then
    let idx := getIdx E (x + (dx : α)) (y + (dy : α))
    if idx ≥ 0 then
      wr foodMap idx.toNat (max (rd foodMap idx.toNat) (strength E dist))
    else foodMap
  else foodMap

/-- The food-gradient loop nest ("create chemical gradient"), the same text in
the click handler and in auto-setup. -/
def stampFood (E : Env α) (x y : α) (foodMap : Array α) : Array α :=
  forInt (-40) 40 (fun dy t =>
    forInt (-40) 40 (fun dx t => foodCell E x y dx dy t) t) foodMap

/-- The `mousedown` handler of the canvas at canvas point `(x, y)`. -/
def mousedown (E : Env α) (s : State α) (x y : α) (rnd : Nat → α) : State α :=
  if isInCircle E x y = false then s
  else if s.mode = Mode.mold then
    { s with
      moldSources := s.moldSources ++ [{ x := x, y := y, radius := 18 }]
      agents := spawnAgents E s x y rnd
      trailMap := stampMold E x y 0.5 120 80 s.trailMap }
  else
    { s with
      foodPieces := s.foodPieces ++ [{ x := x, y := y, radius := 12 }]
      foodMap := stampFood E x y s.foodMap }

/-- The `while` loop of auto-setup; `fuel` is `maxAttempts - attempts`. -/
def placeFood (E : Env α) (numFood : Nat) (rndAngle rndDist : Nat → α) :
    Nat → Nat → State α → State α
  | 0, _, s => s
  | fuel + 1, attempts, s =>
    if s.foodPieces.length < numFood then
      let attempts := attempts + 1
      let centerX := (E.width : α) / 2
      let centerY := (E.height : α) / 2
      let plateRadius := (E.width : α) / 2 - 40
      let angle := rndAngle attempts * E.PI * 2
      let distance := 80 + rndDist attempts * (plateRadius - 80)
      let x := centerX + E.cos angle * distance
      let y := centerY + E.sin angle * distance
      let validPosition := s.foodPieces.all (fun food =>
        let dx := x - food.x
        let dy := y - food.y
        !decide (E.sqrt (dx * dx + dy * dy) < 60))
      let s :=
        if validPosition ∧ isInCircle E x y = true then
          { s with
            foodPieces := s.foodPieces ++ [{ x := x, y := y, radius := 12 }]
            foodMap := stampFood E x y s.foodMap }
        else s
      placeFood E numFood rndAngle rndDist fuel attempts s
    else s

/-- Fill of a grid with zeros: `map.fill(0)`. -/
def fillZero (g : Array α) : Array α := mkArray g.size 0

/-- The `btn-auto-setup` handler; `numFood` is the parsed food count. -/
def autoSetup (E : Env α) (s : State α) (numFood : Nat) (rnd rndAngle rndDist : Nat → α) :
    State α :=
  let s := { s with
    agents := []
    foodPieces := []
    moldSources := []
    trailMap := fillZero s.trailMap
    foodMap := fillZero s.foodMap }
  let centerX := (E.width : α) / 2
  let centerY := (E.height : α) / 2
  let s := { s with
    moldSources := s.moldSources ++ [{ x := centerX, y := centerY, radius := 18 }]
    agents := spawnAgents E s centerX centerY rnd
    trailMap := stampMold E centerX centerY 0.6 150 70 s.trailMap }
  placeFood E numFood rndAngle rndDist 1000 0 s

/-- JavaScript truthiness of `animationId`: `null` and `0` are falsy. -/
def truthy (id : Option Nat) : Bool :=
  match id with
  | none => false
  | some n => decide (n ≠ 0)

/-- The function `window.clearSim`. -/
def clearSim (s : State α) : State α :=
  { s with
    agents := []
    foodPieces := []
    moldSources := []
    trailMap := fillZero s.trailMap
    foodMap := fillZero s.foodMap
    simulationSteps := 0
    running := false
    animationId := if truthy s.animationId = true then none else s.animationId }

/-- The `btn-run` handler. -/
def btnRun (E : Env α) (draws : Nat → Draws α) (frame : Nat) (s : State α) : State α :=
  let s := { s with running := !s.running }
  if s.running = true ∧ truthy s.animationId = false then loop E draws frame s else s

/-- The function `resetParameters`. -/
def resetParameters (s : State α) : State α :=
  { s with
    NUM_AGENTS_PER_SOURCE := 18000
    STEP_SIZE := 3.0
    SENSOR_DIST := 30
    DEPOSIT_AMOUNT := 6
    DECAY_SPEED := 5
    FOOD_ATTRACTION := 10.0 }

/-- What the user and the browser can do to the simulation. -/
inductive Event (α : Type) where
  | click (x y : α) (rnd : Nat → α)
  | setMode (m : Mode)
  | run (draws : Nat → Draws α) (frame : Nat)
  | frame (draws : Nat → Draws α) (frame : Nat)
  | autoSetup (numFood : Nat) (rnd rndAngle rndDist : Nat → α)
  | clear
  | resetParameters
  | agentCount (v : Nat)
  | stepSize (v : α)
  | sensorDist (v : α)
  | depositAmount (v : α)
  | decaySpeed (v : α)
  | foodAttraction (v : α)

/-- The handler of each event. -/
def handle (E : Env α) (s : State α) : Event α → State α
  | Event.click x y rnd => mousedown E s x y rnd
  | Event.setMode m => { s with mode := m }
  | Event.run draws frame => btnRun E draws frame s
  | Event.frame draws frame => loop E draws frame s
  | Event.autoSetup numFood rnd rndAngle rndDist => autoSetup E s numFood rnd rndAngle rndDist
  | Event.clear => clearSim s
  | Event.resetParameters => resetParameters s
  | Event.agentCount v => { s with NUM_AGENTS_PER_SOURCE := v }
  | Event.stepSize v => { s with STEP_SIZE := v }
  | Event.sensorDist v => { s with SENSOR_DIST := v }
  | Event.depositAmount v => { s with DEPOSIT_AMOUNT := v }
  | Event.decaySpeed v => { s with DECAY_SPEED := v }
  | Event.foodAttraction v => { s with FOOD_ATTRACTION := v }

/-- The state after a sequence of events, starting from the loaded page. -/
def runEvents (E : Env α) (events : List (Event α)) : State α :=
  events.foldl (handle E) (initialState E)

end Program

/-! ## A concrete environment for evaluation -/

/-- A rational environment used to evaluate the program on concrete inputs:
heading frozen to the east (`cos = 1`, `sin = 0`), one Newton step for the
square root, a rational bump for `exp`. -/
def testEnv (w h : Nat) : Env ℚ where
  width := w
  height := h
  cos := fun _ => 1
  sin := fun _ => 0
  sqrt := fun q => if q ≤ 0 then 0 else (q + 1) / 2
  exp := fun q => 1 / (1 + q * q)
  atan2 := fun _ _ => 0
  PI := 22 / 7

/-- A single agent with fitness 0 that has not yet seen food. -/
def testAgent (x y : ℚ) : Agent ℚ :=
  { x := x, y := y, angle := 0, fitness := JNum.fin 0, lastFoodDistance := JNum.posInf }

/-- Draws that are all one half. -/
def testDraws : Draws ℚ :=
  { steer := 1 / 2, explore := 1 / 2, jump := 1 / 2, side := 1 / 2, jitter := 1 / 2 }

/-! ## Specification-side definitions -/

section SpecDefs

variable {α : Type} [LinearOrderedField α] [FloorRing α]

/-- The offsets `(dy, dx)` visited by the loop nest
`for dy in [a, b]: for dx in [c, d]`, in visiting order. -/
def offsets (a b c d : Int) : List (Int × Int) :=
  (intRange a b).flatMap (fun dy => (intRange c d).map (fun dx => (dy, dx)))

/-- A conditional write `g[i] = Math.max(g[i], v)`; `none` writes nothing. -/
def maxWrite (op : Option (Nat × α)) (g : Array α) : Array α :=
  match op with
  | none => g
  | some (i, v) => wr g i (max (rd g i) v)

/-- The write made by `foodCell` at the offset `p = (dy, dx)`. -/
def foodOp (E : Env α) (x y : α) (p : Int × Int) : Option (Nat × α) :=
  let dist := E.sqrt ((p.2 : α) * (p.2 : α) + (p.1 : α) * (p.1 : α))
  if dist ≤ 40 then
    if getIdx E (x + (p.2 : α)) (y + (p.1 : α)) ≥ 0 then
      some ((getIdx E (x + (p.2 : α)) (y + (p.1 : α))).toNat, strength E dist)
    else none
  else none

/-- The values written into cell `j` of a grid of size `n` by a list of writes. -/
def hits (n j : Nat) (L : List (Option (Nat × α))) : List α :=
  L.filterMap (fun op =>
    match op with
    | some (i, v) => if i = j ∧ i < n then some v else none
    | none => none)

/-- The page in food mode: the state after pressing `btn-food`. -/
def foodModeState (E : Env ℚ) : State ℚ :=
  { initialState E with mode := Mode.food }

/-- The value written by `blurCell` at index `i`: the mean of the 3x3 block. -/
def mean9 (E : Env α) (trailMap : Array α) (i : Nat) : α :=
  (rd trailMap i +
    rd trailMap (i - 1) + rd trailMap (i + 1) +
    rd trailMap (i - E.width) + rd trailMap (i + E.width) +
    rd trailMap (i - E.width - 1) + rd trailMap (i - E.width + 1) +
    rd trailMap (i + E.width - 1) + rd trailMap (i + E.width + 1)) / 9

/-- The indices written by the blur loops, in visiting order. -/
def interiorCells (E : Env α) : List Nat :=
  ((natRange 1 (E.height - 1)).flatMap
    (fun y => (natRange 1 (E.width - 1)).map (fun x => (y, x)))).map
    (fun p => p.1 * E.width + p.2)

/-- The value that the second loop of `diffuseTrails` leaves in a cell whose
scratch value is `m` and whose trail value is `v`: blend, decay, pruning, floor. -/
def blendValue (s : State α) (m v : α) : α :=
  let b := m * s.DIFFUSE_RATE + v * (1 - s.DIFFUSE_RATE)
  let d := b * (1 - s.DECAY_SPEED * 0.001)
  let p :=
    if d < 2 + convergence s.simulationSteps * 8 then
      d * (0.97 - convergence s.simulationSteps * 0.1)
    else d
  if p < 0.3 then 0 else p

/-- A 3 x 3 page whose centre cell is empty and whose eight border cells are full. -/
def ringState : State ℚ :=
  { initialState (testEnv 3 3) with
    trailMap := #[255, 255, 255, 255, 0, 255, 255, 255, 255] }

/-- The agents of a list updated one after the other, the agent at list position
`k + i` with the draws `draws (k + i)`, each in the state left by the one before. -/
def updateSeq (E : Env α) (draws : Nat → Draws α) :
    Nat → State α → List (Agent α) → List (Agent α) × State α
  | _, s, [] => ([], s)
  | k, s, a :: l =>
    ((update E s (draws k) a).1 :: (updateSeq E draws (k + 1) (update E s (draws k) a).2 l).1,
      (updateSeq E draws (k + 1) (update E s (draws k) a).2 l).2)

/-- The entry `n` of a list of distances, `+Infinity` past its end. -/
def nthOrInf (l : List α) (n : Nat) : JNum α :=
  match l[n]? with
  | some v => JNum.fin v
  | none => JNum.posInf

/-- The distances from `(x, y)` to the food sources, in ascending order. -/
def sortedDists (E : Env α) (x y : α) (foodPieces : List (Source α)) : List α :=
  (foodPieces.map (foodDist E x y)).insertionSort (fun a b => a ≤ b)

/-- The effect of `scanStep` on the two distances kept by the scan. -/
def scan2 (p : JNum α × JNum α) (d : α) : JNum α × JNum α :=
  if JNum.fin d < p.1 then (JNum.fin d, p.1)
  else if JNum.fin d < p.2 then (p.1, JNum.fin d)
  else p

/-- Reward term (1), proximity: `(100 - d)/10` if `d < 100`, else 0. -/
def proximityTerm (d : JNum α) : JNum α :=
  if d < JNum.fin 100 then (JNum.fin 100 - d) / JNum.fin 10 else JNum.fin 0

/-- Reward term (2), trail following: `5 + 10c` if `trail > 30`, 2 if
`10 < trail <= 30`, else 0. -/
def trailTerm (trail c : α) : JNum α :=
  if trail > 30 then JNum.fin (5 + 10 * c)
  else if 10 < trail ∧ trail ≤ 30 then JNum.fin 2
  else JNum.fin 0

/-- Reward term (3), direction: `-(2 + 3c)` if `d > last`, `+3` if `d < last`,
else 0. -/
def directionTerm (d last : JNum α) (c : α) : JNum α :=
  if d > last then JNum.fin (-(2 + 3 * c))
  else if d < last then JNum.fin 3
  else JNum.fin 0

/-- Reward term (4), far from food: `-((d - 150)/15) * (1 + 2c)` if `d > 150`,
else 0. -/
def farTerm (d : JNum α) (c : α) : JNum α :=
  if d > JNum.fin 150 then
    JNum.neg (((d - JNum.fin 150) / JNum.fin 15) * JNum.fin (1 + 2 * c))
  else JNum.fin 0

/-- Reward term (5), long span: `-8c` if a second food source exists, `d > 80` and
`d2 < 0.6 * d`, else 0. -/
def spanTerm (secondExists : Prop) [Decidable secondExists] (d d2 : JNum α) (c : α) :
    JNum α :=
  if secondExists ∧ d > JNum.fin 80 ∧ d2 < JNum.fin 0.6 * d then JNum.fin (-(8 * c))
  else JNum.fin 0

/-- The loaded 100 x 100 page with one food source recorded at (50, 50). -/
def oneFoodState : State ℚ :=
  { initialState (testEnv 100 100) with foodPieces := [{ x := 50, y := 50, radius := 12 }] }

/-- An agent standing on the food source of `oneFoodState`, last seen at distance 0. -/
def agentOnFood : Agent ℚ :=
  { testAgent 50 50 with lastFoodDistance := JNum.fin 0 }

/-- The local `randomSteer` of `update` for the agent `a1` left by the first
`calculateReward`. -/
def randomSteerOf (r : Draws α) (a1 : Agent α) : α :=
  (r.steer - 0.5) * (if a1.fitness > JNum.fin (-10) then 0.6 else 0.3)

/-- The heading of the agent of `update` after the two steering blocks, before the
movement block. -/
def steeredAngle (E : Env α) (s : State α) (r : Draws α) (a : Agent α) : α :=
  steerSensed s r
    (sense E s (calculateReward E s a).2 0)
    (sense E s (calculateReward E s a).2 (-s.SENSOR_ANGLE))
    (sense E s (calculateReward E s a).2 s.SENSOR_ANGLE)
    (randomSteerOf r (calculateReward E s a).2)
    (steerLost E s r (calculateReward E s a).2
      (sense E s (calculateReward E s a).2 0
        + sense E s (calculateReward E s a).2 (-s.SENSOR_ANGLE)
        + sense E s (calculateReward E s a).2 s.SENSOR_ANGLE))

/-- An agent whose fitness is -30, standing on the food source of `oneFoodState`. -/
def lostAgent : Agent ℚ :=
  { x := 50, y := 50, angle := 0, fitness := JNum.fin (-30),
    lastFoodDistance := JNum.fin 0 }

/-- Draws whose steering draw is 0.9 and whose other draws are one half. -/
def steerDraws : Draws ℚ :=
  { steer := 9 / 10, explore := 1 / 2, jump := 1 / 2, side := 1 / 2, jitter := 1 / 2 }

/-- The 25 sample offsets `(ox, oy)` of `sense`, in visiting order. -/
def sampleOffsets : List (Int × Int) := offsets (-2) 2 (-2) 2

/-- The sample offsets of `sense` whose point `(sensorX + ox, sensorY + oy)` has a
valid cell. -/
def validSamples (E : Env α) (sensorX sensorY : α) : List (Int × Int) :=
  sampleOffsets.filter
    (fun p => decide (0 ≤ getIdx E (sensorX + (p.1 : α)) (sensorY + (p.2 : α))))

/-- The signal of one cell: `min(trail * (0.3 + 1.2 c), 80) + food * FOOD_ATTRACTION`
with `c = min(simulationSteps / 3000, 1)`. -/
def cellSignal (s : State α) (cell : Nat) : α :=
  min (rd s.trailMap cell * (0.3 + 1.2 * min ((s.simulationSteps : α) / 3000) 1)) 80
    + rd s.foodMap cell * s.FOOD_ATTRACTION

/-- The decay step of the diffusion: `decay(v) = v * (1 - DECAY_SPEED * 0.001)`. -/
def decay (s : State α) (v : α) : α := v * (1 - s.DECAY_SPEED * 0.001)

/-- The pruning step of the diffusion: `prune(v) = v * (0.97 - 0.1 c)` if
`v < 2 + 8 c`, else `v`. -/
def prune (c v : α) : α := if v < 2 + 8 * c then v * (0.97 - 0.1 * c) else v

/-- The hard floor of the diffusion: `floor03(v) = 0` if `v < 0.3`, else `v`. -/
def floor03 (v : α) : α := if v < 0.3 then 0 else v

/-- The three grids have one cell per grid point, and the scratch grid is 0 outside
the interior cells. -/
def GridsOk (E : Env α) (s : State α) : Prop :=
  s.trailMap.size = E.width * E.height ∧ s.tempMap.size = E.width * E.height ∧
  s.foodMap.size = E.width * E.height ∧
  ∀ i, (¬ ∃ y x, (1 ≤ y ∧ y < E.height - 1) ∧ (1 ≤ x ∧ x < E.width - 1) ∧
    i = y * E.width + x) → rd s.tempMap i = 0

/-- The loaded 100 x 100 page with two food sources recorded, the farther one first. -/
def twoFoodState : State ℚ :=
  { initialState (testEnv 100 100) with
    foodPieces := [{ x := 60, y := 50, radius := 12 }, { x := 50, y := 50, radius := 12 }] }

/-- The loaded 100 x 100 page: no food source, empty grids. -/
def emptyState : State ℚ := initialState (testEnv 100 100)

/-- The sum of all cells of a grid. -/
def trailMass (g : Array α) : α := g.toList.sum

end SpecDefs

/-! ## Grid and loop lemmas -/

section Lemmas

variable {α : Type} [LinearOrderedField α] [FloorRing α]

theorem getIdx_eq_of_valid (E : Env α) (x y : α)
    (h : ¬ (⌊x⌋ < 0 ∨ ⌊x⌋ ≥ (E.width : Int) ∨ ⌊y⌋ < 0 ∨ ⌊y⌋ ≥ (E.height : Int))) :
    getIdx E x y = ⌊y⌋ * (E.width : Int) + ⌊x⌋ := by
  unfold getIdx
  simp only [h, if_false]

theorem getIdx_bounds (E : Env α) (x y : α)
    (h : ¬ (⌊x⌋ < 0 ∨ ⌊x⌋ ≥ (E.width : Int) ∨ ⌊y⌋ < 0 ∨ ⌊y⌋ ≥ (E.height : Int))) :
    0 ≤ getIdx E x y ∧ getIdx E x y < (E.width : Int) * (E.height : Int) := by
  rw [getIdx_eq_of_valid E x y h]
  push_neg at h
  obtain ⟨hx0, hxw, hy0, hyh⟩ := h
  constructor
  · positivity
  · have h1 : ⌊y⌋ + 1 ≤ (E.height : Int) := by omega
    have h2 : (⌊y⌋ + 1) * (E.width : Int) ≤ (E.height : Int) * (E.width : Int) :=
      Int.mul_le_mul_of_nonneg_right h1 (by positivity)
    nlinarith

theorem getIdx_neg_iff (E : Env α) (x y : α) :
    getIdx E x y = -1 ↔
      (⌊x⌋ < 0 ∨ ⌊x⌋ ≥ (E.width : Int) ∨ ⌊y⌋ < 0 ∨ ⌊y⌋ ≥ (E.height : Int)) := by
  constructor
  · intro h
    by_contra hc
    have := (getIdx_bounds E x y hc).1
    omega
  · intro h
    unfold getIdx
    simp only [h, if_true]

/-- A valid index is either the sentinel or a cell of the grid. -/
theorem getIdx_nonneg_lt (E : Env α) (x y : α) (h : 0 ≤ getIdx E x y) :
    (getIdx E x y).toNat < E.width * E.height := by
  have hv : ¬ (⌊x⌋ < 0 ∨ ⌊x⌋ ≥ (E.width : Int) ∨ ⌊y⌋ < 0 ∨ ⌊y⌋ ≥ (E.height : Int)) := by
    intro hc
    have := (getIdx_neg_iff E x y).2 hc
    omega
  have hb := (getIdx_bounds E x y hv).2
  have : ((getIdx E x y).toNat : Int) < ((E.width * E.height : Nat) : Int) := by
    rw [Int.toNat_of_nonneg h]
    push_cast
    exact hb
  exact_mod_cast this

theorem convergence_eq (t : Nat) : (convergence t : α) = min ((t : α) / 3000) 1 := by
  unfold convergence
  norm_num

theorem convergence_nonneg (t : Nat) : (0 : α) ≤ convergence t := by
  rw [convergence_eq]
  exact le_min (by positivity) zero_le_one

theorem convergence_le_one (t : Nat) : (convergence t : α) ≤ 1 := by
  rw [convergence_eq]
  exact min_le_right _ _

theorem depositMultiplier_pos (f : JNum α) : (0 : α) < depositMultiplier f := by
  unfold depositMultiplier
  split_ifs <;> norm_num

theorem size_wr (g : Array α) (i : Nat) (v : α) : (wr g i v).size = g.size := by
  simp [wr]

theorem rd_wr (g : Array α) (i j : Nat) (v : α) :
    rd (wr g i v) j = if i = j ∧ i < g.size then v else rd g j := by
  unfold rd wr
  by_cases h : i < g.size
  · simp only [Array.setD, h, Array.getD_eq_get?, dite_true]
    rw [Array.get?_set]
    by_cases e : i = j
    · subst e; simp [h]
    · simp [e]
  · simp [Array.setD, h]

theorem rd_wr_same (g : Array α) (i : Nat) (v : α) (h : i < g.size) :
    rd (wr g i v) i = v := by
  simp [rd_wr, h]

theorem rd_wr_ne (g : Array α) (i j : Nat) (v : α) (h : i ≠ j) :
    rd (wr g i v) j = rd g j := by
  simp [rd_wr, h]

theorem rd_fillZero (g : Array α) (i : Nat) : rd (fillZero g) i = 0 := by
  unfold rd fillZero
  by_cases h : i < g.size <;> simp [Array.getD, h]

theorem rd_mkArray_zero (n i : Nat) : rd (mkArray n (0 : α)) i = 0 := by
  unfold rd
  by_cases h : i < n <;> simp [Array.getD, h]

theorem size_fillZero (g : Array α) : (fillZero g).size = g.size := by
  simp [fillZero]

theorem rd_of_size_le (g : Array α) (i : Nat) (h : g.size ≤ i) : rd g i = 0 := by
  unfold rd
  simp [Array.getD, Nat.not_lt.mpr h]

/-- A property kept by every iteration is kept by the loop. -/
theorem foldl_invariant {σ κ : Type} (P : σ → Prop) (step : σ → κ → σ) (L : List κ)
    (init : σ) (h0 : P init) (hstep : ∀ s k, k ∈ L → P s → P (step s k)) :
    P (L.foldl step init) := by
  induction L generalizing init with
  | nil => simpa using h0
  | cons k L ih =>
    simp only [List.foldl_cons]
    apply ih
    · exact hstep init k (by simp) h0
    · intro s k' hk' hs
      exact hstep s k' (by simp [hk']) hs

theorem forInt_invariant {σ : Type} (P : σ → Prop) (lo hi : Int) (body : Int → σ → σ)
    (init : σ) (h0 : P init) (hstep : ∀ i s, lo ≤ i → i ≤ hi → P s → P (body i s)) :
    P (forInt lo hi body init) := by
  unfold forInt
  apply foldl_invariant P _ _ _ h0
  intro s k hk hs
  simp only [intRange, List.mem_map, List.mem_range] at hk
  obtain ⟨n, hn, rfl⟩ := hk
  apply hstep _ _ _ _ hs <;> omega

theorem forNat_invariant {σ : Type} (P : σ → Prop) (lo hi : Nat) (body : Nat → σ → σ)
    (init : σ) (h0 : P init) (hstep : ∀ i s, lo ≤ i → i < hi → P s → P (body i s)) :
    P (forNat lo hi body init) := by
  unfold forNat
  apply foldl_invariant P _ _ _ h0
  intro s k hk hs
  simp only [natRange, List.mem_map, List.mem_range] at hk
  obtain ⟨n, hn, rfl⟩ := hk
  apply hstep _ _ _ _ hs <;> omega

theorem ext_rd (a b : Array α) (hs : a.size = b.size) (h : ∀ i, rd a i = rd b i) : a = b := by
  apply Array.ext a b hs
  intro i h1 h2
  have := h i
  simpa [rd, Array.getD, h1, h2] using this

theorem mem_intRange (lo hi k : Int) : k ∈ intRange lo hi ↔ lo ≤ k ∧ k ≤ hi := by
  simp only [intRange, List.mem_map, List.mem_range]
  constructor
  · rintro ⟨n, hn, rfl⟩
    constructor <;> omega
  · rintro ⟨h1, h2⟩
    refine ⟨(k - lo).toNat, ?_, ?_⟩ <;> omega

theorem mem_natRange (lo hi k : Nat) : k ∈ natRange lo hi ↔ lo ≤ k ∧ k < hi := by
  simp only [natRange, List.mem_map, List.mem_range]
  constructor
  · rintro ⟨n, hn, rfl⟩
    constructor <;> omega
  · rintro ⟨h1, h2⟩
    refine ⟨k - lo, ?_, ?_⟩ <;> omega

theorem mem_offsets (a b c d : Int) (p : Int × Int) :
    p ∈ offsets a b c d ↔ (a ≤ p.1 ∧ p.1 ≤ b) ∧ (c ≤ p.2 ∧ p.2 ≤ d) := by
  simp only [offsets, List.mem_flatMap, List.mem_map, mem_intRange]
  constructor
  · rintro ⟨dy, hdy, dx, hdx, rfl⟩
    exact ⟨hdy, hdx⟩
  · rintro ⟨h1, h2⟩
    exact ⟨p.1, h1, p.2, h2, rfl⟩

/-- A loop nest over `dy` and `dx` is one loop over the offsets. -/
theorem forInt_nested {σ : Type} (a b c d : Int) (f : Int → Int → σ → σ) (init : σ) :
    forInt a b (fun dy t => forInt c d (fun dx t => f dx dy t) t) init
      = (offsets a b c d).foldl (fun t p => f p.2 p.1 t) init := by
  unfold forInt offsets
  generalize intRange a b = L
  induction L generalizing init with
  | nil => rfl
  | cons dy L ih =>
    simp only [List.foldl_cons, List.flatMap_cons, List.foldl_append, List.foldl_map]
    exact ih _

/-! ## Max-based stamping -/

theorem size_maxWrite (op : Option (Nat × α)) (g : Array α) :
    (maxWrite op g).size = g.size := by
  unfold maxWrite
  split
  · rfl
  · exact size_wr _ _ _

theorem rd_maxWrite (op : Option (Nat × α)) (g : Array α) (j : Nat) :
    rd (maxWrite op g) j = (hits g.size j [op]).foldl max (rd g j) := by
  unfold maxWrite hits
  rcases op with _ | ⟨i, v⟩
  · simp
  · simp only [rd_wr, List.filterMap_cons, List.filterMap_nil]
    by_cases h : i = j ∧ i < g.size
    · obtain ⟨rfl, h2⟩ := h
      simp [h2]
    · simp only [h, if_false, List.foldl_nil]

theorem size_foldl_maxWrite (L : List (Option (Nat × α))) (g : Array α) :
    (L.foldl (fun g op => maxWrite op g) g).size = g.size := by
  induction L generalizing g with
  | nil => rfl
  | cons op L ih =>
    simp only [List.foldl_cons]
    rw [ih, size_maxWrite]

theorem hits_cons (n j : Nat) (op : Option (Nat × α)) (L : List (Option (Nat × α))) :
    hits n j (op :: L) = hits n j [op] ++ hits n j L := by
  unfold hits
  rw [← List.filterMap_append]
  rfl

/-- The cell `j` after a list of max-writes is the maximum of its old value and
of the values written into it. -/
theorem rd_foldl_maxWrite (L : List (Option (Nat × α))) (g : Array α) (j : Nat) :
    rd (L.foldl (fun g op => maxWrite op g) g) j = (hits g.size j L).foldl max (rd g j) := by
  induction L generalizing g with
  | nil => rfl
  | cons op L ih =>
    simp only [List.foldl_cons]
    rw [ih, size_maxWrite, rd_maxWrite, hits_cons g.size j op L, List.foldl_append]

theorem le_foldl_max (vs : List α) (a : α) : a ≤ vs.foldl max a := by
  induction vs generalizing a with
  | nil => exact le_refl a
  | cons v vs ih =>
    simp only [List.foldl_cons]
    exact le_trans (le_max_left a v) (ih _)

theorem mem_le_foldl_max (vs : List α) (a v : α) (hv : v ∈ vs) : v ≤ vs.foldl max a := by
  induction vs generalizing a with
  | nil => simp at hv
  | cons u vs ih =>
    simp only [List.foldl_cons]
    rcases List.mem_cons.1 hv with h | h
    · rw [h]
      exact le_trans (le_max_right a u) (le_foldl_max vs _)
    · exact ih _ h

theorem foldl_max_of_le (vs : List α) (a : α) (h : ∀ v ∈ vs, v ≤ a) : vs.foldl max a = a := by
  induction vs generalizing a with
  | nil => rfl
  | cons u vs ih =>
    simp only [List.foldl_cons]
    have hu : u ≤ a := h u (by simp)
    rw [max_eq_left hu]
    exact ih a (fun v hv => h v (by simp [hv]))

theorem foldl_max_const (vs : List α) (a v : α) (hne : vs ≠ []) (h : ∀ u ∈ vs, u = v) :
    vs.foldl max a = max a v := by
  apply le_antisymm
  · have : vs.foldl max (max a v) = max a v :=
      foldl_max_of_le vs _ (fun u hu => by rw [h u hu]; exact le_max_right a v)
    have hmono : ∀ (ws : List α) (b c : α), b ≤ c → ws.foldl max b ≤ ws.foldl max c := by
      intro ws
      induction ws with
      | nil => intro b c hbc; exact hbc
      | cons w ws ihw =>
        intro b c hbc
        simp only [List.foldl_cons]
        exact ihw _ _ (max_le_max hbc (le_refl w))
    calc vs.foldl max a ≤ vs.foldl max (max a v) := hmono vs _ _ (le_max_left a v)
      _ = max a v := this
  · apply max_le (le_foldl_max vs a)
    obtain ⟨u, hu⟩ := List.exists_mem_of_ne_nil vs hne
    have := mem_le_foldl_max vs a u hu
    rwa [h u hu] at this

/-- Applying a list of max-writes a second time changes nothing. -/
theorem foldl_maxWrite_idem (L : List (Option (Nat × α))) (g : Array α) :
    L.foldl (fun g op => maxWrite op g) (L.foldl (fun g op => maxWrite op g) g)
      = L.foldl (fun g op => maxWrite op g) g := by
  apply ext_rd
  · rw [size_foldl_maxWrite]
  · intro j
    rw [rd_foldl_maxWrite L (L.foldl (fun g op => maxWrite op g) g) j, size_foldl_maxWrite]
    apply foldl_max_of_le
    intro v hv
    rw [rd_foldl_maxWrite]
    exact mem_le_foldl_max _ _ v hv

theorem foodCell_eq (E : Env α) (x y : α) (dx dy : Int) (g : Array α) :
    foodCell E x y dx dy g = maxWrite (foodOp E x y (dy, dx)) g := by
  unfold foodCell foodOp maxWrite
  by_cases h1 : E.sqrt ((dx : α) * (dx : α) + (dy : α) * (dy : α)) ≤ 40
  · by_cases h2 : getIdx E (x + (dx : α)) (y + (dy : α)) ≥ 0
    · simp only [h1, h2, if_true]
    · simp only [h1, h2, if_true, if_false]
  · simp only [h1, if_false]

theorem stampFood_eq (E : Env α) (x y : α) (g : Array α) :
    stampFood E x y g
      = ((offsets (-40) 40 (-40) 40).map (foodOp E x y)).foldl (fun g op => maxWrite op g) g := by
  unfold stampFood
  rw [forInt_nested, List.foldl_map]
  congr 1
  funext t p
  exact foodCell_eq E x y p.2 p.1 t

theorem mem_hits (n j : Nat) (L : List (Option (Nat × α))) (u : α) :
    u ∈ hits n j L ↔ some (j, u) ∈ L ∧ j < n := by
  unfold hits
  rw [List.mem_filterMap]
  constructor
  · rintro ⟨op, hop, hf⟩
    rcases op with _ | ⟨i, v⟩
    · simp at hf
    · by_cases h : i = j ∧ i < n
      · obtain ⟨rfl, h2⟩ := h
        simp only [h2, and_self, if_true, Option.some.injEq] at hf
        subst hf
        exact ⟨hop, h2⟩
      · simp only [h, if_false] at hf
        exact absurd hf (by simp)
  · rintro ⟨hmem, hlt⟩
    exact ⟨some (j, u), hmem, by simp [hlt]⟩

theorem index_inj (w X Y X' Y' : Int) (hX : 0 ≤ X) (hXw : X < w) (hX' : 0 ≤ X')
    (hXw' : X' < w) (h : Y * w + X = Y' * w + X') : X = X' ∧ Y = Y' := by
  have hw : 0 < w := by omega
  have hY : Y = Y' := by
    rcases lt_trichotomy Y Y' with hlt | heq | hgt
    · exfalso
      have h1 : (Y + 1) * w ≤ Y' * w := Int.mul_le_mul_of_nonneg_right (by omega) (by omega)
      nlinarith
    · exact heq
    · exfalso
      have h1 : (Y' + 1) * w ≤ Y * w := Int.mul_le_mul_of_nonneg_right (by omega) (by omega)
      nlinarith
  subst hY
  exact ⟨by omega, rfl⟩

/-- Two offsets from the same point that land in the same valid cell are equal. -/
theorem getIdx_offset_inj (E : Env α) (x y : α) (dx dy dx' dy' : Int)
    (h1 : 0 ≤ getIdx E (x + (dx : α)) (y + (dy : α)))
    (h2 : 0 ≤ getIdx E (x + (dx' : α)) (y + (dy' : α)))
    (h : (getIdx E (x + (dx : α)) (y + (dy : α))).toNat
      = (getIdx E (x + (dx' : α)) (y + (dy' : α))).toNat) :
    dx = dx' ∧ dy = dy' := by
  have heq : getIdx E (x + (dx : α)) (y + (dy : α)) = getIdx E (x + (dx' : α)) (y + (dy' : α)) := by
    have := congrArg (fun n : Nat => (n : Int)) h
    simp only [Int.toNat_of_nonneg h1, Int.toNat_of_nonneg h2] at this
    exact this
  have v1 : ¬ (⌊x + (dx : α)⌋ < 0 ∨ ⌊x + (dx : α)⌋ ≥ (E.width : Int) ∨
      ⌊y + (dy : α)⌋ < 0 ∨ ⌊y + (dy : α)⌋ ≥ (E.height : Int)) := by
    intro hc
    have := (getIdx_neg_iff E _ _).2 hc
    omega
  have v2 : ¬ (⌊x + (dx' : α)⌋ < 0 ∨ ⌊x + (dx' : α)⌋ ≥ (E.width : Int) ∨
      ⌊y + (dy' : α)⌋ < 0 ∨ ⌊y + (dy' : α)⌋ ≥ (E.height : Int)) := by
    intro hc
    have := (getIdx_neg_iff E _ _).2 hc
    omega
  rw [getIdx_eq_of_valid E _ _ v1, getIdx_eq_of_valid E _ _ v2] at heq
  push_neg at v1 v2
  simp only [Int.floor_add_int] at heq v1 v2
  have := index_inj (E.width : Int) (⌊x⌋ + dx) (⌊y⌋ + dy) (⌊x⌋ + dx') (⌊y⌋ + dy')
    v1.1 v1.2.1 v2.1 v2.2.1 heq
  constructor <;> omega

theorem sq_le_of_sqrt_le (E : Env α)
    (hsqrt : ∀ a : α, 0 ≤ a → 0 ≤ E.sqrt a ∧ a ≤ E.sqrt a ^ 2) (dx dy : Int) (R : Int)
    (hR : 0 ≤ R)
    (h : E.sqrt ((dx : α) * (dx : α) + (dy : α) * (dy : α)) ≤ (R : α)) :
    (-R ≤ dy ∧ dy ≤ R) ∧ (-R ≤ dx ∧ dx ≤ R) := by
  have hnn : (0 : α) ≤ (dx : α) * (dx : α) + (dy : α) * (dy : α) :=
    add_nonneg (mul_self_nonneg _) (mul_self_nonneg _)
  obtain ⟨h0, h1⟩ := hsqrt _ hnn
  have hR' : (0 : α) ≤ (R : α) := by exact_mod_cast hR
  have h2 : (dx : α) * (dx : α) + (dy : α) * (dy : α) ≤ (R : α) ^ 2 := by
    calc (dx : α) * (dx : α) + (dy : α) * (dy : α)
        ≤ E.sqrt ((dx : α) * (dx : α) + (dy : α) * (dy : α)) ^ 2 := h1
      _ ≤ (R : α) ^ 2 := by nlinarith
  have h3 : dx * dx + dy * dy ≤ R ^ 2 := by exact_mod_cast h2
  refine ⟨⟨?_, ?_⟩, ⟨?_, ?_⟩⟩ <;> nlinarith [mul_self_nonneg dx, mul_self_nonneg dy]

theorem testEnv_sqrt (w h : Nat) (a : ℚ) (ha : 0 ≤ a) :
    0 ≤ (testEnv w h).sqrt a ∧ a ≤ (testEnv w h).sqrt a ^ 2 := by
  simp only [testEnv]
  by_cases h0 : a ≤ 0
  · have : a = 0 := le_antisymm h0 ha
    subst this
    norm_num
  · simp only [h0, if_false]
    constructor
    · linarith
    · nlinarith [sq_nonneg (a - 1)]

theorem mousedown_of_outside (E : Env α) (s : State α) (x y : α) (rnd : Nat → α)
    (hout : isInCircle E x y = false) : mousedown E s x y rnd = s := by
  unfold mousedown
  simp only [hout, if_true]

theorem mousedown_mode (E : Env α) (s : State α) (x y : α) (rnd : Nat → α) :
    (mousedown E s x y rnd).mode = s.mode := by
  unfold mousedown
  split_ifs <;> rfl

theorem mousedown_mold_foodMap (E : Env α) (s : State α) (x y : α) (rnd : Nat → α)
    (hmode : s.mode = Mode.mold) : (mousedown E s x y rnd).foodMap = s.foodMap := by
  unfold mousedown
  split_ifs <;> rfl

theorem mousedown_food_foodMap (E : Env α) (s : State α) (x y : α) (rnd : Nat → α)
    (hmode : s.mode = Mode.food) (hin : isInCircle E x y = true) :
    (mousedown E s x y rnd).foodMap = stampFood E x y s.foodMap := by
  unfold mousedown
  simp [hmode, hin]

/-! ## Diffusion -/

/-- A loop nest over two lists is one loop over the list of pairs. -/
theorem foldl_nested {σ κ₁ κ₂ : Type} (L₁ : List κ₁) (L₂ : List κ₂) (f : κ₁ → κ₂ → σ → σ)
    (init : σ) :
    L₁.foldl (fun t a => L₂.foldl (fun t b => f a b t) t) init
      = (L₁.flatMap (fun a => L₂.map (fun b => (a, b)))).foldl (fun t p => f p.1 p.2 t) init := by
  induction L₁ generalizing init with
  | nil => rfl
  | cons a L ih =>
    simp only [List.foldl_cons, List.flatMap_cons, List.foldl_append, List.foldl_map]
    exact ih _

theorem size_foldl_wr (f : Nat → α) (L : List Nat) (t : Array α) :
    (L.foldl (fun t i => wr t i (f i)) t).size = t.size := by
  induction L generalizing t with
  | nil => rfl
  | cons k L ih =>
    simp only [List.foldl_cons]
    rw [ih, size_wr]

/-- Cells after a loop that writes `f i` into each listed cell `i`. -/
theorem rd_foldl_wr (f : Nat → α) (L : List Nat) (t : Array α) (j : Nat) :
    rd (L.foldl (fun t i => wr t i (f i)) t) j
      = if j ∈ L ∧ j < t.size then f j else rd t j := by
  induction L generalizing t with
  | nil => simp
  | cons k L ih =>
    simp only [List.foldl_cons]
    rw [ih, size_wr, rd_wr]
    by_cases hj : j ∈ L ∧ j < t.size
    · have : j ∈ k :: L ∧ j < t.size := ⟨List.mem_cons_of_mem _ hj.1, hj.2⟩
      simp only [hj, this, and_self, if_true]
    · simp only [hj, if_false]
      by_cases hk : k = j ∧ k < t.size
      · obtain ⟨rfl, hk2⟩ := hk
        simp [hk2]
      · simp only [hk, if_false]
        have : ¬ (j ∈ k :: L ∧ j < t.size) := by
          rintro ⟨hm, hlt⟩
          rcases List.mem_cons.1 hm with h | h
          · exact hk ⟨h.symm, by rw [← h]; exact hlt⟩
          · exact hj ⟨h, hlt⟩
        simp only [this, if_false]

theorem blur_eq (E : Env α) (trailMap tempMap : Array α) :
    blur E trailMap tempMap
      = (interiorCells E).foldl (fun t i => wr t i (mean9 E trailMap i)) tempMap := by
  unfold blur forNat interiorCells
  rw [foldl_nested (natRange 1 (E.height - 1)) (natRange 1 (E.width - 1))
    (fun y x t => blurCell E trailMap x y t), List.foldl_map]
  rfl

theorem mem_interiorCells (E : Env α) (j : Nat) :
    j ∈ interiorCells E ↔
      ∃ y x, (1 ≤ y ∧ y < E.height - 1) ∧ (1 ≤ x ∧ x < E.width - 1) ∧ j = y * E.width + x := by
  simp only [interiorCells, List.mem_map, List.mem_flatMap, mem_natRange]
  constructor
  · rintro ⟨p, ⟨y, hy, x, hx, rfl⟩, rfl⟩
    exact ⟨y, x, hy, hx, rfl⟩
  · rintro ⟨y, x, hy, hx, rfl⟩
    exact ⟨(y, x), ⟨y, hy, x, hx, rfl⟩, rfl⟩

theorem size_blur (E : Env α) (trailMap tempMap : Array α) :
    (blur E trailMap tempMap).size = tempMap.size := by
  rw [blur_eq, size_foldl_wr]

/-- The scratch grid after the blur: the 3x3 mean in the interior cells, the old
scratch value elsewhere. -/
theorem rd_blur (E : Env α) (trailMap tempMap : Array α) (j : Nat) :
    rd (blur E trailMap tempMap) j
      = if j ∈ interiorCells E ∧ j < tempMap.size then mean9 E trailMap j else rd tempMap j := by
  rw [blur_eq, rd_foldl_wr]

theorem size_blendCell (s : State α) (tempMap : Array α) (i : Nat) (t : Array α) :
    (blendCell s tempMap i t).size = t.size := by
  simp only [blendCell]
  split_ifs <;> simp only [size_wr]

theorem rd_blendCell (s : State α) (tempMap : Array α) (i : Nat) (t : Array α) (j : Nat)
    (hi : i < t.size) :
    rd (blendCell s tempMap i t) j
      = if j = i then blendValue s (rd tempMap i) (rd t i) else rd t j := by
  simp only [blendCell, blendValue]
  by_cases hj : j = i
  · subst hj
    simp only [if_true]
    split_ifs <;> simp_all [rd_wr, size_wr]
  · have hne : i ≠ j := fun h => hj h.symm
    simp only [hj, if_false]
    split_ifs <;> simp [rd_wr, hne]

/-- Cells after a loop whose iteration `k` rewrites cell `k` from its old value. -/
theorem rd_foldl_cellwise (G : Nat → α → α) (step : Nat → Array α → Array α)
    (hsize : ∀ k t, (step k t).size = t.size)
    (hstep : ∀ k t j, k < t.size →
      rd (step k t) j = if j = k then G k (rd t k) else rd t j)
    (L : List Nat) (hnd : L.Nodup) (t : Array α) (hL : ∀ k ∈ L, k < t.size) (j : Nat) :
    rd (L.foldl (fun t k => step k t) t) j = if j ∈ L then G j (rd t j) else rd t j := by
  induction L generalizing t with
  | nil => simp
  | cons k L ih =>
    simp only [List.foldl_cons]
    have hk : k < t.size := hL k (by simp)
    have hnd' := List.nodup_cons.1 hnd
    rw [ih hnd'.2 (step k t) (fun k' hk' => by rw [hsize]; exact hL k' (by simp [hk']))]
    rw [hstep k t j hk]
    by_cases hjk : j = k
    · subst hjk
      simp [hnd'.1]
    · simp [hjk]

theorem size_foldl_step (step : Nat → Array α → Array α)
    (hsize : ∀ k t, (step k t).size = t.size) (L : List Nat) (t : Array α) :
    (L.foldl (fun t k => step k t) t).size = t.size := by
  induction L generalizing t with
  | nil => rfl
  | cons k L ih =>
    simp only [List.foldl_cons]
    rw [ih, hsize]

theorem nodup_natRange (lo hi : Nat) : (natRange lo hi).Nodup := by
  unfold natRange
  apply List.Nodup.map _ (List.nodup_range _)
  intro a b h
  simpa using h

theorem size_diffuse_trailMap (E : Env α) (s : State α) :
    (diffuseTrails E s).trailMap.size = s.trailMap.size := by
  unfold diffuseTrails forNat
  exact size_foldl_step (fun i t => blendCell s (blur E s.trailMap s.tempMap) i t)
    (fun k t => size_blendCell s _ k t) _ _

theorem diffuse_tempMap (E : Env α) (s : State α) :
    (diffuseTrails E s).tempMap = blur E s.trailMap s.tempMap := rfl

/-- Each trail cell after `diffuseTrails` is `blendValue` of the blurred scratch
cell and of the old trail cell. -/
theorem rd_diffuse_trailMap (E : Env α) (s : State α) (j : Nat) (hj : j < s.trailMap.size) :
    rd (diffuseTrails E s).trailMap j
      = blendValue s (rd (blur E s.trailMap s.tempMap) j) (rd s.trailMap j) := by
  unfold diffuseTrails forNat
  simp only
  rw [rd_foldl_cellwise (fun k v => blendValue s (rd (blur E s.trailMap s.tempMap) k) v)
    (fun i t => blendCell s (blur E s.trailMap s.tempMap) i t)
    (fun k t => size_blendCell s _ k t)
    (fun k t j hk => rd_blendCell s _ k t j hk)
    (natRange 0 s.trailMap.size) (nodup_natRange _ _) s.trailMap
    (fun k hk => ((mem_natRange _ _ _).1 hk).2) j]
  have : j ∈ natRange 0 s.trailMap.size := (mem_natRange _ _ _).2 ⟨Nat.zero_le _, hj⟩
  simp only [this, if_true]

theorem blendValue_bounds (s : State α) (m v : α) (hm : 0 ≤ m) (hv : 0 ≤ v)
    (hDR0 : 0 ≤ s.DIFFUSE_RATE) (hDR1 : s.DIFFUSE_RATE ≤ 1)
    (hDS0 : 0 ≤ s.DECAY_SPEED) (hDS1 : s.DECAY_SPEED ≤ 1000) :
    0 ≤ blendValue s m v ∧
      blendValue s m v ≤ m * s.DIFFUSE_RATE + v * (1 - s.DIFFUSE_RATE) := by
  have hc0 : (0 : α) ≤ convergence s.simulationSteps := convergence_nonneg _
  have hc1 : (convergence s.simulationSteps : α) ≤ 1 := convergence_le_one _
  have hb : 0 ≤ m * s.DIFFUSE_RATE + v * (1 - s.DIFFUSE_RATE) :=
    add_nonneg (mul_nonneg hm hDR0) (mul_nonneg hv (by linarith))
  have hf0 : (0 : α) ≤ 1 - s.DECAY_SPEED * 0.001 := by
    norm_num
    linarith
  have hf1 : (1 : α) - s.DECAY_SPEED * 0.001 ≤ 1 := by
    norm_num
    linarith
  have hd0 : 0 ≤ (m * s.DIFFUSE_RATE + v * (1 - s.DIFFUSE_RATE)) * (1 - s.DECAY_SPEED * 0.001) :=
    mul_nonneg hb hf0
  have hd1 : (m * s.DIFFUSE_RATE + v * (1 - s.DIFFUSE_RATE)) * (1 - s.DECAY_SPEED * 0.001)
      ≤ m * s.DIFFUSE_RATE + v * (1 - s.DIFFUSE_RATE) := by
    calc (m * s.DIFFUSE_RATE + v * (1 - s.DIFFUSE_RATE)) * (1 - s.DECAY_SPEED * 0.001)
        ≤ (m * s.DIFFUSE_RATE + v * (1 - s.DIFFUSE_RATE)) * 1 :=
          mul_le_mul_of_nonneg_left hf1 hb
      _ = m * s.DIFFUSE_RATE + v * (1 - s.DIFFUSE_RATE) := mul_one _
  have hr0 : (0 : α) ≤ 0.97 - convergence s.simulationSteps * 0.1 := by
    norm_num
    linarith
  have hr1 : (0.97 : α) - convergence s.simulationSteps * 0.1 ≤ 1 := by
    norm_num
    linarith
  have hp1 : (m * s.DIFFUSE_RATE + v * (1 - s.DIFFUSE_RATE)) * (1 - s.DECAY_SPEED * 0.001)
      * (0.97 - convergence s.simulationSteps * 0.1)
      ≤ (m * s.DIFFUSE_RATE + v * (1 - s.DIFFUSE_RATE)) * (1 - s.DECAY_SPEED * 0.001) := by
    calc (m * s.DIFFUSE_RATE + v * (1 - s.DIFFUSE_RATE)) * (1 - s.DECAY_SPEED * 0.001)
          * (0.97 - convergence s.simulationSteps * 0.1)
        ≤ (m * s.DIFFUSE_RATE + v * (1 - s.DIFFUSE_RATE)) * (1 - s.DECAY_SPEED * 0.001) * 1 :=
          mul_le_mul_of_nonneg_left hr1 hd0
      _ = (m * s.DIFFUSE_RATE + v * (1 - s.DIFFUSE_RATE)) * (1 - s.DECAY_SPEED * 0.001) :=
          mul_one _
  simp only [blendValue]
  split_ifs
  · exact ⟨le_refl _, hb⟩
  · exact ⟨mul_nonneg hd0 hr0, le_trans hp1 hd1⟩
  · exact ⟨le_refl _, hb⟩
  · exact ⟨hd0, hd1⟩

theorem mean9_bounds (E : Env α) (g : Array α) (i : Nat) (B : α)
    (hg : ∀ k, 0 ≤ rd g k ∧ rd g k ≤ B) : 0 ≤ mean9 E g i ∧ mean9 E g i ≤ B := by
  unfold mean9
  have h0 := hg i
  have h1 := hg (i - 1)
  have h2 := hg (i + 1)
  have h3 := hg (i - E.width)
  have h4 := hg (i + E.width)
  have h5 := hg (i - E.width - 1)
  have h6 := hg (i - E.width + 1)
  have h7 := hg (i + E.width - 1)
  have h8 := hg (i + E.width + 1)
  constructor
  · apply div_nonneg _ (by norm_num)
    linarith [h0.1, h1.1, h2.1, h3.1, h4.1, h5.1, h6.1, h7.1, h8.1]
  · rw [div_le_iff₀ (by norm_num : (0 : α) < 9)]
    linarith [h0.2, h1.2, h2.2, h3.2, h4.2, h5.2, h6.2, h7.2, h8.2]

theorem mean9_nonneg (E : Env α) (g : Array α) (i : Nat) (hg : ∀ k, 0 ≤ rd g k) :
    0 ≤ mean9 E g i := by
  unfold mean9
  apply div_nonneg _ (by norm_num)
  linarith [hg i, hg (i - 1), hg (i + 1), hg (i - E.width), hg (i + E.width),
    hg (i - E.width - 1), hg (i - E.width + 1), hg (i + E.width - 1), hg (i + E.width + 1)]

theorem rd_blur_nonneg (E : Env α) (trailMap tempMap : Array α)
    (htrail : ∀ k, 0 ≤ rd trailMap k) (htemp : ∀ k, 0 ≤ rd tempMap k) (j : Nat) :
    0 ≤ rd (blur E trailMap tempMap) j := by
  rw [rd_blur]
  split_ifs
  · exact mean9_nonneg E trailMap j htrail
  · exact htemp j

theorem rd_blur_bounds (E : Env α) (trailMap tempMap : Array α) (B : α)
    (htrail : ∀ k, 0 ≤ rd trailMap k ∧ rd trailMap k ≤ B)
    (htemp : ∀ k, 0 ≤ rd tempMap k ∧ rd tempMap k ≤ B) (j : Nat) :
    0 ≤ rd (blur E trailMap tempMap) j ∧ rd (blur E trailMap tempMap) j ≤ B := by
  rw [rd_blur]
  split_ifs
  · exact mean9_bounds E trailMap j B htrail
  · exact htemp j

/-- Each trail cell after `diffuseTrails` is between 0 and the blend of its scratch
value and its old value. -/
theorem rd_diffuse_le_blend (E : Env α) (s : State α)
    (htrail : ∀ k, 0 ≤ rd s.trailMap k) (htemp : ∀ k, 0 ≤ rd s.tempMap k)
    (hDR0 : 0 ≤ s.DIFFUSE_RATE) (hDR1 : s.DIFFUSE_RATE ≤ 1)
    (hDS0 : 0 ≤ s.DECAY_SPEED) (hDS1 : s.DECAY_SPEED ≤ 1000) (j : Nat) :
    0 ≤ rd (diffuseTrails E s).trailMap j ∧
    rd (diffuseTrails E s).trailMap j
      ≤ rd (blur E s.trailMap s.tempMap) j * s.DIFFUSE_RATE
        + rd s.trailMap j * (1 - s.DIFFUSE_RATE) := by
  have hm := rd_blur_nonneg E s.trailMap s.tempMap htrail htemp j
  by_cases hj : j < s.trailMap.size
  · rw [rd_diffuse_trailMap E s j hj]
    exact blendValue_bounds s _ _ hm (htrail j) hDR0 hDR1 hDS0 hDS1
  · have h0 : rd (diffuseTrails E s).trailMap j = 0 := by
      apply rd_of_size_le
      rw [size_diffuse_trailMap]
      exact Nat.not_lt.1 hj
    rw [h0]
    exact ⟨le_refl _, add_nonneg (mul_nonneg hm hDR0) (mul_nonneg (htrail j) (by linarith))⟩

/-! ## Mold blob -/

theorem moldCell_range (E : Env α) (x y falloff base gain : α) (dx dy : Int) (t : Array α)
    (hsqrt : ∀ a : α, 0 ≤ E.sqrt a)
    (hval : ∀ d : α, 0 ≤ d → d ≤ 18 →
      0 ≤ base + (1 - (d / 18) * falloff) * gain ∧ base + (1 - (d / 18) * falloff) * gain ≤ 255)
    (ht : ∀ i, 0 ≤ rd t i ∧ rd t i ≤ 255) (i : Nat) :
    0 ≤ rd (moldCell E x y falloff base gain dx dy t) i ∧
      rd (moldCell E x y falloff base gain dx dy t) i ≤ 255 := by
  simp only [moldCell]
  split_ifs with h1 h2
  · rw [rd_wr]
    split_ifs
    · have hv := hval _ (hsqrt ((dx : α) * (dx : α) + (dy : α) * (dy : α))) h1
      exact ⟨le_trans (ht _).1 (le_max_left _ _), max_le (ht _).2 hv.2⟩
    · exact ht i
  · exact ht i
  · exact ht i

theorem stampMold_range (E : Env α) (x y falloff base gain : α) (t : Array α)
    (hsqrt : ∀ a : α, 0 ≤ E.sqrt a)
    (hval : ∀ d : α, 0 ≤ d → d ≤ 18 →
      0 ≤ base + (1 - (d / 18) * falloff) * gain ∧ base + (1 - (d / 18) * falloff) * gain ≤ 255)
    (ht : ∀ i, 0 ≤ rd t i ∧ rd t i ≤ 255) (i : Nat) :
    0 ≤ rd (stampMold E x y falloff base gain t) i ∧
      rd (stampMold E x y falloff base gain t) i ≤ 255 := by
  have key : ∀ i, 0 ≤ rd (stampMold E x y falloff base gain t) i ∧
      rd (stampMold E x y falloff base gain t) i ≤ 255 := by
    unfold stampMold
    apply forInt_invariant (fun g : Array α => ∀ i, 0 ≤ rd g i ∧ rd g i ≤ 255) _ _ _ _ ht
    intro dy g _ _ hg
    apply forInt_invariant (fun g : Array α => ∀ i, 0 ≤ rd g i ∧ rd g i ≤ 255) _ _ _ _ hg
    intro dx g' _ _ hg' k
    exact moldCell_range E x y falloff base gain dx dy g' hsqrt hval hg' k
  exact key i

theorem click_blob_value (d : α) (h0 : 0 ≤ d) (h18 : d ≤ 18) :
    (0 : α) ≤ 120 + (1 - (d / 18) * 0.5) * 80 ∧ (120 : α) + (1 - (d / 18) * 0.5) * 80 ≤ 255 := by
  have h1 : 0 ≤ d / 18 := div_nonneg h0 (by norm_num)
  have h2 : d / 18 ≤ 1 := by
    rw [div_le_one (by norm_num : (0 : α) < 18)]
    exact h18
  constructor <;> norm_num <;> nlinarith

theorem auto_blob_value (d : α) (h0 : 0 ≤ d) (h18 : d ≤ 18) :
    (0 : α) ≤ 150 + (1 - (d / 18) * 0.6) * 70 ∧ (150 : α) + (1 - (d / 18) * 0.6) * 70 ≤ 255 := by
  have h1 : 0 ≤ d / 18 := div_nonneg h0 (by norm_num)
  have h2 : d / 18 ≤ 1 := by
    rw [div_le_one (by norm_num : (0 : α) < 18)]
    exact h18
  constructor <;> norm_num <;> nlinarith

theorem placeFood_trailMap (E : Env α) (numFood : Nat) (rndAngle rndDist : Nat → α)
    (fuel attempts : Nat) (s : State α) :
    (placeFood E numFood rndAngle rndDist fuel attempts s).trailMap = s.trailMap := by
  induction fuel generalizing attempts s with
  | zero => rfl
  | succ n ih =>
    simp only [placeFood]
    split_ifs
    · rw [ih]
    · rw [ih]
    · rfl

theorem autoSetup_trailMap (E : Env α) (s : State α) (numFood : Nat)
    (rnd rndAngle rndDist : Nat → α) :
    (autoSetup E s numFood rnd rndAngle rndDist).trailMap
      = stampMold E ((E.width : α) / 2) ((E.height : α) / 2) 0.6 150 70 (fillZero s.trailMap) := by
  unfold autoSetup
  simp only [placeFood_trailMap]

theorem mousedown_trailMap_cases (E : Env α) (s : State α) (x y : α) (rnd : Nat → α) :
    (mousedown E s x y rnd).trailMap = s.trailMap ∨
    (mousedown E s x y rnd).trailMap = stampMold E x y 0.5 120 80 s.trailMap := by
  unfold mousedown
  split_ifs
  · exact Or.inl rfl
  · exact Or.inr rfl
  · exact Or.inl rfl

theorem deposit_range (E : Env α) (s : State α) (a : Agent α)
    (hD : 0 ≤ s.DEPOSIT_AMOUNT)
    (ht : ∀ i, 0 ≤ rd s.trailMap i ∧ rd s.trailMap i ≤ 255) (i : Nat) :
    0 ≤ rd (deposit E s a) i ∧ rd (deposit E s a) i ≤ 255 := by
  simp only [deposit]
  split_ifs
  · rw [rd_wr]
    split_ifs
    · have hm := depositMultiplier_pos a.fitness
      have hpos : 0 ≤ s.DEPOSIT_AMOUNT * depositMultiplier a.fitness :=
        mul_nonneg hD (le_of_lt hm)
      exact ⟨le_min (add_nonneg (ht _).1 hpos) (by norm_num), min_le_right _ _⟩
    · exact ht i
  · exact ht i

theorem stampFood_mono (E : Env α) (x y : α) (g : Array α) (j : Nat) :
    rd g j ≤ rd (stampFood E x y g) j := by
  rw [stampFood_eq, rd_foldl_maxWrite]
  exact le_foldl_max _ _

theorem placeFood_foodMap_mono (E : Env α) (numFood : Nat) (rndAngle rndDist : Nat → α)
    (fuel attempts : Nat) (s : State α) (j : Nat) :
    rd s.foodMap j ≤ rd (placeFood E numFood rndAngle rndDist fuel attempts s).foodMap j := by
  induction fuel generalizing attempts s with
  | zero => exact le_refl _
  | succ n ih =>
    simp only [placeFood]
    split_ifs
    · refine le_trans ?_ (ih (attempts + 1) _)
      exact stampFood_mono E _ _ s.foodMap j
    · exact ih (attempts + 1) s
    · exact le_refl _

end Lemmas

/-! ## Coordinates: `getIdx`, `isInCircle`, `convergence` -/

section Claims

variable {α : Type} [LinearOrderedField α] [FloorRing α]

/-- C6: `getIdx` is a total function; it returns the sentinel `-1` exactly when a
floored coordinate is outside the grid rectangle, and otherwise returns
`floor(y) * width + floor(x)`, which is a valid index `0 <= idx < width * height`. -/
theorem getIdx_total (E : Env α) (x y : α) :
    (getIdx E x y = -1 ↔
      (⌊x⌋ < 0 ∨ ⌊x⌋ ≥ (E.width : Int) ∨ ⌊y⌋ < 0 ∨ ⌊y⌋ ≥ (E.height : Int))) ∧
    (getIdx E x y = -1 ∨
      (getIdx E x y = ⌊y⌋ * (E.width : Int) + ⌊x⌋ ∧ 0 ≤ getIdx E x y ∧
        getIdx E x y < (E.width : Int) * (E.height : Int) ∧
        (getIdx E x y).toNat < E.width * E.height)) := by
  refine ⟨getIdx_neg_iff E x y, ?_⟩
  by_cases h : (⌊x⌋ < 0 ∨ ⌊x⌋ ≥ (E.width : Int) ∨ ⌊y⌋ < 0 ∨ ⌊y⌋ ≥ (E.height : Int))
  · exact Or.inl ((getIdx_neg_iff E x y).2 h)
  · have hb := getIdx_bounds E x y h
    exact Or.inr ⟨getIdx_eq_of_valid E x y h, hb.1, hb.2, getIdx_nonneg_lt E x y hb.1⟩

theorem isInCircle_iff (E : Env α) (x y : α) :
    isInCircle E x y = true ↔
      (x - (E.width : α) / 2) ^ 2 + (y - (E.height : α) / 2) ^ 2
        ≤ ((E.width : α) / 2 - 10) ^ 2 := by
  unfold isInCircle
  simp only [decide_eq_true_eq]
  constructor <;> intro h <;> nlinarith [h]

/-- C7 (as stated) fails on a grid that is wider than high: on a 100 x 40 grid the
point (50, 35) passes `isInCircle` although it is outside the circle of radius
`min(width, height)/2 - 10` around the centre. -/
theorem isInCircle_not_min_radius :
    ¬ (isInCircle (testEnv 100 40) 50 35 = true ↔
        ((50 : ℚ) - ((100 : Nat) : ℚ) / 2) ^ 2 + ((35 : ℚ) - ((40 : Nat) : ℚ) / 2) ^ 2
          ≤ (min (((100 : Nat) : ℚ)) (((40 : Nat) : ℚ)) / 2 - 10) ^ 2) := by
  rw [isInCircle_iff]
  norm_num [testEnv]

/-- C7 (amended): `isInCircle(x, y)` is true iff
`(x - width/2)^2 + (y - height/2)^2 <= (width/2 - 10)^2`; the radius is taken from
the width alone.  When `width <= height` this is the claimed circle of radius
`min(width, height)/2 - 10`. -/
theorem isInCircle_spec (E : Env α) (x y : α) :
    (isInCircle E x y = true ↔
      (x - (E.width : α) / 2) ^ 2 + (y - (E.height : α) / 2) ^ 2
        ≤ ((E.width : α) / 2 - 10) ^ 2) ∧
    (E.width ≤ E.height →
      (isInCircle E x y = true ↔
        (x - (E.width : α) / 2) ^ 2 + (y - (E.height : α) / 2) ^ 2
          ≤ (min (E.width : α) (E.height : α) / 2 - 10) ^ 2)) := by
  refine ⟨isInCircle_iff E x y, ?_⟩
  intro hwh
  have hc : (E.width : α) ≤ (E.height : α) := by exact_mod_cast hwh
  rw [min_eq_left hc]
  exact isInCircle_iff E x y

theorem isInCircle_spec_witness :
    (testEnv 100 120).width ≤ (testEnv 100 120).height ∧
    (isInCircle (testEnv 100 120) 50 95 = true ↔
      ((50 : ℚ) - ((testEnv 100 120).width : ℚ) / 2) ^ 2
          + ((95 : ℚ) - ((testEnv 100 120).height : ℚ) / 2) ^ 2
        ≤ (min ((testEnv 100 120).width : ℚ) ((testEnv 100 120).height : ℚ) / 2 - 10) ^ 2) :=
  ⟨by decide, (isInCircle_spec (testEnv 100 120) 50 95).2 (by decide)⟩

/-- C5: the convergence ramp `min(t / 3000, 1)` is non-decreasing in the tick
count, lies in [0, 1], equals 1 exactly from tick 3000 on and is below 1 exactly
before tick 3000. -/
theorem convergence_ramp (s t : Nat) (hst : s ≤ t) :
    (convergence s : α) ≤ convergence t ∧
    (0 : α) ≤ convergence t ∧ (convergence t : α) ≤ 1 ∧
    ((convergence t : α) = 1 ↔ 3000 ≤ t) ∧
    ((convergence t : α) < 1 ↔ t < 3000) := by
  have hdiv : ∀ n : Nat, ((n : α) / 3000 < 1 ↔ n < 3000) := by
    intro n
    rw [div_lt_one (by norm_num : (0 : α) < 3000)]
    exact_mod_cast Iff.rfl
  have hlt : ((convergence t : α) < 1 ↔ t < 3000) := by
    rw [convergence_eq, min_lt_iff]
    constructor
    · rintro (h | h)
      · exact (hdiv t).1 h
      · exact absurd h (lt_irrefl _)
    · intro h
      exact Or.inl ((hdiv t).2 h)
  refine ⟨?_, convergence_nonneg t, convergence_le_one t, ?_, hlt⟩
  · rw [convergence_eq, convergence_eq]
    apply min_le_min_right
    apply div_le_div_of_nonneg_right _ (by norm_num : (0 : α) ≤ 3000)
    exact_mod_cast hst
  · constructor
    · intro h
      by_contra hc
      have := hlt.2 (by omega)
      rw [h] at this
      exact lt_irrefl _ this
    · intro h
      have h1 : ¬ ((convergence t : α) < 1) := fun hc => by
        have := hlt.1 hc
        omega
      exact le_antisymm (convergence_le_one t) (not_lt.1 h1)

theorem convergence_ramp_witness :
    (1500 : Nat) ≤ 3000 ∧
    ((convergence 1500 : ℚ) ≤ convergence 3000 ∧
    (0 : ℚ) ≤ convergence 3000 ∧ (convergence 3000 : ℚ) ≤ 1 ∧
    ((convergence 3000 : ℚ) = 1 ↔ 3000 ≤ 3000) ∧
    ((convergence 3000 : ℚ) < 1 ↔ 3000 < 3000)) :=
  ⟨by decide, convergence_ramp 1500 3000 (by decide)⟩

/-! ## Reset -/

/-- C10: `clearSim`, from any state, yields empty agent, food-source and mold-source
lists, trail and food grids of unchanged size whose cells are all 0, tick counter 0
and `running = false`. -/
theorem clearSim_resets (s : State α) :
    (clearSim s).agents = [] ∧ (clearSim s).foodPieces = [] ∧
    (clearSim s).moldSources = [] ∧
    (clearSim s).trailMap.size = s.trailMap.size ∧
    (clearSim s).foodMap.size = s.foodMap.size ∧
    (∀ v ∈ (clearSim s).trailMap.toList, v = 0) ∧
    (∀ v ∈ (clearSim s).foodMap.toList, v = 0) ∧
    (∀ i, rd (clearSim s).trailMap i = 0) ∧ (∀ i, rd (clearSim s).foodMap i = 0) ∧
    (clearSim s).simulationSteps = 0 ∧ (clearSim s).running = false := by
  refine ⟨rfl, rfl, rfl, size_fillZero _, size_fillZero _, ?_, ?_, ?_, ?_, rfl, rfl⟩
  · intro v hv
    simp only [clearSim, fillZero, Array.toList_mkArray] at hv
    exact List.eq_of_mem_replicate hv
  · intro v hv
    simp only [clearSim, fillZero, Array.toList_mkArray] at hv
    exact List.eq_of_mem_replicate hv
  · intro i
    exact rd_fillZero _ i
  · intro i
    exact rd_fillZero _ i

end Claims

/-! ## Deposit -/

section Deposit

variable {α : Type} [LinearOrderedField α] [FloorRing α]

theorem rd_deposit_cell (E : Env α) (s : State α) (a : Agent α)
    (hsize : s.trailMap.size = E.width * E.height) (hidx : 0 ≤ getIdx E a.x a.y) :
    rd (deposit E s a) (getIdx E a.x a.y).toNat
      = min (rd s.trailMap (getIdx E a.x a.y).toNat
          + s.DEPOSIT_AMOUNT * depositMultiplier a.fitness) 255 := by
  have hlt : (getIdx E a.x a.y).toNat < s.trailMap.size := by
    rw [hsize]
    exact getIdx_nonneg_lt E a.x a.y hidx
  unfold deposit
  simp only [ge_iff_le, hidx, if_true]
  rw [rd_wr_same _ _ _ hlt]

/-- C2: in `Agent.update`, when the final cell `idx` of the agent is valid, the
trail value of that cell becomes `min(v + DEPOSIT_AMOUNT * m, 255)`, with `v` the
previous value and `m` = 1.5 if fitness > 10, 0.3 if fitness < -10, else 1.0, the
fitness being that of the agent returned by `update` (after the second reward
call).  For `v` in [0, 255] and `DEPOSIT_AMOUNT > 0` the result is at most 255 and
not less than `v`. -/
theorem deposit_saturating (E : Env α) (s : State α) (r : Draws α) (a a' : Agent α)
    (idx : Int) (ha : a' = (update E s r a).1) (hi : idx = getIdx E a'.x a'.y)
    (hsize : s.trailMap.size = E.width * E.height) (hidx : 0 ≤ idx) :
    rd (update E s r a).2.trailMap idx.toNat
      = min (rd s.trailMap idx.toNat + s.DEPOSIT_AMOUNT *
          (if a'.fitness > JNum.fin 10 then 1.5
           else if a'.fitness < JNum.fin (-10) then 0.3 else 1.0)) 255 ∧
    (0 < s.DEPOSIT_AMOUNT → 0 ≤ rd s.trailMap idx.toNat → rd s.trailMap idx.toNat ≤ 255 →
      rd (update E s r a).2.trailMap idx.toNat ≤ 255 ∧
      rd s.trailMap idx.toNat ≤ rd (update E s r a).2.trailMap idx.toNat) := by
  subst hi
  have key : rd (update E s r a).2.trailMap (getIdx E a'.x a'.y).toNat
      = min (rd s.trailMap (getIdx E a'.x a'.y).toNat
          + s.DEPOSIT_AMOUNT * depositMultiplier a'.fitness) 255 := by
    rw [ha] at hidx ⊢
    exact rd_deposit_cell E s _ hsize hidx
  refine ⟨key, ?_⟩
  intro hD hv0 hv255
  rw [key]
  have hm := depositMultiplier_pos a'.fitness
  have hpos : 0 < s.DEPOSIT_AMOUNT * depositMultiplier a'.fitness := mul_pos hD hm
  exact ⟨min_le_right _ _, le_min (by linarith) hv255⟩

theorem deposit_saturating_witness :
    rd (update (testEnv 100 100) (initialState (testEnv 100 100)) testDraws
          (testAgent 50 50)).2.trailMap (5053 : Int).toNat
      = min (rd (initialState (testEnv 100 100)).trailMap (5053 : Int).toNat
          + (initialState (testEnv 100 100)).DEPOSIT_AMOUNT *
          (if (update (testEnv 100 100) (initialState (testEnv 100 100)) testDraws
                (testAgent 50 50)).1.fitness > JNum.fin 10 then 1.5
           else if (update (testEnv 100 100) (initialState (testEnv 100 100)) testDraws
                (testAgent 50 50)).1.fitness < JNum.fin (-10) then 0.3 else 1.0)) 255 ∧
    (rd (update (testEnv 100 100) (initialState (testEnv 100 100)) testDraws
          (testAgent 50 50)).2.trailMap (5053 : Int).toNat ≤ 255 ∧
      rd (initialState (testEnv 100 100)).trailMap (5053 : Int).toNat
        ≤ rd (update (testEnv 100 100) (initialState (testEnv 100 100)) testDraws
          (testAgent 50 50)).2.trailMap (5053 : Int).toNat) := by
  have hpos : (update (testEnv 100 100) (initialState (testEnv 100 100)) testDraws
      (testAgent 50 50)).1.x = 53 ∧
      (update (testEnv 100 100) (initialState (testEnv 100 100)) testDraws
      (testAgent 50 50)).1.y = 50 := by
    simp only [update, updateAgent, calculateReward]
    simp only [move]
    simp only [testEnv, testAgent, initialState, isInCircle]
    norm_num
  have hidx : (5053 : Int) = getIdx (testEnv 100 100)
      (update (testEnv 100 100) (initialState (testEnv 100 100)) testDraws
        (testAgent 50 50)).1.x
      (update (testEnv 100 100) (initialState (testEnv 100 100)) testDraws
        (testAgent 50 50)).1.y := by
    rw [hpos.1, hpos.2]
    norm_num [getIdx, testEnv]
  have hcell : rd (initialState (testEnv 100 100)).trailMap (5053 : Int).toNat = 0 := by
    exact rd_mkArray_zero _ _
  have h := deposit_saturating (testEnv 100 100) (initialState (testEnv 100 100)) testDraws
    (testAgent 50 50) _ 5053 rfl hidx (Array.size_mkArray _ _) (by norm_num)
  exact ⟨h.1, h.2 (by norm_num [initialState]) (by rw [hcell]) (by rw [hcell]; norm_num)⟩

end Deposit

/-! ## Food placement -/

section Food

variable {α : Type} [LinearOrderedField α] [FloorRing α]

/-- C8: stamping the food gradient at `(x, y)` twice in a row gives the same food
grid as stamping it once; the same holds for two successive clicks at `(x, y)`. -/
theorem stampFood_idempotent (E : Env α) (x y : α) (g : Array α) (s : State α)
    (rnd rnd' : Nat → α) :
    stampFood E x y (stampFood E x y g) = stampFood E x y g ∧
    (mousedown E (mousedown E s x y rnd) x y rnd').foodMap
      = (mousedown E s x y rnd).foodMap := by
  have key : ∀ g : Array α, stampFood E x y (stampFood E x y g) = stampFood E x y g := by
    intro g
    rw [stampFood_eq E x y (stampFood E x y g), stampFood_eq E x y g]
    exact foldl_maxWrite_idem _ _
  refine ⟨key g, ?_⟩
  by_cases hin : isInCircle E x y = false
  · rw [mousedown_of_outside E s x y rnd hin, mousedown_of_outside E s x y rnd' hin]
  · have hin' : isInCircle E x y = true := by simpa using hin
    by_cases hm : s.mode = Mode.mold
    · rw [mousedown_mold_foodMap E _ x y rnd' (by rw [mousedown_mode]; exact hm)]
    · have hf : s.mode = Mode.food := by
        cases hmode : s.mode
        · exact absurd hmode hm
        · rfl
      rw [mousedown_food_foodMap E _ x y rnd' (by rw [mousedown_mode]; exact hf) hin',
        mousedown_food_foodMap E s x y rnd hf hin']
      exact key _

/-- C9: a food placement at `(x, y)` sets, for every integer offset `(dx, dy)` with
`dist = sqrt(dx^2 + dy^2) <= 40` whose cell is valid, the food value of that cell to
`max(old, strength(dist))`, `strength(dist)` being 255 for `dist <= 12` and
`150 * exp(-dist / 15)` otherwise; every other food cell is unchanged; no food
cell decreases, neither by a click nor by the placements of auto-setup.
`Math.sqrt` is assumed non-negative and not below the true root. -/
theorem food_placement (E : Env α) (s : State α) (x y : α) (rnd : Nat → α)
    (hsqrt : ∀ a : α, 0 ≤ a → 0 ≤ E.sqrt a ∧ a ≤ E.sqrt a ^ 2)
    (hsize : s.foodMap.size = E.width * E.height)
    (hmode : s.mode = Mode.food) (hin : isInCircle E x y = true) :
    (∀ dx dy : Int,
      E.sqrt ((dx : α) * (dx : α) + (dy : α) * (dy : α)) ≤ 40 →
      0 ≤ getIdx E (x + (dx : α)) (y + (dy : α)) →
      rd (mousedown E s x y rnd).foodMap (getIdx E (x + (dx : α)) (y + (dy : α))).toNat
        = max (rd s.foodMap (getIdx E (x + (dx : α)) (y + (dy : α))).toNat)
            (if E.sqrt ((dx : α) * (dx : α) + (dy : α) * (dy : α)) ≤ 12 then 255
             else 150 * E.exp (-E.sqrt ((dx : α) * (dx : α) + (dy : α) * (dy : α)) / 15))) ∧
    (∀ j : Nat,
      (∀ dx dy : Int, E.sqrt ((dx : α) * (dx : α) + (dy : α) * (dy : α)) ≤ 40 →
        0 ≤ getIdx E (x + (dx : α)) (y + (dy : α)) →
        (getIdx E (x + (dx : α)) (y + (dy : α))).toNat ≠ j) →
      rd (mousedown E s x y rnd).foodMap j = rd s.foodMap j) ∧
    (∀ j : Nat, rd s.foodMap j ≤ rd (mousedown E s x y rnd).foodMap j) ∧
    (∀ (numFood fuel attempts : Nat) (rndAngle rndDist : Nat → α) (j : Nat),
      rd s.foodMap j
        ≤ rd (placeFood E numFood rndAngle rndDist fuel attempts s).foodMap j) := by
  refine and_assoc.1 (and_assoc.1 ⟨?_, fun numFood fuel attempts rndAngle rndDist j =>
    placeFood_foodMap_mono E numFood rndAngle rndDist fuel attempts s j⟩)
  rw [mousedown_food_foodMap E s x y rnd hmode hin, stampFood_eq]
  refine ⟨⟨?_, ?_⟩, ?_⟩
  · intro dx dy hdist hidx
    rw [rd_foldl_maxWrite]
    have hop : foodOp E x y (dy, dx)
        = some ((getIdx E (x + (dx : α)) (y + (dy : α))).toNat,
            strength E (E.sqrt ((dx : α) * (dx : α) + (dy : α) * (dy : α)))) := by
      unfold foodOp
      simp only [hdist, ge_iff_le, hidx, if_true]
    have hlt : (getIdx E (x + (dx : α)) (y + (dy : α))).toNat < s.foodMap.size := by
      rw [hsize]
      exact getIdx_nonneg_lt E _ _ hidx
    have hrange := sq_le_of_sqrt_le E hsqrt dx dy 40 (by norm_num) (by exact_mod_cast hdist)
    have hmem : (dy, dx) ∈ offsets (-40) 40 (-40) 40 := (mem_offsets _ _ _ _ _).2 hrange
    apply foldl_max_const
    · intro hnil
      have : strength E (E.sqrt ((dx : α) * (dx : α) + (dy : α) * (dy : α)))
          ∈ hits s.foodMap.size (getIdx E (x + (dx : α)) (y + (dy : α))).toNat
              ((offsets (-40) 40 (-40) 40).map (foodOp E x y)) := by
        rw [mem_hits]
        refine ⟨?_, hlt⟩
        rw [← hop]
        exact List.mem_map_of_mem _ hmem
      rw [hnil] at this
      exact absurd this (List.not_mem_nil _)
    · intro u hu
      rw [mem_hits] at hu
      obtain ⟨p, hp, hpe⟩ := List.mem_map.1 hu.1
      unfold foodOp at hpe
      by_cases h1 : E.sqrt ((p.2 : α) * (p.2 : α) + (p.1 : α) * (p.1 : α)) ≤ 40
      · by_cases h2 : getIdx E (x + (p.2 : α)) (y + (p.1 : α)) ≥ 0
        · simp only [h1, h2, if_true, Option.some.injEq, Prod.mk.injEq] at hpe
          obtain ⟨hi, hv⟩ := hpe
          have hinj := getIdx_offset_inj E x y p.2 p.1 dx dy h2 hidx hi
          rw [← hv, hinj.1, hinj.2]
          rfl
        · simp only [h1, h2, if_true, if_false] at hpe
          exact absurd hpe (by simp)
      · simp only [h1, if_false] at hpe
        exact absurd hpe (by simp)
  · intro j hj
    rw [rd_foldl_maxWrite]
    have hnil : hits s.foodMap.size j ((offsets (-40) 40 (-40) 40).map (foodOp E x y)) = [] := by
      apply List.eq_nil_iff_forall_not_mem.2
      intro u hu
      rw [mem_hits] at hu
      obtain ⟨p, hp, hpe⟩ := List.mem_map.1 hu.1
      unfold foodOp at hpe
      by_cases h1 : E.sqrt ((p.2 : α) * (p.2 : α) + (p.1 : α) * (p.1 : α)) ≤ 40
      · by_cases h2 : getIdx E (x + (p.2 : α)) (y + (p.1 : α)) ≥ 0
        · simp only [h1, h2, if_true, Option.some.injEq, Prod.mk.injEq] at hpe
          exact hj p.2 p.1 h1 h2 hpe.1
        · simp only [h1, h2, if_true, if_false] at hpe
          exact absurd hpe (by simp)
      · simp only [h1, if_false] at hpe
        exact absurd hpe (by simp)
    rw [hnil]
    rfl
  · intro j
    rw [rd_foldl_maxWrite]
    exact le_foldl_max _ _

theorem food_placement_witness :
    rd (mousedown (testEnv 100 100) (foodModeState (testEnv 100 100)) 50 50
      (fun _ => 0)).foodMap 5050 = 255 := by
  have hidx : getIdx (testEnv 100 100) ((50 : ℚ) + ((0 : Int) : ℚ)) ((50 : ℚ) + ((0 : Int) : ℚ))
      = 5050 := by
    norm_num [getIdx, testEnv]
  have hsq : (testEnv 100 100).sqrt ((((0 : Int) : ℚ)) * (((0 : Int) : ℚ))
      + (((0 : Int) : ℚ)) * (((0 : Int) : ℚ))) = 0 := by
    norm_num [testEnv]
  have h := (food_placement (testEnv 100 100) (foodModeState (testEnv 100 100)) 50 50
    (fun _ => 0) (testEnv_sqrt 100 100) (Array.size_mkArray _ _) rfl
    (by norm_num [isInCircle, testEnv])).1 0 0 (by rw [hsq]; norm_num) (by rw [hidx]; norm_num)
  rw [hidx, hsq] at h
  have hold : rd (foodModeState (testEnv 100 100)).foodMap (5050 : Int).toNat = 0 :=
    rd_mkArray_zero _ _
  rw [hold] at h
  norm_num at h
  exact h

end Food

/-! ## Diffusion and the trail range -/

section Trail

variable {α : Type} [LinearOrderedField α] [FloorRing α]

/-- C3 (as stated) fails: on a 3 x 3 grid whose centre cell is 0 and whose other
cells are 255 (all values non-negative), one `diffuseTrails` pass raises the
centre cell above its previous value. -/
theorem diffuse_raises_cell :
    (∀ i, 0 ≤ rd ringState.trailMap i) ∧
    ¬ (rd (diffuseTrails (testEnv 3 3) ringState).trailMap 4 ≤ rd ringState.trailMap 4) := by
  constructor
  · intro i
    by_cases hi : i < 9
    · interval_cases i <;> simp [ringState, rd]
    · rw [rd_of_size_le _ _ (by simpa [ringState] using hi)]
  · have hmem : 4 ∈ interiorCells (testEnv 3 3) :=
      (mem_interiorCells _ _).2 ⟨1, 1, by simp [testEnv], by simp [testEnv], by simp [testEnv]⟩
    have hsz : 4 < ringState.tempMap.size := by
      simp [ringState, initialState, testEnv]
    rw [rd_diffuse_trailMap _ _ 4 (by simp [ringState]), rd_blur]
    simp only [hmem, hsz, and_self, if_true]
    norm_num [blendValue, mean9, ringState, initialState, testEnv, rd, convergence]

/-- C3 (amended): for non-negative trail and scratch grids, `DIFFUSE_RATE` in
[0, 1] and `DECAY_SPEED` in [0, 1000], each trail cell after one `diffuseTrails`
pass is at most `m * DIFFUSE_RATE + v * (1 - DIFFUSE_RATE)`, with `v` its value
before the pass and `m` its scratch value after the blur; so it does not exceed
`v` whenever `m <= v`.  The scratch value is the mean of the 3 x 3 block for an
interior cell and the untouched scratch entry for any other cell. -/
theorem diffuse_cell_bound (E : Env α) (s : State α)
    (htrail : ∀ k, 0 ≤ rd s.trailMap k) (htemp : ∀ k, 0 ≤ rd s.tempMap k)
    (hDR0 : 0 ≤ s.DIFFUSE_RATE) (hDR1 : s.DIFFUSE_RATE ≤ 1)
    (hDS0 : 0 ≤ s.DECAY_SPEED) (hDS1 : s.DECAY_SPEED ≤ 1000) :
    (∀ i, rd (diffuseTrails E s).trailMap i
        ≤ rd (diffuseTrails E s).tempMap i * s.DIFFUSE_RATE
          + rd s.trailMap i * (1 - s.DIFFUSE_RATE)) ∧
    (∀ i, rd (diffuseTrails E s).tempMap i ≤ rd s.trailMap i →
        rd (diffuseTrails E s).trailMap i ≤ rd s.trailMap i) ∧
    (∀ x y, 1 ≤ y → y < E.height - 1 → 1 ≤ x → x < E.width - 1 →
        y * E.width + x < s.tempMap.size →
        rd (diffuseTrails E s).tempMap (y * E.width + x)
          = mean9 E s.trailMap (y * E.width + x)) ∧
    (∀ i, (¬ ∃ y x, (1 ≤ y ∧ y < E.height - 1) ∧ (1 ≤ x ∧ x < E.width - 1) ∧
          i = y * E.width + x) →
        rd (diffuseTrails E s).tempMap i = rd s.tempMap i) := by
  rw [diffuse_tempMap]
  refine ⟨?_, ?_, ?_, ?_⟩
  · intro i
    exact (rd_diffuse_le_blend E s htrail htemp hDR0 hDR1 hDS0 hDS1 i).2
  · intro i hm
    have h := (rd_diffuse_le_blend E s htrail htemp hDR0 hDR1 hDS0 hDS1 i).2
    have h2 : rd (blur E s.trailMap s.tempMap) i * s.DIFFUSE_RATE
        ≤ rd s.trailMap i * s.DIFFUSE_RATE := mul_le_mul_of_nonneg_right hm hDR0
    linarith
  · intro x y hy1 hy2 hx1 hx2 hlt
    rw [rd_blur]
    have hmem : y * E.width + x ∈ interiorCells E :=
      (mem_interiorCells E _).2 ⟨y, x, ⟨hy1, hy2⟩, ⟨hx1, hx2⟩, rfl⟩
    simp only [hmem, hlt, and_self, if_true]
  · intro i hi
    rw [rd_blur]
    have hmem : ¬ i ∈ interiorCells E := fun h => hi ((mem_interiorCells E i).1 h)
    simp only [hmem, false_and, if_false]

theorem diffuse_cell_bound_witness :
    rd (diffuseTrails (testEnv 3 3) ringState).trailMap 0 ≤ rd ringState.trailMap 0 := by
  have hnn : ∀ i, 0 ≤ rd ringState.trailMap i := by
    intro i
    by_cases hi : i < 9
    · interval_cases i <;> simp [ringState, rd]
    · rw [rd_of_size_le _ _ (by simpa [ringState] using hi)]
  have h := diffuse_cell_bound (testEnv 3 3) ringState hnn
    (fun k => by
      have : rd ringState.tempMap k = 0 := rd_mkArray_zero _ _
      rw [this])
    (by norm_num [ringState, initialState]) (by norm_num [ringState, initialState])
    (by norm_num [ringState, initialState]) (by norm_num [ringState, initialState])
  apply h.2.1 0
  rw [h.2.2.2 0 (by
    rintro ⟨y, x, hy, hx, h0⟩
    omega)]
  have : rd ringState.tempMap 0 = 0 := rd_mkArray_zero _ _
  rw [this]
  exact hnn 0

/-- C4: if every trail cell (and every scratch cell) is in [0, 255], with
`DEPOSIT_AMOUNT >= 0`, `DIFFUSE_RATE` in [0, 1] and `DECAY_SPEED` in [1, 10], then
every trail cell is still in [0, 255] after the deposit of `Agent.update`, after one
`diffuseTrails` pass (which also keeps the scratch cells in range), after a canvas
click and after auto-setup (mold-blob stamping).  `Math.sqrt` is non-negative. -/
theorem trail_range_invariant (E : Env α) (s : State α)
    (hsqrt : ∀ a : α, 0 ≤ E.sqrt a)
    (htrail : ∀ i, 0 ≤ rd s.trailMap i ∧ rd s.trailMap i ≤ 255)
    (htemp : ∀ i, 0 ≤ rd s.tempMap i ∧ rd s.tempMap i ≤ 255)
    (hD : 0 ≤ s.DEPOSIT_AMOUNT)
    (hDR : 0 ≤ s.DIFFUSE_RATE ∧ s.DIFFUSE_RATE ≤ 1)
    (hDS : 1 ≤ s.DECAY_SPEED ∧ s.DECAY_SPEED ≤ 10) :
    (∀ (r : Draws α) (a : Agent α) (i : Nat),
      0 ≤ rd (update E s r a).2.trailMap i ∧ rd (update E s r a).2.trailMap i ≤ 255) ∧
    (∀ i, 0 ≤ rd (diffuseTrails E s).trailMap i ∧ rd (diffuseTrails E s).trailMap i ≤ 255) ∧
    (∀ i, 0 ≤ rd (diffuseTrails E s).tempMap i ∧ rd (diffuseTrails E s).tempMap i ≤ 255) ∧
    (∀ (x y : α) (rnd : Nat → α) (i : Nat),
      0 ≤ rd (mousedown E s x y rnd).trailMap i ∧ rd (mousedown E s x y rnd).trailMap i ≤ 255) ∧
    (∀ (numFood : Nat) (rnd rndAngle rndDist : Nat → α) (i : Nat),
      0 ≤ rd (autoSetup E s numFood rnd rndAngle rndDist).trailMap i ∧
      rd (autoSetup E s numFood rnd rndAngle rndDist).trailMap i ≤ 255) := by
  refine ⟨?_, ?_, ?_, ?_, ?_⟩
  · intro r a i
    exact deposit_range E s _ hD htrail i
  · intro i
    have hb := rd_blur_bounds E s.trailMap s.tempMap 255 htrail htemp i
    have h := rd_diffuse_le_blend E s (fun k => (htrail k).1) (fun k => (htemp k).1)
      hDR.1 hDR.2 (by linarith [hDS.1]) (by linarith [hDS.2]) i
    refine ⟨h.1, le_trans h.2 ?_⟩
    have h1 : rd (blur E s.trailMap s.tempMap) i * s.DIFFUSE_RATE ≤ 255 * s.DIFFUSE_RATE :=
      mul_le_mul_of_nonneg_right hb.2 hDR.1
    have h2 : rd s.trailMap i * (1 - s.DIFFUSE_RATE) ≤ 255 * (1 - s.DIFFUSE_RATE) :=
      mul_le_mul_of_nonneg_right (htrail i).2 (by linarith [hDR.2])
    linarith
  · intro i
    rw [diffuse_tempMap]
    exact rd_blur_bounds E s.trailMap s.tempMap 255 htrail htemp i
  · intro x y rnd i
    rcases mousedown_trailMap_cases E s x y rnd with h | h
    · rw [h]
      exact htrail i
    · rw [h]
      exact stampMold_range E x y 0.5 120 80 s.trailMap hsqrt click_blob_value htrail i
  · intro numFood rnd rndAngle rndDist i
    rw [autoSetup_trailMap]
    apply stampMold_range E _ _ 0.6 150 70 _ hsqrt auto_blob_value
    intro k
    rw [rd_fillZero]
    norm_num

theorem trail_range_invariant_witness :
    0 ≤ rd (mousedown (testEnv 100 100) (initialState (testEnv 100 100)) 50 50
        (fun _ => 0)).trailMap 5050 ∧
    rd (mousedown (testEnv 100 100) (initialState (testEnv 100 100)) 50 50
        (fun _ => 0)).trailMap 5050 ≤ 255 := by
  have hz : ∀ i, (0 : ℚ) ≤ rd (initialState (testEnv 100 100)).trailMap i ∧
      rd (initialState (testEnv 100 100)).trailMap i ≤ 255 := by
    intro i
    have : rd (initialState (testEnv 100 100)).trailMap i = 0 := rd_mkArray_zero _ _
    rw [this]
    norm_num
  have hz' : ∀ i, (0 : ℚ) ≤ rd (initialState (testEnv 100 100)).tempMap i ∧
      rd (initialState (testEnv 100 100)).tempMap i ≤ 255 := by
    intro i
    have : rd (initialState (testEnv 100 100)).tempMap i = 0 := rd_mkArray_zero _ _
    rw [this]
    norm_num
  exact (trail_range_invariant (testEnv 100 100) (initialState (testEnv 100 100))
    (fun a => (by
      simp only [testEnv]
      split_ifs with h
      · exact le_refl _
      · linarith))
    hz hz' (by norm_num [initialState]) (by norm_num [initialState])
    (by norm_num [initialState])).2.2.2.1 50 50 (fun _ => 0) 5050

end Trail

/-! ## Boundary confinement -/

section Boundary

variable {α : Type} [LinearOrderedField α] [FloorRing α]

theorem move_inside (E : Env α) (s : State α) (r : Draws α) (a : Agent α)
    (h : isInCircle E a.x a.y = true) :
    isInCircle E (move E s r a).x (move E s r a).y = true := by
  simp only [move]
  split_ifs with h1 h2
  · exact h1
  · exact h2
  · exact h

/-- An agent inside the plate is still inside after `update`. -/
theorem update_inside (E : Env α) (s : State α) (r : Draws α) (a : Agent α)
    (h : isInCircle E a.x a.y = true) :
    isInCircle E (update E s r a).1.x (update E s r a).1.y = true := by
  simp only [update, updateAgent, calculateReward]
  exact move_inside E s r _ h

theorem move_stuck (E : Env α) (s : State α) (r : Draws α) (a : Agent α)
    (h : ∀ θ : α, isInCircle E (a.x + E.cos θ * s.STEP_SIZE) (a.y + E.sin θ * s.STEP_SIZE)
      = false) :
    (move E s r a).x = a.x ∧ (move E s r a).y = a.y := by
  simp only [move]
  rw [h a.angle]
  simp only [Bool.false_eq_true, if_false]
  rw [h]
  simp only [Bool.false_eq_true, if_false, and_self]

/-- An agent none of whose steps lands inside the plate is not moved by `update`. -/
theorem update_stuck (E : Env α) (s : State α) (r : Draws α) (a : Agent α)
    (h : ∀ θ : α, isInCircle E (a.x + E.cos θ * s.STEP_SIZE) (a.y + E.sin θ * s.STEP_SIZE)
      = false) :
    (update E s r a).1.x = a.x ∧ (update E s r a).1.y = a.y := by
  simp only [update, updateAgent, calculateReward]
  exact move_stuck E s r _ h

/-- No step of length 3 from the point `(width + 3.5, height / 2)` reaches the plate. -/
theorem no_step_inside (E : Env α) (hw : 20 ≤ E.width)
    (hcs : ∀ θ : α, E.cos θ ^ 2 + E.sin θ ^ 2 = 1) (θ : α) :
    isInCircle E ((E.width : α) + 3.5 + E.cos θ * 3) ((E.height : α) / 2 + E.sin θ * 3)
      = false := by
  have hc : -1 ≤ E.cos θ := by
    nlinarith [hcs θ, sq_nonneg (E.sin θ), sq_nonneg (E.cos θ + 1)]
  have hW : (20 : α) ≤ (E.width : α) := by exact_mod_cast hw
  rw [Bool.eq_false_iff]
  intro hin
  rw [isInCircle_iff] at hin
  have h1 : 0 < ((E.width : α) + 3.5 + E.cos θ * 3 - (E.width : α) / 2)
      - ((E.width : α) / 2 - 10) := by
    norm_num
    linarith
  have h2 : 0 < ((E.width : α) + 3.5 + E.cos θ * 3 - (E.width : α) / 2)
      + ((E.width : α) / 2 - 10) := by
    norm_num
    linarith
  nlinarith [mul_pos h1 h2, sq_nonneg ((E.height : α) / 2 + E.sin θ * 3 - (E.height : α) / 2)]

theorem forEachUpdate_exists (E : Env α) (draws : Nat → Draws α) (s : State α)
    (Q : Agent α → Prop)
    (hQ : ∀ (s' : State α) (r : Draws α) (a : Agent α),
      s'.STEP_SIZE = s.STEP_SIZE → Q a → Q (update E s' r a).1)
    (h : ∃ a ∈ s.agents, Q a) :
    (forEachUpdate E draws s).STEP_SIZE = s.STEP_SIZE ∧
      ∃ a ∈ (forEachUpdate E draws s).agents, Q a := by
  have key : ∀ (l : List (Agent α)) (acc : List (Agent α) × State α),
      acc.2.STEP_SIZE = s.STEP_SIZE →
      ((∃ b ∈ acc.1, Q b) ∨ (∃ a ∈ l, Q a)) →
      (l.foldl (fun (acc : List (Agent α) × State α) a =>
          ((acc.1 ++ [(update E acc.2 (draws acc.1.length) a).1],
            (update E acc.2 (draws acc.1.length) a).2) : List (Agent α) × State α)) acc).2.STEP_SIZE
        = s.STEP_SIZE ∧
      ∃ b ∈ (l.foldl (fun (acc : List (Agent α) × State α) a =>
          ((acc.1 ++ [(update E acc.2 (draws acc.1.length) a).1],
            (update E acc.2 (draws acc.1.length) a).2) : List (Agent α) × State α)) acc).1,
        Q b := by
    intro l
    induction l with
    | nil =>
      intro acc hstep hex
      rcases hex with hex | ⟨a, ha, _⟩
      · exact ⟨hstep, hex⟩
      · simp at ha
    | cons a l ih =>
      intro acc hstep hex
      simp only [List.foldl_cons]
      apply ih
      · exact hstep
      · rcases hex with ⟨b, hb, hqb⟩ | ⟨c, hc, hqc⟩
        · exact Or.inl ⟨b, by simp [hb], hqb⟩
        · rcases List.mem_cons.1 hc with hca | hcl
          · subst hca
            exact Or.inl ⟨(update E acc.2 (draws acc.1.length) c).1, by simp,
              hQ acc.2 _ c hstep hqc⟩
          · exact Or.inr ⟨c, hcl, hqc⟩
  exact key s.agents ([], s) rfl (Or.inr h)

theorem loop_exists (E : Env α) (draws : Nat → Draws α) (frame : Nat) (s : State α)
    (Q : Agent α → Prop)
    (hQ : ∀ (s' : State α) (r : Draws α) (a : Agent α),
      s'.STEP_SIZE = s.STEP_SIZE → Q a → Q (update E s' r a).1)
    (h : ∃ a ∈ s.agents, Q a) :
    (loop E draws frame s).STEP_SIZE = s.STEP_SIZE ∧
      ∃ a ∈ (loop E draws frame s).agents, Q a := by
  unfold loop
  split_ifs
  · exact ⟨rfl, h⟩
  · exact forEachUpdate_exists E draws { s with simulationSteps := s.simulationSteps + 1 } Q hQ h

theorem btnRun_exists (E : Env α) (draws : Nat → Draws α) (frame : Nat) (s : State α)
    (Q : Agent α → Prop)
    (hQ : ∀ (s' : State α) (r : Draws α) (a : Agent α),
      s'.STEP_SIZE = s.STEP_SIZE → Q a → Q (update E s' r a).1)
    (h : ∃ a ∈ s.agents, Q a) :
    (btnRun E draws frame s).STEP_SIZE = s.STEP_SIZE ∧
      ∃ a ∈ (btnRun E draws frame s).agents, Q a := by
  unfold btnRun
  simp only
  split_ifs
  · exact loop_exists E draws frame { s with running := !s.running } Q hQ h
  · exact ⟨rfl, h⟩

theorem frames_exist (E : Env α) (ds : List (Nat → Draws α)) (s : State α)
    (Q : Agent α → Prop)
    (hQ : ∀ (s' : State α) (r : Draws α) (a : Agent α),
      s'.STEP_SIZE = s.STEP_SIZE → Q a → Q (update E s' r a).1)
    (h : ∃ a ∈ s.agents, Q a) :
    ∃ a ∈ ((ds.map (fun d => Event.frame d 1)).foldl (handle E) s).agents, Q a := by
  induction ds generalizing s with
  | nil => exact h
  | cons d ds ih =>
    simp only [List.map_cons, List.foldl_cons, handle]
    have hl := loop_exists E d 1 s Q hQ h
    apply ih
    · intro s' r a hs' hqa
      exact hQ s' r a (by rw [hs', hl.1]) hqa
    · exact hl.2

theorem mem_spawnAgents_zero (E : Env α) (s : State α) (x y : α) (rnd : Nat → α)
    (hN : 0 < s.NUM_AGENTS_PER_SOURCE) :
    Agent.new E
        (x + E.cos (((0 : Nat) : α) / (s.NUM_AGENTS_PER_SOURCE : α) * E.PI * 2) * (rnd 0 * 15))
        (y + E.sin (((0 : Nat) : α) / (s.NUM_AGENTS_PER_SOURCE : α) * E.PI * 2) * (rnd 0 * 15))
        (some (((0 : Nat) : α) / (s.NUM_AGENTS_PER_SOURCE : α) * E.PI * 2)) 0
      ∈ spawnAgents E s x y rnd := by
  unfold spawnAgents forNat
  have key : ∀ (L : List Nat) (init : List (Agent α)) (f : Nat → Agent α),
      L.foldl (fun agents i => agents ++ [f i]) init = init ++ L.map f := by
    intro L
    induction L with
    | nil => intro init f; simp
    | cons k L ih => intro init f; simp [ih]
  rw [key]
  apply List.mem_append_right
  apply List.mem_map.2
  exact ⟨0, (mem_natRange _ _ _).2 ⟨le_refl _, hN⟩, rfl⟩

/-- C1 (code defect): on a canvas of width at least 20, a mold placement at the
click point `(width - 10, height / 2)`, which passes `isInCircle`, with first radius
draw 0.9 spawns an agent at `(width + 3.5, height / 2)`, outside the plate; after
the run button and any number of frames, with any random draws, that agent is
still there, outside the plate. -/
theorem agent_outside_plate (E : Env α) (hw : 20 ≤ E.width)
    (hcs : ∀ θ : α, E.cos θ ^ 2 + E.sin θ ^ 2 = 1) (hc0 : E.cos 0 = 1) (hs0 : E.sin 0 = 0)
    (d0 : Nat → Draws α) (ds : List (Nat → Draws α)) :
    isInCircle E ((E.width : α) - 10) ((E.height : α) / 2) = true ∧
    ∃ a ∈ (runEvents E
        (Event.click ((E.width : α) - 10) ((E.height : α) / 2) (fun _ => 0.9) ::
          Event.run d0 1 :: ds.map (fun d => Event.frame d 1))).agents,
      a.x = (E.width : α) + 3.5 ∧ a.y = (E.height : α) / 2 ∧
        isInCircle E a.x a.y = false := by
  have hW : (20 : α) ≤ (E.width : α) := by exact_mod_cast hw
  have hin : isInCircle E ((E.width : α) - 10) ((E.height : α) / 2) = true := by
    rw [isInCircle_iff]
    have : (E.width : α) - 10 - (E.width : α) / 2 = (E.width : α) / 2 - 10 := by ring
    rw [this]
    norm_num
  refine ⟨hin, ?_⟩
  have hout : isInCircle E ((E.width : α) + 3.5) ((E.height : α) / 2) = false := by
    rw [Bool.eq_false_iff]
    intro hc
    rw [isInCircle_iff] at hc
    have h1 : 0 < ((E.width : α) + 3.5 - (E.width : α) / 2) - ((E.width : α) / 2 - 10) := by
      norm_num
      linarith
    have h2 : 0 < ((E.width : α) + 3.5 - (E.width : α) / 2) + ((E.width : α) / 2 - 10) := by
      norm_num
      linarith
    nlinarith [mul_pos h1 h2, sq_nonneg ((E.height : α) / 2 - (E.height : α) / 2)]
  have hQ : ∀ (s' : State α) (r : Draws α) (a : Agent α),
      s'.STEP_SIZE = 3 → (a.x = (E.width : α) + 3.5 ∧ a.y = (E.height : α) / 2) →
      ((update E s' r a).1.x = (E.width : α) + 3.5 ∧
        (update E s' r a).1.y = (E.height : α) / 2) := by
    intro s' r a hs' ha
    have hst := update_stuck E s' r a (by
      intro θ
      rw [ha.1, ha.2, hs']
      exact no_step_inside E hw hcs θ)
    rw [hst.1, hst.2]
    exact ha
  have h1 : (mousedown E (initialState E) ((E.width : α) - 10) ((E.height : α) / 2)
        (fun _ => 0.9)).STEP_SIZE = 3 ∧
      ∃ a ∈ (mousedown E (initialState E) ((E.width : α) - 10) ((E.height : α) / 2)
          (fun _ => 0.9)).agents,
        a.x = (E.width : α) + 3.5 ∧ a.y = (E.height : α) / 2 := by
    have hmem := mem_spawnAgents_zero E (initialState E) ((E.width : α) - 10)
      ((E.height : α) / 2) (fun _ => (0.9 : α)) (by simp [initialState])
    unfold mousedown
    simp only [hin, Bool.true_eq_false, if_false, initialState, if_true]
    refine ⟨by norm_num, _, hmem, ?_, ?_⟩
    · simp only [Agent.new, Nat.cast_zero, zero_div, zero_mul, hc0]
      norm_num
      ring
    · simp only [Agent.new, Nat.cast_zero, zero_div, zero_mul, hs0]
      norm_num
  have h2 := btnRun_exists E d0 1
    (mousedown E (initialState E) ((E.width : α) - 10) ((E.height : α) / 2) (fun _ => 0.9))
    (fun a => a.x = (E.width : α) + 3.5 ∧ a.y = (E.height : α) / 2)
    (fun s' r a hs' ha => hQ s' r a (by rw [hs', h1.1]) ha) h1.2
  have h3 := frames_exist E ds
    (btnRun E d0 1
      (mousedown E (initialState E) ((E.width : α) - 10) ((E.height : α) / 2) (fun _ => 0.9)))
    (fun a => a.x = (E.width : α) + 3.5 ∧ a.y = (E.height : α) / 2)
    (fun s' r a hs' ha => hQ s' r a (by rw [hs', h2.1, h1.1]) ha) h2.2
  obtain ⟨a, ha, hax, hay⟩ := h3
  refine ⟨a, ?_, hax, hay, ?_⟩
  · simpa [runEvents, handle] using ha
  · rw [hax, hay]
    exact hout

theorem agent_outside_plate_witness :
    isInCircle (testEnv 800 800) ((800 : Nat) - 10 : ℚ) (((800 : Nat) : ℚ) / 2) = true ∧
    ∃ a ∈ (runEvents (testEnv 800 800)
        (Event.click ((800 : Nat) - 10 : ℚ) (((800 : Nat) : ℚ) / 2) (fun _ => 0.9) ::
          Event.run (fun _ => testDraws) 1 ::
          [fun _ => testDraws, fun _ => testDraws].map (fun d => Event.frame d 1))).agents,
      a.x = ((800 : Nat) : ℚ) + 3.5 ∧ a.y = ((800 : Nat) : ℚ) / 2 ∧
        isInCircle (testEnv 800 800) a.x a.y = false :=
  agent_outside_plate (testEnv 800 800) (by decide) (fun _ => by norm_num [testEnv]) rfl rfl
    (fun _ => testDraws) [fun _ => testDraws, fun _ => testDraws]

end Boundary

/-! ## The tick driver -/

section Step

variable {α : Type} [LinearOrderedField α] [FloorRing α]

theorem foldl_update_eq (E : Env α) (draws : Nat → Draws α) (l : List (Agent α))
    (done : List (Agent α)) (st : State α) :
    l.foldl (fun (acc : List (Agent α) × State α) a =>
        ((acc.1 ++ [(update E acc.2 (draws acc.1.length) a).1],
          (update E acc.2 (draws acc.1.length) a).2) : List (Agent α) × State α)) (done, st)
      = (done ++ (updateSeq E draws done.length st l).1,
          (updateSeq E draws done.length st l).2) := by
  induction l generalizing done st with
  | nil => simp [updateSeq]
  | cons a l ih =>
    simp only [List.foldl_cons, updateSeq]
    rw [ih]
    simp

theorem forEachUpdate_eq (E : Env α) (draws : Nat → Draws α) (s : State α) :
    forEachUpdate E draws s
      = { (updateSeq E draws 0 s s.agents).2 with
          agents := (updateSeq E draws 0 s s.agents).1 } := by
  unfold forEachUpdate
  have h := foldl_update_eq E draws s.agents [] s
  simp only [List.length_nil, List.nil_append] at h
  simp only [h]

theorem length_updateSeq (E : Env α) (draws : Nat → Draws α) (k : Nat) (s : State α)
    (l : List (Agent α)) : (updateSeq E draws k s l).1.length = l.length := by
  induction l generalizing k s with
  | nil => rfl
  | cons a l ih => simp [updateSeq, ih]

/-- The updates change the state in the trail grid only. -/
theorem updateSeq_state (E : Env α) (draws : Nat → Draws α) (k : Nat) (s : State α)
    (l : List (Agent α)) :
    (updateSeq E draws k s l).2
      = { s with trailMap := (updateSeq E draws k s l).2.trailMap } := by
  induction l generalizing k s with
  | nil => rfl
  | cons a l ih =>
    simp only [updateSeq]
    rw [ih]
    rfl

/-- The agent at position `i` is updated in the state left by the agents before it. -/
theorem getElem_updateSeq (E : Env α) (draws : Nat → Draws α) (k : Nat) (s : State α)
    (l : List (Agent α)) (i : Nat) (hi : i < l.length) :
    (updateSeq E draws k s l).1[i]?
      = some (update E (updateSeq E draws k s (l.take i)).2 (draws (k + i)) (l.get ⟨i, hi⟩)).1 := by
  induction l generalizing k s i with
  | nil => simp at hi
  | cons a l ih =>
    cases i with
    | zero => simp [updateSeq]
    | succ i =>
      simp only [updateSeq, List.getElem?_cons_succ, List.take_succ_cons, List.get_cons_succ]
      rw [ih (k + 1) _ i (by simpa using hi)]
      have : k + 1 + i = k + (i + 1) := by omega
      rw [this]

theorem updateSeq_steps (E : Env α) (draws : Nat → Draws α) (k : Nat) (s : State α)
    (l : List (Agent α)) :
    (updateSeq E draws k s l).2.simulationSteps = s.simulationSteps := by
  rw [updateSeq_state]

/-- C11: with `running` true, one call of `loop` adds exactly 1 to `simulationSteps`,
then updates every agent once, in list order, the agent at position `i` in the state
left by the agents before it (tick counter already incremented), then makes exactly
one `diffuseTrails` pass on the state left by the last agent; the number of agents,
the food grid and the food and mold source lists are unchanged.  With `running`
false, `loop` changes neither the agents, nor the grids, nor the tick counter. -/
theorem loop_step (E : Env α) (draws : Nat → Draws α) (frame : Nat) (s : State α) :
    (s.running = true →
      (loop E draws frame s).simulationSteps = s.simulationSteps + 1 ∧
      (loop E draws frame s).agents
        = (updateSeq E draws 0 { s with simulationSteps := s.simulationSteps + 1 }
            s.agents).1 ∧
      (∀ (i : Nat) (hi : i < s.agents.length),
        (loop E draws frame s).agents[i]?
          = some (update E
              (updateSeq E draws 0 { s with simulationSteps := s.simulationSteps + 1 }
                (s.agents.take i)).2
              (draws i) (s.agents.get ⟨i, hi⟩)).1 ∧
        (updateSeq E draws 0 { s with simulationSteps := s.simulationSteps + 1 }
            (s.agents.take i)).2.simulationSteps = s.simulationSteps + 1) ∧
      (loop E draws frame s).trailMap
        = (diffuseTrails E
            (updateSeq E draws 0 { s with simulationSteps := s.simulationSteps + 1 }
              s.agents).2).trailMap ∧
      (loop E draws frame s).tempMap
        = (diffuseTrails E
            (updateSeq E draws 0 { s with simulationSteps := s.simulationSteps + 1 }
              s.agents).2).tempMap ∧
      (loop E draws frame s).agents.length = s.agents.length ∧
      (loop E draws frame s).foodMap = s.foodMap ∧
      (loop E draws frame s).foodPieces = s.foodPieces ∧
      (loop E draws frame s).moldSources = s.moldSources) ∧
    (s.running = false →
      (loop E draws frame s).agents = s.agents ∧
      (loop E draws frame s).trailMap = s.trailMap ∧
      (loop E draws frame s).tempMap = s.tempMap ∧
      (loop E draws frame s).foodMap = s.foodMap ∧
      (loop E draws frame s).foodPieces = s.foodPieces ∧
      (loop E draws frame s).moldSources = s.moldSources ∧
      (loop E draws frame s).simulationSteps = s.simulationSteps) := by
  constructor
  · intro hrun
    have hl : loop E draws frame s
        = { diffuseTrails E
              (forEachUpdate E draws { s with simulationSteps := s.simulationSteps + 1 }) with
            animationId := some frame } := by
      unfold loop
      simp [hrun]
    have hst := updateSeq_state E draws 0 { s with simulationSteps := s.simulationSteps + 1 }
      s.agents
    rw [hl, forEachUpdate_eq]
    refine ⟨?_, rfl, ?_, rfl, rfl, ?_, ?_, ?_, ?_⟩
    · show (updateSeq E draws 0 { s with simulationSteps := s.simulationSteps + 1 }
        s.agents).2.simulationSteps = s.simulationSteps + 1
      rw [updateSeq_steps]
    · intro i hi
      refine ⟨?_, ?_⟩
      · have h := getElem_updateSeq E draws 0
          { s with simulationSteps := s.simulationSteps + 1 } s.agents i hi
        rw [Nat.zero_add] at h
        exact h
      · rw [updateSeq_steps]
    · exact length_updateSeq E draws 0 _ s.agents
    · show (updateSeq E draws 0 { s with simulationSteps := s.simulationSteps + 1 }
        s.agents).2.foodMap = s.foodMap
      rw [hst]
    · show (updateSeq E draws 0 { s with simulationSteps := s.simulationSteps + 1 }
        s.agents).2.foodPieces = s.foodPieces
      rw [hst]
    · show (updateSeq E draws 0 { s with simulationSteps := s.simulationSteps + 1 }
        s.agents).2.moldSources = s.moldSources
      rw [hst]
  · intro hrun
    unfold loop
    simp [hrun]

theorem loop_step_witness :
    (loop (testEnv 100 100) (fun _ => testDraws) 1
      { initialState (testEnv 100 100) with
        running := true, agents := [testAgent 50 50] }).simulationSteps = 1 ∧
    (loop (testEnv 100 100) (fun _ => testDraws) 1
      (initialState (testEnv 100 100))).simulationSteps = 0 :=
  ⟨((loop_step (testEnv 100 100) (fun _ => testDraws) 1
      { initialState (testEnv 100 100) with
        running := true, agents := [testAgent 50 50] }).1 rfl).1,
    ((loop_step (testEnv 100 100) (fun _ => testDraws) 1
      (initialState (testEnv 100 100))).2 rfl).2.2.2.2.2.2⟩

end Step

/-! ## The reward -/

section Reward

variable {α : Type} [LinearOrderedField α] [FloorRing α]

theorem JNum.fin_lt_fin (a b : α) : (JNum.fin a < JNum.fin b) ↔ a < b := by
  show JNum.lt (JNum.fin a) (JNum.fin b) = true ↔ a < b
  simp [JNum.lt]

theorem JNum.fin_lt_posInf (a : α) : JNum.fin a < (JNum.posInf : JNum α) := by
  show JNum.lt (JNum.fin a) JNum.posInf = true
  rfl

theorem JNum.not_posInf_lt (a : JNum α) : ¬ ((JNum.posInf : JNum α) < a) := by
  show ¬ JNum.lt JNum.posInf a = true
  simp [JNum.lt]

theorem JNum.add_fin_zero (a : JNum α) : a + JNum.fin 0 = a := by
  show JNum.add a (JNum.fin 0) = a
  cases a <;> simp [JNum.add]

theorem JNum.fin_zero_add (a : JNum α) : JNum.fin 0 + a = a := by
  show JNum.add (JNum.fin 0) a = a
  cases a <;> simp [JNum.add]

theorem JNum.sub_def (a b : JNum α) : a - b = a + JNum.neg b := rfl

theorem JNum.fin_add_fin (a b : α) : JNum.fin a + JNum.fin b = JNum.fin (a + b) := rfl

theorem JNum.fin_sub_fin (a b : α) : JNum.fin a - JNum.fin b = JNum.fin (a - b) := by
  show JNum.add (JNum.fin a) (JNum.neg (JNum.fin b)) = JNum.fin (a - b)
  simp only [JNum.add, JNum.neg]
  rw [sub_eq_add_neg]

theorem JNum.fin_mul_fin (a b : α) : JNum.fin a * JNum.fin b = JNum.fin (a * b) := rfl

theorem JNum.fin_div_fin (a b : α) (hb : b ≠ 0) :
    JNum.fin a / JNum.fin b = JNum.fin (a / b) := by
  show JNum.div (JNum.fin a) (JNum.fin b) = JNum.fin (a / b)
  simp [JNum.div, hb]

theorem JNum.mul_fin_comm (a : JNum α) (c : α) : JNum.fin c * a = a * JNum.fin c := by
  show JNum.mul (JNum.fin c) a = JNum.mul a (JNum.fin c)
  cases a <;> simp [JNum.mul, mul_comm]

theorem scanStep_values (E : Env α) (x y : α) (sc : Scan α) (food : Source α) :
    ((scanStep E x y sc food).minDistToFood, (scanStep E x y sc food).secondMinDistToFood)
      = scan2 (sc.minDistToFood, sc.secondMinDistToFood) (foodDist E x y food) := by
  unfold scanStep scan2
  simp only
  split_ifs <;> rfl

theorem foldl_scanStep_values (E : Env α) (x y : α) (l : List (Source α)) (sc : Scan α) :
    ((l.foldl (scanStep E x y) sc).minDistToFood,
      (l.foldl (scanStep E x y) sc).secondMinDistToFood)
      = (l.map (foodDist E x y)).foldl scan2 (sc.minDistToFood, sc.secondMinDistToFood) := by
  induction l generalizing sc with
  | nil => rfl
  | cons f l ih =>
    simp only [List.foldl_cons, List.map_cons]
    rw [ih, scanStep_values]

theorem nthOrInf_nil (n : Nat) : nthOrInf ([] : List α) n = JNum.posInf := rfl

theorem nthOrInf_cons_zero (a : α) (l : List α) : nthOrInf (a :: l) 0 = JNum.fin a := by
  simp [nthOrInf]

theorem nthOrInf_eq_negInf_false (l : List α) (n : Nat) :
    nthOrInf l n = JNum.negInf → False := by
  unfold nthOrInf
  split <;> simp

theorem nthOrInf_eq_nan_false (l : List α) (n : Nat) :
    nthOrInf l n = JNum.nan → False := by
  unfold nthOrInf
  split <;> simp

theorem nthOrInf_cons_succ (a : α) (l : List α) (n : Nat) :
    nthOrInf (a :: l) (n + 1) = nthOrInf l n := by
  simp [nthOrInf]

/-- Inserting a distance into a sorted list acts on its first two entries as the
scan step does. -/
theorem first2_orderedInsert (d : α) (L : List α) (hL : L.Sorted (fun a b => a ≤ b)) :
    (nthOrInf (L.orderedInsert (fun a b => a ≤ b) d) 0,
      nthOrInf (L.orderedInsert (fun a b => a ≤ b) d) 1)
      = scan2 (nthOrInf L 0, nthOrInf L 1) d := by
  rcases L with _ | ⟨a, L⟩
  · simp [scan2, nthOrInf_nil, JNum.fin_lt_posInf, nthOrInf_cons_zero, nthOrInf_cons_succ]
  · rcases L with _ | ⟨b, L⟩
    · simp only [List.orderedInsert, scan2, nthOrInf_cons_zero, nthOrInf_cons_succ,
        nthOrInf_nil, JNum.fin_lt_fin, JNum.fin_lt_posInf, if_true]
      by_cases h : d ≤ a
      · simp only [h, if_true, nthOrInf_cons_zero, nthOrInf_cons_succ]
        by_cases h2 : d < a
        · simp [h2]
        · have : d = a := le_antisymm h (not_lt.1 h2)
          simp [this]
      · have h2 : ¬ d < a := fun hc => h (le_of_lt hc)
        simp [h, h2, nthOrInf_cons_zero, nthOrInf_cons_succ]
    · have hab : a ≤ b := by
        have := List.sorted_cons.1 hL
        exact this.1 b (by simp)
      simp only [List.orderedInsert, scan2, nthOrInf_cons_zero, nthOrInf_cons_succ,
        JNum.fin_lt_fin]
      by_cases h : d ≤ a
      · simp only [h, if_true, nthOrInf_cons_zero, nthOrInf_cons_succ]
        by_cases h2 : d < a
        · simp [h2]
        · have hda : d = a := le_antisymm h (not_lt.1 h2)
          subst hda
          by_cases h3 : d < b
          · simp [h3]
          · have : d = b := le_antisymm hab (not_lt.1 h3)
            simp [this]
      · have h2 : ¬ d < a := fun hc => h (le_of_lt hc)
        simp only [h, h2, if_false, nthOrInf_cons_zero, nthOrInf_cons_succ]
        by_cases h3 : d ≤ b
        · simp only [h3, if_true, nthOrInf_cons_zero, nthOrInf_cons_succ]
          by_cases h4 : d < b
          · simp [h4]
          · have : d = b := le_antisymm h3 (not_lt.1 h4)
            simp [this]
        · have h4 : ¬ d < b := fun hc => h3 (le_of_lt hc)
          simp [h3, h4, nthOrInf_cons_zero, nthOrInf_cons_succ]

theorem insertionSort_append_singleton (acc : List α) (d : α) :
    (acc ++ [d]).insertionSort (fun a b => a ≤ b)
      = (acc.insertionSort (fun a b => a ≤ b)).orderedInsert (fun a b => a ≤ b) d := by
  apply List.eq_of_perm_of_sorted (r := fun a b : α => a ≤ b)
  · refine (List.perm_insertionSort _ _).trans ?_
    refine List.Perm.trans ?_ (List.perm_orderedInsert _ _ _).symm
    refine List.perm_append_singleton d acc |>.trans ?_
    exact List.Perm.cons d (List.perm_insertionSort _ acc).symm
  · exact List.sorted_insertionSort _ _
  · exact List.Sorted.orderedInsert d _ (List.sorted_insertionSort _ _)

theorem foldl_scan2_sorted (ds acc : List α) :
    ds.foldl scan2 (nthOrInf (acc.insertionSort (fun a b => a ≤ b)) 0,
        nthOrInf (acc.insertionSort (fun a b => a ≤ b)) 1)
      = (nthOrInf ((acc ++ ds).insertionSort (fun a b => a ≤ b)) 0,
          nthOrInf ((acc ++ ds).insertionSort (fun a b => a ≤ b)) 1) := by
  induction ds generalizing acc with
  | nil => simp
  | cons d ds ih =>
    simp only [List.foldl_cons]
    rw [← first2_orderedInsert d _ (List.sorted_insertionSort _ acc),
      ← insertionSort_append_singleton, ih]
    simp

/-- The scan of `calculateReward` leaves the smallest and the second smallest
distance, `+Infinity` where the list is too short. -/
theorem scanFood_sorted (E : Env α) (x y : α) (foodPieces : List (Source α)) :
    (scanFood E x y foodPieces).minDistToFood = nthOrInf (sortedDists E x y foodPieces) 0 ∧
    (scanFood E x y foodPieces).secondMinDistToFood
      = nthOrInf (sortedDists E x y foodPieces) 1 := by
  have h := foldl_scanStep_values E x y foodPieces
    { minDistToFood := JNum.posInf, secondMinDistToFood := JNum.posInf,
      nearestFood := none, secondNearestFood := none }
  have h2 := foldl_scan2_sorted (foodPieces.map (foodDist E x y)) []
  simp only [List.insertionSort, nthOrInf_nil, List.nil_append] at h2
  rw [h2] at h
  exact ⟨congrArg Prod.fst h, congrArg Prod.snd h⟩

theorem length_sortedDists (E : Env α) (x y : α) (foodPieces : List (Source α)) :
    (sortedDists E x y foodPieces).length = foodPieces.length := by
  unfold sortedDists
  rw [List.length_insertionSort, List.length_map]

theorem nthOrInf_eq_posInf_iff (l : List α) (n : Nat) :
    nthOrInf l n = JNum.posInf ↔ l.length ≤ n := by
  unfold nthOrInf
  by_cases h : n < l.length
  · rw [List.getElem?_eq_getElem h]
    simp only [reduceCtorEq, false_iff, not_le]
    exact h
  · rw [List.getElem?_eq_none (Nat.not_lt.1 h)]
    simp only [true_iff]
    exact Nat.not_lt.1 h

/-- The scan keeps a nearest (second nearest) food exactly when the nearest (second
nearest) distance is finite. -/
theorem foldl_scanStep_isSome (E : Env α) (x y : α) (l : List (Source α)) (sc : Scan α)
    (h1 : sc.nearestFood.isSome = true ↔ sc.minDistToFood ≠ JNum.posInf)
    (h2 : sc.secondNearestFood.isSome = true ↔ sc.secondMinDistToFood ≠ JNum.posInf) :
    ((l.foldl (scanStep E x y) sc).nearestFood.isSome = true ↔
      (l.foldl (scanStep E x y) sc).minDistToFood ≠ JNum.posInf) ∧
    ((l.foldl (scanStep E x y) sc).secondNearestFood.isSome = true ↔
      (l.foldl (scanStep E x y) sc).secondMinDistToFood ≠ JNum.posInf) := by
  induction l generalizing sc with
  | nil => exact ⟨h1, h2⟩
  | cons f l ih =>
    simp only [List.foldl_cons]
    apply ih
    · unfold scanStep
      simp only
      split_ifs
      · simp
      · exact h1
      · exact h1
    · unfold scanStep
      simp only
      split_ifs
      · exact h1
      · simp
      · exact h2

/-- The scan keeps a second nearest food exactly when there are two food sources. -/
theorem scanFood_second_isSome (E : Env α) (x y : α) (foodPieces : List (Source α)) :
    (scanFood E x y foodPieces).secondNearestFood.isSome = true ↔ 2 ≤ foodPieces.length := by
  have h := (foldl_scanStep_isSome E x y foodPieces
    { minDistToFood := JNum.posInf, secondMinDistToFood := JNum.posInf,
      nearestFood := none, secondNearestFood := none } (by simp) (by simp)).2
  have hs := (scanFood_sorted E x y foodPieces).2
  unfold scanFood
  rw [h]
  unfold scanFood at hs
  rw [hs, Ne, nthOrInf_eq_posInf_iff, length_sortedDists]
  omega

/-- The nearest distance is attained by a food source and is a lower bound. -/
theorem scanFood_min_attained (E : Env α) (x y : α) (foodPieces : List (Source α))
    (hne : foodPieces ≠ []) :
    ∃ f ∈ foodPieces, (scanFood E x y foodPieces).minDistToFood = JNum.fin (foodDist E x y f) ∧
      ∀ g ∈ foodPieces, foodDist E x y f ≤ foodDist E x y g := by
  rw [(scanFood_sorted E x y foodPieces).1]
  have hperm : (sortedDists E x y foodPieces).Perm (foodPieces.map (foodDist E x y)) :=
    List.perm_insertionSort _ _
  have hsorted : (sortedDists E x y foodPieces).Sorted (fun a b => a ≤ b) :=
    List.sorted_insertionSort _ _
  have hlen := length_sortedDists E x y foodPieces
  rcases hL : sortedDists E x y foodPieces with _ | ⟨h, t⟩
  · rw [hL] at hlen
    have : foodPieces = [] := List.length_eq_zero.1 hlen.symm
    exact absurd this hne
  · rw [hL] at hperm hsorted
    have hmem : h ∈ foodPieces.map (foodDist E x y) := hperm.subset (by simp)
    obtain ⟨f, hf, hfd⟩ := List.mem_map.1 hmem
    refine ⟨f, hf, ?_, ?_⟩
    · rw [nthOrInf_cons_zero, hfd]
    · intro g hg
      have hgm : foodDist E x y g ∈ h :: t :=
        hperm.symm.subset (List.mem_map_of_mem _ hg)
      rw [hfd]
      rcases List.mem_cons.1 hgm with he | ht
      · rw [he]
      · exact (List.sorted_cons.1 hsorted).1 _ ht

theorem scanFood_nil (E : Env α) (x y : α) :
    (scanFood E x y []).minDistToFood = JNum.posInf ∧
    (scanFood E x y []).secondMinDistToFood = JNum.posInf := ⟨rfl, rfl⟩

/-- The second nearest distance is never below the nearest distance. -/
theorem scanFood_second_not_lt (E : Env α) (x y : α) (foodPieces : List (Source α)) :
    ¬ ((scanFood E x y foodPieces).secondMinDistToFood
        < (scanFood E x y foodPieces).minDistToFood) := by
  rw [(scanFood_sorted E x y foodPieces).1, (scanFood_sorted E x y foodPieces).2]
  have hsorted : (sortedDists E x y foodPieces).Sorted (fun a b => a ≤ b) :=
    List.sorted_insertionSort _ _
  generalize sortedDists E x y foodPieces = L at hsorted
  rcases L with _ | ⟨a, _ | ⟨b, t⟩⟩
  · exact JNum.not_posInf_lt _
  · rw [nthOrInf_cons_succ, nthOrInf_nil]
    exact JNum.not_posInf_lt _
  · rw [nthOrInf_cons_succ, nthOrInf_cons_zero, nthOrInf_cons_zero, JNum.fin_lt_fin]
    have hab : a ≤ b := (List.sorted_cons.1 hsorted).1 b (by simp)
    exact not_lt.2 hab

/-- The long-span condition of `calculateReward` never holds. -/
theorem span_condition_false (E : Env α) (x y : α) (foodPieces : List (Source α)) :
    ¬ ((scanFood E x y foodPieces).minDistToFood > JNum.fin 80 ∧
        (scanFood E x y foodPieces).secondMinDistToFood
          < (scanFood E x y foodPieces).minDistToFood * JNum.fin 0.6) := by
  have hnl := scanFood_second_not_lt E x y foodPieces
  rw [(scanFood_sorted E x y foodPieces).1, (scanFood_sorted E x y foodPieces).2] at hnl ⊢
  rintro ⟨h80, hlt⟩
  rcases h0 : nthOrInf (sortedDists E x y foodPieces) 0 with m | _ | _ | _
  · rw [h0] at h80 hlt hnl
    rcases h1 : nthOrInf (sortedDists E x y foodPieces) 1 with m2 | _ | _ | _
    · rw [h1] at hlt hnl
      rw [JNum.fin_mul_fin, JNum.fin_lt_fin] at hlt
      rw [JNum.fin_lt_fin] at hnl
      have h80' : (80 : α) < m := (JNum.fin_lt_fin _ _).1 h80
      have : m * 0.6 < m := by
        norm_num
        nlinarith
      exact hnl (lt_trans hlt this)
    · rw [h1] at hlt
      exact JNum.not_posInf_lt _ hlt
    · have := (nthOrInf_eq_negInf_false (sortedDists E x y foodPieces) 1) h1
      exact this
    · have := (nthOrInf_eq_nan_false (sortedDists E x y foodPieces) 1) h1
      exact this
  · rw [h0] at hlt
    have hm : (JNum.posInf : JNum α) * JNum.fin 0.6 = JNum.posInf := by
      show JNum.mul JNum.posInf (JNum.fin 0.6) = JNum.posInf
      simp only [JNum.mul, JNum.infTimes]
      norm_num
    rw [hm] at hlt
    rcases h1 : nthOrInf (sortedDists E x y foodPieces) 1 with m2 | _ | _ | _
    · rw [h1, h0] at hnl
      exact hnl (JNum.fin_lt_posInf _)
    · rw [h1] at hlt
      exact JNum.not_posInf_lt _ hlt
    · exact (nthOrInf_eq_negInf_false (sortedDists E x y foodPieces) 1) h1
    · exact (nthOrInf_eq_nan_false (sortedDists E x y foodPieces) 1) h1
  · exact (nthOrInf_eq_negInf_false (sortedDists E x y foodPieces) 0) h0
  · exact (nthOrInf_eq_nan_false (sortedDists E x y foodPieces) 0) h0

theorem ite_add_term (r t : JNum α) (p : Prop) [Decidable p] :
    (if p then r + t else r) = r + (if p then t else JNum.fin 0) := by
  split_ifs
  · rfl
  · exact (JNum.add_fin_zero r).symm

theorem ite_sub_term (r t : JNum α) (p : Prop) [Decidable p] :
    (if p then r - t else r) = r + (if p then JNum.neg t else JNum.fin 0) := by
  split_ifs
  · rfl
  · exact (JNum.add_fin_zero r).symm

theorem ite_add_else_add (r t u : JNum α) (p : Prop) [Decidable p] :
    (if p then r + t else r + u) = r + (if p then t else u) := by
  split_ifs <;> rfl

theorem ite_sub_else_add (r t u : JNum α) (p : Prop) [Decidable p] :
    (if p then r - t else r + u) = r + (if p then JNum.neg t else u) := by
  split_ifs <;> rfl

/-- The reward of `calculateReward` is the sum of the five terms. -/
theorem rewardValue_eq_terms (E : Env α) (s : State α) (a : Agent α) :
    rewardValue E s a
      = proximityTerm (scanFood E a.x a.y s.foodPieces).minDistToFood
        + trailTerm (trailAt E s a.x a.y) (convergence s.simulationSteps)
        + directionTerm (scanFood E a.x a.y s.foodPieces).minDistToFood a.lastFoodDistance
            (convergence s.simulationSteps)
        + farTerm (scanFood E a.x a.y s.foodPieces).minDistToFood
            (convergence s.simulationSteps)
        + spanTerm (2 ≤ s.foodPieces.length) (scanFood E a.x a.y s.foodPieces).minDistToFood
            (scanFood E a.x a.y s.foodPieces).secondMinDistToFood
            (convergence s.simulationSteps) := by
  unfold rewardValue
  simp only [ite_add_term, ite_sub_term, ite_add_else_add, ite_sub_else_add,
    JNum.fin_zero_add]
  congr 1
  · congr 1
    · congr 1
      · congr 1
        unfold trailTerm
        by_cases h30 : trailAt E s a.x a.y > 30
        · simp only [h30, if_true]
          congr 1
          ring
        · by_cases h10 : trailAt E s a.x a.y > 10
          · have : 10 < trailAt E s a.x a.y ∧ trailAt E s a.x a.y ≤ 30 :=
              ⟨h10, not_lt.1 h30⟩
            simp only [h30, h10, this, and_self, if_true, if_false]
          · have : ¬ (10 < trailAt E s a.x a.y ∧ trailAt E s a.x a.y ≤ 30) :=
              fun hc => h10 hc.1
            rw [if_neg h30, if_neg h10, if_neg h30, if_neg this]
      · unfold directionTerm
        split_ifs
        · show JNum.fin (-(2 + convergence s.simulationSteps * 3)) = _
          congr 1
          ring
        · rfl
        · rfl
    · unfold farTerm
      split_ifs
      · rw [mul_comm (convergence s.simulationSteps : α) 2]
      · rfl
  · unfold spanTerm
    have hiff : ((scanFood E a.x a.y s.foodPieces).secondNearestFood.isSome = true ∧
          (scanFood E a.x a.y s.foodPieces).minDistToFood > JNum.fin 80 ∧
          (scanFood E a.x a.y s.foodPieces).secondMinDistToFood
            < (scanFood E a.x a.y s.foodPieces).minDistToFood * JNum.fin 0.6) ↔
        (2 ≤ s.foodPieces.length ∧
          (scanFood E a.x a.y s.foodPieces).minDistToFood > JNum.fin 80 ∧
          (scanFood E a.x a.y s.foodPieces).secondMinDistToFood
            < JNum.fin 0.6 * (scanFood E a.x a.y s.foodPieces).minDistToFood) := by
      rw [scanFood_second_isSome, JNum.mul_fin_comm]
    by_cases hc : ((scanFood E a.x a.y s.foodPieces).secondNearestFood.isSome = true ∧
          (scanFood E a.x a.y s.foodPieces).minDistToFood > JNum.fin 80 ∧
          (scanFood E a.x a.y s.foodPieces).secondMinDistToFood
            < (scanFood E a.x a.y s.foodPieces).minDistToFood * JNum.fin 0.6)
    · rw [if_pos hc, if_pos (hiff.1 hc)]
      rfl
    · rw [if_neg hc, if_neg (fun h => hc (hiff.2 h))]

theorem JNum.trichotomy (d last : JNum α) (hd : d ≠ JNum.nan) (hl : last ≠ JNum.nan) :
    (¬ d > last ∧ ¬ d < last) ↔ d = last := by
  show (¬ JNum.lt last d = true ∧ ¬ JNum.lt d last = true) ↔ d = last
  rcases d with x | _ | _ | _ <;> rcases last with y | _ | _ | _ <;>
    simp [JNum.lt] at hd hl ⊢
  constructor
  · rintro ⟨h1, h2⟩
    exact le_antisymm h1 h2
  · intro h
    rw [h]
    exact ⟨le_refl _, le_refl _⟩

theorem nthOrInf_ne_nan (l : List α) (n : Nat) : nthOrInf l n ≠ JNum.nan :=
  fun h => nthOrInf_eq_nan_false l n h

/-- C16: `calculateReward` returns the sum of the five terms, with `d` the distance
to the nearest food source (`+Infinity` if there is none), `d2` the distance to the
second nearest, `last` the `lastFoodDistance` before the call, `trail` the trail
value at the agent's cell (0 at the sentinel) and `c = min(simulationSteps/3000, 1)`;
the case "else" of term (3) is the case `d = last` whenever `last` is not `NaN`. -/
theorem reward_five_terms (E : Env α) (s : State α) (a : Agent α) (d d2 last : JNum α)
    (trail c : α)
    (hd : d = nthOrInf (sortedDists E a.x a.y s.foodPieces) 0)
    (hd2 : d2 = nthOrInf (sortedDists E a.x a.y s.foodPieces) 1)
    (hlast : last = a.lastFoodDistance)
    (htrail : trail
      = if getIdx E a.x a.y ≥ 0 then rd s.trailMap (getIdx E a.x a.y).toNat else 0)
    (hc : c = min ((s.simulationSteps : α) / 3000) 1) :
    (calculateReward E s a).1
      = proximityTerm d + trailTerm trail c + directionTerm d last c + farTerm d c
        + spanTerm (2 ≤ s.foodPieces.length) d d2 c ∧
    (last ≠ JNum.nan → ((¬ d > last ∧ ¬ d < last) ↔ d = last)) := by
  constructor
  · show rewardValue E s a = _
    rw [rewardValue_eq_terms, (scanFood_sorted E a.x a.y s.foodPieces).1,
      (scanFood_sorted E a.x a.y s.foodPieces).2, ← hd, ← hd2, ← hlast, convergence_eq, ← hc]
    have ht : trailAt E s a.x a.y = trail := by
      rw [htrail]
      rfl
    rw [ht]
  · intro hl
    exact JNum.trichotomy d last (by rw [hd]; exact nthOrInf_ne_nan _ _) hl

theorem reward_five_terms_witness :
    (calculateReward (testEnv 100 100) oneFoodState agentOnFood).1
      = proximityTerm (nthOrInf (sortedDists (testEnv 100 100) agentOnFood.x agentOnFood.y
          oneFoodState.foodPieces) 0)
        + trailTerm
            (if getIdx (testEnv 100 100) agentOnFood.x agentOnFood.y ≥ 0 then
              rd oneFoodState.trailMap
                (getIdx (testEnv 100 100) agentOnFood.x agentOnFood.y).toNat
             else 0)
            (min ((oneFoodState.simulationSteps : ℚ) / 3000) 1)
        + directionTerm (nthOrInf (sortedDists (testEnv 100 100) agentOnFood.x agentOnFood.y
            oneFoodState.foodPieces) 0) agentOnFood.lastFoodDistance
            (min ((oneFoodState.simulationSteps : ℚ) / 3000) 1)
        + farTerm (nthOrInf (sortedDists (testEnv 100 100) agentOnFood.x agentOnFood.y
            oneFoodState.foodPieces) 0) (min ((oneFoodState.simulationSteps : ℚ) / 3000) 1)
        + spanTerm (2 ≤ oneFoodState.foodPieces.length)
            (nthOrInf (sortedDists (testEnv 100 100) agentOnFood.x agentOnFood.y
              oneFoodState.foodPieces) 0)
            (nthOrInf (sortedDists (testEnv 100 100) agentOnFood.x agentOnFood.y
              oneFoodState.foodPieces) 1)
            (min ((oneFoodState.simulationSteps : ℚ) / 3000) 1) :=
  (reward_five_terms (testEnv 100 100) oneFoodState agentOnFood _ _ _ _ _
    rfl rfl rfl rfl rfl).1

/-- C14: the long-span condition of `calculateReward` (a second nearest food exists,
nearest distance > 80, second nearest distance < 0.6 * nearest distance) is false
for every agent, food list and tick count: the second nearest distance is never
below the nearest one; the returned reward is the sum of the other four terms. -/
theorem long_span_dead (E : Env α) (s : State α) (a : Agent α) :
    ¬ ((scanFood E a.x a.y s.foodPieces).secondNearestFood.isSome = true ∧
        (scanFood E a.x a.y s.foodPieces).minDistToFood > JNum.fin 80 ∧
        (scanFood E a.x a.y s.foodPieces).secondMinDistToFood
          < (scanFood E a.x a.y s.foodPieces).minDistToFood * JNum.fin 0.6) ∧
    ¬ ((scanFood E a.x a.y s.foodPieces).secondMinDistToFood
        < (scanFood E a.x a.y s.foodPieces).minDistToFood) ∧
    (calculateReward E s a).1
      = proximityTerm (scanFood E a.x a.y s.foodPieces).minDistToFood
        + trailTerm (trailAt E s a.x a.y) (convergence s.simulationSteps)
        + directionTerm (scanFood E a.x a.y s.foodPieces).minDistToFood a.lastFoodDistance
            (convergence s.simulationSteps)
        + farTerm (scanFood E a.x a.y s.foodPieces).minDistToFood
            (convergence s.simulationSteps) := by
  have hfalse := span_condition_false E a.x a.y s.foodPieces
  refine ⟨fun h => hfalse h.2, scanFood_second_not_lt E a.x a.y s.foodPieces, ?_⟩
  show rewardValue E s a = _
  rw [rewardValue_eq_terms]
  have hspan : spanTerm (2 ≤ s.foodPieces.length)
      (scanFood E a.x a.y s.foodPieces).minDistToFood
      (scanFood E a.x a.y s.foodPieces).secondMinDistToFood
      (convergence s.simulationSteps) = JNum.fin 0 := by
    unfold spanTerm
    rw [if_neg]
    rintro ⟨_, h80, hlt⟩
    rw [JNum.mul_fin_comm] at hlt
    exact hfalse ⟨h80, hlt⟩
  rw [hspan, JNum.add_fin_zero]

theorem proximityTerm_le (d : JNum α) (hd : d = JNum.posInf ∨ ∃ m : α, 0 ≤ m ∧ d = JNum.fin m) :
    ¬ (JNum.fin 10 < proximityTerm d) := by
  unfold proximityTerm
  rcases hd with h | ⟨m, hm, h⟩
  · rw [h, if_neg (JNum.not_posInf_lt _), JNum.fin_lt_fin]
    norm_num
  · rw [h]
    by_cases h100 : m < 100
    · rw [if_pos ((JNum.fin_lt_fin _ _).2 h100), JNum.fin_sub_fin,
        JNum.fin_div_fin _ _ (by norm_num), JNum.fin_lt_fin]
      rw [not_lt, div_le_iff₀ (by norm_num : (0 : α) < 10)]
      linarith
    · rw [if_neg (fun hc => h100 ((JNum.fin_lt_fin _ _).1 hc)), JNum.fin_lt_fin]
      norm_num

theorem scanFood_min_cases (E : Env α) (hsqrt : ∀ v : α, 0 ≤ E.sqrt v) (x y : α)
    (foodPieces : List (Source α)) :
    (scanFood E x y foodPieces).minDistToFood = JNum.posInf ∨
      ∃ m : α, 0 ≤ m ∧ (scanFood E x y foodPieces).minDistToFood = JNum.fin m := by
  by_cases hne : foodPieces = []
  · left
    rw [hne]
    rfl
  · right
    obtain ⟨f, _, hf, _⟩ := scanFood_min_attained E x y foodPieces hne
    exact ⟨foodDist E x y f, hsqrt _, hf⟩

/-- The reward of an agent standing on a food source, trail and direction terms
isolated, is 10. -/
theorem rewardValue_on_food (E : Env α) (s : State α) (a : Agent α) (food : Source α)
    (hsqrt0 : E.sqrt 0 = 0) (hsqrt : ∀ v : α, 0 ≤ E.sqrt v)
    (hmem : food ∈ s.foodPieces) (hx : a.x = food.x) (hy : a.y = food.y)
    (htrail : trailAt E s a.x a.y ≤ 10) (hlast : a.lastFoodDistance = JNum.fin 0) :
    rewardValue E s a = JNum.fin 10 := by
  have hdist : foodDist E a.x a.y food = 0 := by
    unfold foodDist
    rw [hx, hy]
    simp [hsqrt0]
  have hne : s.foodPieces ≠ [] := List.ne_nil_of_mem hmem
  obtain ⟨f, _, hf, hmin⟩ := scanFood_min_attained E a.x a.y s.foodPieces hne
  have hf0 : foodDist E a.x a.y f = 0 := by
    have h1 := hmin food hmem
    rw [hdist] at h1
    exact le_antisymm h1 (hsqrt _)
  rw [hf0] at hf
  rw [rewardValue_eq_terms, hf, hlast]
  have h1 : proximityTerm (JNum.fin (0 : α)) = JNum.fin 10 := by
    unfold proximityTerm
    rw [if_pos ((JNum.fin_lt_fin _ _).2 (by norm_num)), JNum.fin_sub_fin,
      JNum.fin_div_fin _ _ (by norm_num)]
    congr 1
    norm_num
  have h2 : trailTerm (trailAt E s a.x a.y) (convergence s.simulationSteps)
      = JNum.fin 0 := by
    unfold trailTerm
    rw [if_neg (by intro hc; have : (30 : α) < trailAt E s a.x a.y := hc; linarith),
      if_neg (by rintro ⟨hc, _⟩; linarith)]
  have h3 : directionTerm (JNum.fin (0 : α)) (JNum.fin 0) (convergence s.simulationSteps)
      = JNum.fin 0 := by
    unfold directionTerm
    have hirr : ¬ (JNum.fin (0 : α) < JNum.fin 0) := by
      rw [JNum.fin_lt_fin]
      exact lt_irrefl _
    rw [if_neg hirr, if_neg hirr]
  have h4 : farTerm (JNum.fin (0 : α)) (convergence s.simulationSteps) = JNum.fin 0 := by
    unfold farTerm
    rw [if_neg]
    show ¬ (JNum.fin (150 : α) < JNum.fin 0)
    rw [JNum.fin_lt_fin]
    norm_num
  have h5 : spanTerm (2 ≤ s.foodPieces.length) (JNum.fin (0 : α))
      (scanFood E a.x a.y s.foodPieces).secondMinDistToFood
      (convergence s.simulationSteps) = JNum.fin 0 := by
    unfold spanTerm
    rw [if_neg]
    rintro ⟨_, h80, _⟩
    have : JNum.fin (80 : α) < JNum.fin 0 := h80
    rw [JNum.fin_lt_fin] at this
    norm_num at this
  rw [h1, h2, h3, h4, h5]
  simp only [JNum.add_fin_zero]

/-- C12: an agent standing at the position of a food source, with trail value at its
cell at most 10 and `lastFoodDistance = 0`, gets the reward 10 exactly, for every
tick count and whatever the other food sources; and the proximity term never
exceeds 10.  `Math.sqrt` is non-negative with `sqrt(0) = 0`. -/
theorem reward_at_food (E : Env α) (s : State α) (a : Agent α) (food : Source α)
    (hsqrt0 : E.sqrt 0 = 0) (hsqrt : ∀ v : α, 0 ≤ E.sqrt v)
    (hmem : food ∈ s.foodPieces) (hx : a.x = food.x) (hy : a.y = food.y)
    (htrail : trailAt E s a.x a.y ≤ 10) (hlast : a.lastFoodDistance = JNum.fin 0) :
    (calculateReward E s a).1 = JNum.fin 10 ∧
    (∀ (s' : State α) (a' : Agent α),
      ¬ (JNum.fin 10 < proximityTerm (scanFood E a'.x a'.y s'.foodPieces).minDistToFood)) := by
  constructor
  · exact rewardValue_on_food E s a food hsqrt0 hsqrt hmem hx hy htrail hlast
  · intro s' a'
    exact proximityTerm_le _ (scanFood_min_cases E hsqrt a'.x a'.y s'.foodPieces)

theorem reward_at_food_witness :
    (calculateReward (testEnv 100 100) oneFoodState agentOnFood).1 = JNum.fin 10 :=
  (reward_at_food (testEnv 100 100) oneFoodState agentOnFood { x := 50, y := 50, radius := 12 }
    (by simp [testEnv])
    (fun v => by
      simp only [testEnv]
      split_ifs with h
      · exact le_refl _
      · linarith)
    (by simp [oneFoodState]) rfl rfl
    (by
      simp only [trailAt]
      split_ifs
      · have : rd oneFoodState.trailMap
            (getIdx (testEnv 100 100) agentOnFood.x agentOnFood.y).toNat = 0 :=
          rd_mkArray_zero _ _
        rw [this]
        norm_num
      · norm_num)
    rfl).1

end Reward

/-! ## Steering, movement and the frame of update -/

section Steering

variable {α : Type} [LinearOrderedField α] [FloorRing α]

/-- The agent of `update` is moved at the steered heading, then rewarded. -/
theorem updateAgent_eq (E : Env α) (s : State α) (r : Draws α) (a : Agent α) :
    updateAgent E s r a
      = (calculateReward E s
          (move E s r { (calculateReward E s a).2 with angle := steeredAngle E s r a })).2 :=
  rfl

theorem getIdx_sentinel_or_valid (E : Env α) (x y : α) :
    getIdx E x y = -1 ∨ 0 ≤ getIdx E x y := by
  by_cases h : (⌊x⌋ < 0 ∨ ⌊x⌋ ≥ (E.width : Int) ∨ ⌊y⌋ < 0 ∨ ⌊y⌋ ≥ (E.height : Int))
  · exact Or.inl ((getIdx_neg_iff E x y).2 h)
  · exact Or.inr (getIdx_bounds E x y h).1

/-- C13: one call of `update` leaves the food grid, the food and mold source lists,
the tick counter, the agent list (every other agent), the scratch grid and the
parameters unchanged; the trail grid keeps its size and changes in at most one
cell, the cell of the agent's final position, and not at all when that position
maps to the sentinel. -/
theorem update_frame (E : Env α) (s : State α) (r : Draws α) (a : Agent α) :
    (update E s r a).2 = { s with trailMap := (update E s r a).2.trailMap } ∧
    (update E s r a).2.foodMap = s.foodMap ∧
    (update E s r a).2.foodPieces = s.foodPieces ∧
    (update E s r a).2.moldSources = s.moldSources ∧
    (update E s r a).2.simulationSteps = s.simulationSteps ∧
    (update E s r a).2.agents = s.agents ∧
    (update E s r a).2.trailMap.size = s.trailMap.size ∧
    (∀ j : Nat, rd (update E s r a).2.trailMap j = rd s.trailMap j ∨
      (0 ≤ getIdx E (update E s r a).1.x (update E s r a).1.y ∧
        j = (getIdx E (update E s r a).1.x (update E s r a).1.y).toNat)) ∧
    (0 ≤ getIdx E (update E s r a).1.x (update E s r a).1.y ∨
      (getIdx E (update E s r a).1.x (update E s r a).1.y = -1 ∧
        (update E s r a).2.trailMap = s.trailMap)) := by
  refine ⟨rfl, rfl, rfl, rfl, rfl, rfl, ?_, ?_, ?_⟩
  · show (deposit E s (updateAgent E s r a)).size = s.trailMap.size
    simp only [deposit]
    split_ifs
    · exact size_wr _ _ _
    · rfl
  · intro j
    show rd (deposit E s (updateAgent E s r a)) j = rd s.trailMap j ∨
      (0 ≤ getIdx E (updateAgent E s r a).x (updateAgent E s r a).y ∧
        j = (getIdx E (updateAgent E s r a).x (updateAgent E s r a).y).toNat)
    simp only [deposit]
    split_ifs with h
    · by_cases hj : (getIdx E (updateAgent E s r a).x (updateAgent E s r a).y).toNat = j
      · exact Or.inr ⟨h, hj.symm⟩
      · exact Or.inl (rd_wr_ne _ _ _ _ hj)
    · exact Or.inl rfl
  · show 0 ≤ getIdx E (updateAgent E s r a).x (updateAgent E s r a).y ∨
      (getIdx E (updateAgent E s r a).x (updateAgent E s r a).y = -1 ∧
        deposit E s (updateAgent E s r a) = s.trailMap)
    by_cases h : 0 ≤ getIdx E (updateAgent E s r a).x (updateAgent E s r a).y
    · exact Or.inl h
    · right
      constructor
      · rcases getIdx_sentinel_or_valid E (updateAgent E s r a).x (updateAgent E s r a).y with h1 | h1
        · exact h1
        · exact absurd h1 h
      · simp only [deposit]
        rw [if_neg]
        exact h

theorem sense_zero (E : Env α) (s : State α) (a : Agent α) (offsetAngle : α)
    (htrail : ∀ i, rd s.trailMap i = 0) (hfood : ∀ i, rd s.foodMap i = 0) :
    sense E s a offsetAngle = 0 := by
  simp only [sense]
  have key : (forInt (-2) 2 (fun ox acc =>
      forInt (-2) 2 (fun oy acc =>
        senseCell E s (a.x + E.cos (a.angle + offsetAngle) * s.SENSOR_DIST)
          (a.y + E.sin (a.angle + offsetAngle) * s.SENSOR_DIST) ox oy acc) acc)
      ((0 : α), 0)).1 = 0 := by
    apply forInt_invariant (fun acc : α × Nat => acc.1 = 0) _ _ _ _ rfl
    intro ox acc _ _ hacc
    apply forInt_invariant (fun acc : α × Nat => acc.1 = 0) _ _ _ _ hacc
    intro oy acc' _ _ hacc'
    simp only [senseCell]
    split_ifs
    · simp only [htrail, hfood, hacc']
      norm_num
    · exact hacc'
  rw [key]
  split_ifs
  · exact zero_div _
  · rfl

/-- The heading after the two steering blocks, by the branch of the sensed steering. -/
theorem steerSensed_cases (s : State α) (r : Draws α) (F L R rs h0 : α) :
    (F > L ∧ F > R → steerSensed s r F L R rs h0 = h0 + 0.5 * rs) ∧
    (¬ (F > L ∧ F > R) → F < L ∧ F < R →
      steerSensed s r F L R rs h0
        = h0 + ((if r.side < 0.5 then -s.ROTATION_ANGLE else s.ROTATION_ANGLE) + rs)) ∧
    (¬ (F > L ∧ F > R) → ¬ (F < L ∧ F < R) → R > L →
      steerSensed s r F L R rs h0 = h0 + (s.ROTATION_ANGLE + rs)) ∧
    (¬ (F > L ∧ F > R) → ¬ (F < L ∧ F < R) → ¬ R > L → L > R →
      steerSensed s r F L R rs h0 = h0 - (s.ROTATION_ANGLE + rs)) ∧
    (¬ (F > L ∧ F > R) → ¬ (F < L ∧ F < R) → ¬ R > L → ¬ L > R →
      steerSensed s r F L R rs h0 = h0 + rs) ∧
    ((¬ (F > L ∧ F > R) ∧ ¬ (F < L ∧ F < R) ∧ ¬ R > L ∧ ¬ L > R) ↔ (F = L ∧ L = R)) := by
  refine ⟨?_, ?_, ?_, ?_, ?_, ?_⟩
  · intro h1
    unfold steerSensed
    rw [if_pos h1, mul_comm]
  · intro h1 h2
    unfold steerSensed
    rw [if_neg h1, if_pos h2]
    split_ifs <;> ring
  · intro h1 h2 h3
    unfold steerSensed
    rw [if_neg h1, if_neg h2, if_pos h3]
  · intro h1 h2 h3 h4
    unfold steerSensed
    rw [if_neg h1, if_neg h2, if_neg h3, if_pos h4]
  · intro h1 h2 h3 h4
    unfold steerSensed
    rw [if_neg h1, if_neg h2, if_neg h3, if_neg h4]
  · constructor
    · rintro ⟨h1, h2, h3, h4⟩
      have hLR : L = R := le_antisymm (not_lt.1 h4) (not_lt.1 h3)
      subst hLR
      refine ⟨?_, rfl⟩
      rcases lt_trichotomy F L with h | h | h
      · exact absurd ⟨h, h⟩ h2
      · exact h
      · exact absurd ⟨h, h⟩ h1
    · rintro ⟨rfl, rfl⟩
      refine ⟨?_, ?_, lt_irrefl _, lt_irrefl _⟩
      · rintro ⟨h, _⟩
        exact lt_irrefl _ h
      · rintro ⟨h, _⟩
        exact lt_irrefl _ h

/-- C19: the sensed steering of `update`, for the sensed values `F`, `L`, `R`, the
random steer `rs` and the heading `h0` left by the first steering block, takes
exactly one branch, in this priority: `F > L` and `F > R`: `h0 + 0.5 * rs`;
`F < L` and `F < R`: `h0 + (-ROT or +ROT by the draw) + rs`; else `R > L`:
`h0 + ROT + rs`; else `L > R`: `h0 - (ROT + rs)`; else `h0 + rs`.  The last branch
is taken if and only if `F = L = R`. -/
theorem sensed_steering (E : Env α) (s : State α) (r : Draws α) (a : Agent α)
    (F L R rs h0 : α)
    (hF : F = sense E s (calculateReward E s a).2 0)
    (hL : L = sense E s (calculateReward E s a).2 (-s.SENSOR_ANGLE))
    (hR : R = sense E s (calculateReward E s a).2 s.SENSOR_ANGLE)
    (hrs : rs = (r.steer - 0.5)
      * (if (calculateReward E s a).2.fitness > JNum.fin (-10) then 0.6 else 0.3))
    (hh0 : h0 = steerLost E s r (calculateReward E s a).2 (F + L + R)) :
    (F > L ∧ F > R → steeredAngle E s r a = h0 + 0.5 * rs) ∧
    (¬ (F > L ∧ F > R) → F < L ∧ F < R →
      steeredAngle E s r a
        = h0 + ((if r.side < 0.5 then -s.ROTATION_ANGLE else s.ROTATION_ANGLE) + rs)) ∧
    (¬ (F > L ∧ F > R) → ¬ (F < L ∧ F < R) → R > L →
      steeredAngle E s r a = h0 + (s.ROTATION_ANGLE + rs)) ∧
    (¬ (F > L ∧ F > R) → ¬ (F < L ∧ F < R) → ¬ R > L → L > R →
      steeredAngle E s r a = h0 - (s.ROTATION_ANGLE + rs)) ∧
    (¬ (F > L ∧ F > R) → ¬ (F < L ∧ F < R) → ¬ R > L → ¬ L > R →
      steeredAngle E s r a = h0 + rs) ∧
    ((¬ (F > L ∧ F > R) ∧ ¬ (F < L ∧ F < R) ∧ ¬ R > L ∧ ¬ L > R) ↔ (F = L ∧ L = R)) := by
  have hst : steeredAngle E s r a = steerSensed s r F L R rs h0 := by
    subst hh0 hrs hF hL hR
    rfl
  rw [hst]
  exact steerSensed_cases s r F L R rs h0

theorem sensed_steering_witness :
    steeredAngle (testEnv 100 100) (initialState (testEnv 100 100)) steerDraws
        (testAgent 50 50)
      = steerLost (testEnv 100 100) (initialState (testEnv 100 100)) steerDraws
          (calculateReward (testEnv 100 100) (initialState (testEnv 100 100))
            (testAgent 50 50)).2 (0 + 0 + 0)
        + (steerDraws.steer - 0.5)
          * (if (calculateReward (testEnv 100 100) (initialState (testEnv 100 100))
                (testAgent 50 50)).2.fitness > JNum.fin (-10) then 0.6 else 0.3) :=
  (sensed_steering (testEnv 100 100) (initialState (testEnv 100 100)) steerDraws
    (testAgent 50 50) 0 0 0 _ _
    (sense_zero _ _ _ _ (fun i => rd_mkArray_zero _ _) (fun i => rd_mkArray_zero _ _)).symm
    (sense_zero _ _ _ _ (fun i => rd_mkArray_zero _ _) (fun i => rd_mkArray_zero _ _)).symm
    (sense_zero _ _ _ _ (fun i => rd_mkArray_zero _ _) (fun i => rd_mkArray_zero _ _)).symm
    rfl rfl).2.2.2.2.1
    (fun h => lt_irrefl _ h.1) (fun h => lt_irrefl _ h.1) (lt_irrefl _) (lt_irrefl _)

/-- C18: the movement step of `update`, for the agent `b` that enters it (position of
the agent, steered heading): if the candidate `(x + cos(angle) * STEP_SIZE,
y + sin(angle) * STEP_SIZE)` passes `isInCircle` the agent moves there and nothing
else changes; otherwise the fitness is reduced by exactly 10, the heading is reset
to `atan2(-dy, -dx) + (jitter - 0.5) * 0.8` (toward the grid centre), and the
position is the corrective candidate if that passes `isInCircle`, else unchanged.
The position after `update` is the position after this step, and an agent inside
the plate before `update` is inside the plate after it. -/
theorem movement_step (E : Env α) (s : State α) (r : Draws α) (a b : Agent α)
    (hb : b = { (calculateReward E s a).2 with angle := steeredAngle E s r a }) :
    (b.x = a.x ∧ b.y = a.y) ∧
    ((update E s r a).1.x = (move E s r b).x ∧ (update E s r a).1.y = (move E s r b).y) ∧
    (isInCircle E (b.x + E.cos b.angle * s.STEP_SIZE) (b.y + E.sin b.angle * s.STEP_SIZE)
        = true →
      move E s r b = { b with
        x := b.x + E.cos b.angle * s.STEP_SIZE, y := b.y + E.sin b.angle * s.STEP_SIZE }) ∧
    (isInCircle E (b.x + E.cos b.angle * s.STEP_SIZE) (b.y + E.sin b.angle * s.STEP_SIZE)
        = false →
      (move E s r b).fitness = b.fitness - JNum.fin 10 ∧
      (move E s r b).angle
        = E.atan2 (-(b.y - (E.height : α) / 2)) (-(b.x - (E.width : α) / 2))
          + (r.jitter - 0.5) * 0.8 ∧
      (isInCircle E (b.x + E.cos (move E s r b).angle * s.STEP_SIZE)
          (b.y + E.sin (move E s r b).angle * s.STEP_SIZE) = true →
        (move E s r b).x = b.x + E.cos (move E s r b).angle * s.STEP_SIZE ∧
        (move E s r b).y = b.y + E.sin (move E s r b).angle * s.STEP_SIZE) ∧
      (isInCircle E (b.x + E.cos (move E s r b).angle * s.STEP_SIZE)
          (b.y + E.sin (move E s r b).angle * s.STEP_SIZE) = false →
        (move E s r b).x = b.x ∧ (move E s r b).y = b.y)) ∧
    (isInCircle E a.x a.y = true →
      isInCircle E (update E s r a).1.x (update E s r a).1.y = true) := by
  refine ⟨?_, ?_, ?_, ?_, ?_⟩
  · rw [hb]
    exact ⟨rfl, rfl⟩
  · rw [hb]
    exact ⟨rfl, rfl⟩
  · intro h1
    simp only [move]
    rw [if_pos h1]
  · intro h1
    have hang : (move E s r b).angle
        = E.atan2 (-(b.y - (E.height : α) / 2)) (-(b.x - (E.width : α) / 2))
          + (r.jitter - 0.5) * 0.8 := by
      simp only [move]
      rw [if_neg (by rw [h1]; simp)]
      split_ifs <;> rfl
    refine ⟨?_, hang, ?_, ?_⟩
    · simp only [move]
      rw [if_neg (by rw [h1]; simp)]
      split_ifs <;> rfl
    · intro h2
      rw [hang] at h2 ⊢
      simp only [move]
      rw [if_neg (by rw [h1]; simp), if_pos h2]
      exact ⟨rfl, rfl⟩
    · intro h2
      rw [hang] at h2
      simp only [move]
      rw [if_neg (by rw [h1]; simp), if_neg (by rw [h2]; simp)]
      exact ⟨rfl, rfl⟩
  · intro hin
    exact update_inside E s r a hin

theorem movement_step_witness :
    isInCircle (testEnv 100 100)
      (update (testEnv 100 100) (initialState (testEnv 100 100)) testDraws
        (testAgent 50 50)).1.x
      (update (testEnv 100 100) (initialState (testEnv 100 100)) testDraws
        (testAgent 50 50)).1.y = true :=
  (movement_step (testEnv 100 100) (initialState (testEnv 100 100)) testDraws
    (testAgent 50 50) _ rfl).2.2.2.2 (by norm_num [isInCircle, testEnv, testAgent])

theorem foldl_nearestStep_from (E : Env α) (x y : α) (l : List (Source α)) (f0 : Source α) :
    ∃ f, (l.foldl (nearestStep E x y) (JNum.fin (foodDist E x y f0), some f0)).2 = some f ∧
      (f = f0 ∨ f ∈ l) ∧ foodDist E x y f ≤ foodDist E x y f0 ∧
      ∀ g ∈ l, foodDist E x y f ≤ foodDist E x y g := by
  induction l generalizing f0 with
  | nil => exact ⟨f0, rfl, Or.inl rfl, le_refl _, fun g hg => absurd hg (List.not_mem_nil g)⟩
  | cons g l ih =>
    simp only [List.foldl_cons, nearestStep]
    by_cases h : foodDist E x y g < foodDist E x y f0
    · rw [if_pos ((JNum.fin_lt_fin _ _).2 h)]
      obtain ⟨f, hf, hmem, hle, hall⟩ := ih g
      refine ⟨f, hf, ?_, le_trans hle (le_of_lt h), ?_⟩
      · rcases hmem with rfl | hm
        · exact Or.inr (by simp)
        · exact Or.inr (by simp [hm])
      · intro g' hg'
        rcases List.mem_cons.1 hg' with rfl | hm
        · exact hle
        · exact hall g' hm
    · rw [if_neg (fun hc => h ((JNum.fin_lt_fin _ _).1 hc))]
      obtain ⟨f, hf, hmem, hle, hall⟩ := ih f0
      refine ⟨f, hf, ?_, hle, ?_⟩
      · rcases hmem with rfl | hm
        · exact Or.inl rfl
        · exact Or.inr (by simp [hm])
      · intro g' hg'
        rcases List.mem_cons.1 hg' with rfl | hm
        · exact le_trans hle (not_lt.1 h)
        · exact hall g' hm

/-- The nearest-food loop of the lost branch finds a food source at least distance. -/
theorem foldl_nearestStep (E : Env α) (x y : α) (l : List (Source α)) (hne : l ≠ []) :
    ∃ f ∈ l, (l.foldl (nearestStep E x y) (JNum.posInf, none)).2 = some f ∧
      ∀ g ∈ l, foodDist E x y f ≤ foodDist E x y g := by
  rcases l with _ | ⟨f0, l⟩
  · exact absurd rfl hne
  · simp only [List.foldl_cons, nearestStep]
    rw [if_pos (JNum.fin_lt_posInf _)]
    obtain ⟨f, hf, hmem, hle, hall⟩ := foldl_nearestStep_from E x y l f0
    refine ⟨f, ?_, hf, ?_⟩
    · rcases hmem with rfl | hm
      · simp
      · simp [hm]
    · intro g hg
      rcases List.mem_cons.1 hg with rfl | hm
      · exact hle
      · exact hall g hm

theorem steerLost_of_lost (E : Env α) (s : State α) (r : Draws α) (a1 : Agent α)
    (totalSignal : α) (food : Source α) (hlost : a1.fitness < JNum.fin (-20))
    (hnear : (s.foodPieces.foldl (nearestStep E a1.x a1.y) (JNum.posInf, none)).2
      = some food) :
    steerLost E s r a1 totalSignal
      = a1.angle + 0.3 * (E.atan2 (food.y - a1.y) (food.x - a1.x) - a1.angle) := by
  simp only [steerLost]
  rw [if_pos hlost, hnear]
  simp only
  rw [mul_comm]

theorem lostAgent_fitness :
    (calculateReward (testEnv 100 100) oneFoodState lostAgent).2.fitness = JNum.fin (-29) := by
  have hrew : rewardValue (testEnv 100 100) oneFoodState lostAgent = JNum.fin 10 :=
    rewardValue_on_food (testEnv 100 100) oneFoodState lostAgent
      { x := 50, y := 50, radius := 12 }
      (by simp [testEnv])
      (fun v => by
        simp only [testEnv]
        split_ifs with h
        · exact le_refl _
        · linarith)
      (by simp [oneFoodState]) rfl rfl
      (by
        simp only [trailAt]
        split_ifs
        · have : rd oneFoodState.trailMap
              (getIdx (testEnv 100 100) lostAgent.x lostAgent.y).toNat = 0 :=
            rd_mkArray_zero _ _
          rw [this]
          norm_num
        · norm_num)
      rfl
  show lostAgent.fitness + rewardValue (testEnv 100 100) oneFoodState lostAgent * JNum.fin 0.1
    = JNum.fin (-29)
  rw [hrew]
  show JNum.fin ((-30 : ℚ) + 10 * 0.1) = JNum.fin (-29)
  congr 1
  norm_num

theorem lost_agent_is_lost :
    (calculateReward (testEnv 100 100) oneFoodState lostAgent).2.fitness < JNum.fin (-20) := by
  rw [lostAgent_fitness, JNum.fin_lt_fin]
  norm_num

/-- C15 (as stated) fails: an agent with fitness -29 at steering time, on a page
with one food source, zero grids and steering draw 0.9, changes its heading before
the movement step by 0.12, the random steer of the sensed-steering block, not by
`0.3 * (bearing - heading) = 0`. -/
theorem lost_heading_has_random_steer :
    (calculateReward (testEnv 100 100) oneFoodState lostAgent).2.fitness < JNum.fin (-20) ∧
    oneFoodState.foodPieces ≠ [] ∧
    ¬ (steeredAngle (testEnv 100 100) oneFoodState steerDraws lostAgent - lostAgent.angle
        = 0.3 * ((testEnv 100 100).atan2 (50 - lostAgent.y) (50 - lostAgent.x)
            - lostAgent.angle)) := by
  have hfit := lostAgent_fitness
  have hlost := lost_agent_is_lost
  refine ⟨hlost, by simp [oneFoodState], ?_⟩
  have hz : ∀ off, sense (testEnv 100 100) oneFoodState
      (calculateReward (testEnv 100 100) oneFoodState lostAgent).2 off = 0 :=
    fun off => sense_zero _ _ _ _ (fun i => rd_mkArray_zero _ _) (fun i => rd_mkArray_zero _ _)
  have hsl : steerLost (testEnv 100 100) oneFoodState steerDraws
      (calculateReward (testEnv 100 100) oneFoodState lostAgent).2 (0 + 0 + 0) = 0 := by
    rw [steerLost_of_lost (testEnv 100 100) oneFoodState steerDraws _ _
      { x := 50, y := 50, radius := 12 } hlost
      (by
        show ([({ x := 50, y := 50, radius := 12 } : Source ℚ)].foldl
          (nearestStep (testEnv 100 100) 50 50) (JNum.posInf, none)).2 = _
        simp only [List.foldl_cons, List.foldl_nil, nearestStep]
        rw [if_pos (JNum.fin_lt_posInf _)])]
    show (0 : ℚ) + 0.3 * ((testEnv 100 100).atan2 (50 - 50) (50 - 50) - 0) = 0
    simp [testEnv]
  have hrs : randomSteerOf steerDraws
      (calculateReward (testEnv 100 100) oneFoodState lostAgent).2 = 3 / 25 := by
    unfold randomSteerOf
    rw [hfit, if_neg (by
      show ¬ (JNum.fin (-10 : ℚ) < JNum.fin (-29))
      rw [JNum.fin_lt_fin]
      norm_num)]
    norm_num [steerDraws]
  have hst : steeredAngle (testEnv 100 100) oneFoodState steerDraws lostAgent = 3 / 25 := by
    unfold steeredAngle
    rw [hz, hz, hz, hsl, hrs]
    simp [steerSensed]
  rw [hst]
  norm_num [lostAgent, testEnv]

/-- C15 (amended): when the agent's fitness is < -20 after the first reward call of
`update` and at least one food source exists, the first steering block sets the
heading to `heading + 0.3 * (bearing to the nearest food source - heading)`,
whatever the sensed values and the random draws (no exploratory jump); the sensed
steering block is then applied to that heading, so the heading before the movement
step is the sensed steering of `heading + 0.3 * (bearing - heading)`. -/
theorem lost_steering (E : Env α) (s : State α) (r : Draws α) (a : Agent α)
    (hlost : (calculateReward E s a).2.fitness < JNum.fin (-20))
    (hfood : s.foodPieces ≠ []) :
    ∃ food ∈ s.foodPieces,
      (∀ g ∈ s.foodPieces, foodDist E a.x a.y food ≤ foodDist E a.x a.y g) ∧
      (∀ (r' : Draws α) (totalSignal : α),
        steerLost E s r' (calculateReward E s a).2 totalSignal
          = a.angle + 0.3 * (E.atan2 (food.y - a.y) (food.x - a.x) - a.angle)) ∧
      steeredAngle E s r a
        = steerSensed s r
            (sense E s (calculateReward E s a).2 0)
            (sense E s (calculateReward E s a).2 (-s.SENSOR_ANGLE))
            (sense E s (calculateReward E s a).2 s.SENSOR_ANGLE)
            ((r.steer - 0.5)
              * (if (calculateReward E s a).2.fitness > JNum.fin (-10) then 0.6 else 0.3))
            (a.angle + 0.3 * (E.atan2 (food.y - a.y) (food.x - a.x) - a.angle)) := by
  obtain ⟨food, hmem, hnear, hmin⟩ := foldl_nearestStep E a.x a.y s.foodPieces hfood
  refine ⟨food, hmem, hmin, ?_, ?_⟩
  · intro r' totalSignal
    exact steerLost_of_lost E s r' (calculateReward E s a).2 totalSignal food hlost hnear
  · unfold steeredAngle
    rw [steerLost_of_lost E s r (calculateReward E s a).2 _ food hlost hnear]
    rfl

theorem lost_steering_witness :
    ∃ food ∈ oneFoodState.foodPieces,
      (∀ g ∈ oneFoodState.foodPieces,
        foodDist (testEnv 100 100) lostAgent.x lostAgent.y food
          ≤ foodDist (testEnv 100 100) lostAgent.x lostAgent.y g) ∧
      (∀ (r' : Draws ℚ) (totalSignal : ℚ),
        steerLost (testEnv 100 100) oneFoodState r'
            (calculateReward (testEnv 100 100) oneFoodState lostAgent).2 totalSignal
          = lostAgent.angle + 0.3 * ((testEnv 100 100).atan2 (food.y - lostAgent.y)
              (food.x - lostAgent.x) - lostAgent.angle)) ∧
      steeredAngle (testEnv 100 100) oneFoodState steerDraws lostAgent
        = steerSensed oneFoodState steerDraws
            (sense (testEnv 100 100) oneFoodState
              (calculateReward (testEnv 100 100) oneFoodState lostAgent).2 0)
            (sense (testEnv 100 100) oneFoodState
              (calculateReward (testEnv 100 100) oneFoodState lostAgent).2
              (-oneFoodState.SENSOR_ANGLE))
            (sense (testEnv 100 100) oneFoodState
              (calculateReward (testEnv 100 100) oneFoodState lostAgent).2
              oneFoodState.SENSOR_ANGLE)
            ((steerDraws.steer - 0.5)
              * (if (calculateReward (testEnv 100 100) oneFoodState lostAgent).2.fitness
                  > JNum.fin (-10) then 0.6 else 0.3))
            (lostAgent.angle + 0.3 * ((testEnv 100 100).atan2 (food.y - lostAgent.y)
              (food.x - lostAgent.x) - lostAgent.angle)) :=
  lost_steering (testEnv 100 100) oneFoodState steerDraws lostAgent
    lost_agent_is_lost (by simp [oneFoodState])

end Steering

/-! ## Sensing -/

section Sensing

variable {α : Type} [LinearOrderedField α] [FloorRing α]

theorem senseCell_eq (E : Env α) (s : State α) (sensorX sensorY : α) (p : Int × Int)
    (acc : α × Nat) :
    senseCell E s sensorX sensorY p.1 p.2 acc
      = if 0 ≤ getIdx E (sensorX + (p.1 : α)) (sensorY + (p.2 : α)) then
          (acc.1 + cellSignal s (getIdx E (sensorX + (p.1 : α)) (sensorY + (p.2 : α))).toNat,
            acc.2 + 1)
        else acc := by
  simp only [senseCell, cellSignal, convergence_eq, ge_iff_le]
  split_ifs
  · rw [mul_comm (min ((s.simulationSteps : α) / 3000) 1) 1.2]
  · rfl

theorem foldl_senseCell (E : Env α) (s : State α) (sensorX sensorY : α)
    (L : List (Int × Int)) (acc : α × Nat) :
    L.foldl (fun acc p => senseCell E s sensorX sensorY p.1 p.2 acc) acc
      = (acc.1 + ((L.filter (fun p =>
            decide (0 ≤ getIdx E (sensorX + (p.1 : α)) (sensorY + (p.2 : α))))).map
            (fun p => cellSignal s
              (getIdx E (sensorX + (p.1 : α)) (sensorY + (p.2 : α))).toNat)).sum,
          acc.2 + (L.filter (fun p =>
            decide (0 ≤ getIdx E (sensorX + (p.1 : α)) (sensorY + (p.2 : α))))).length) := by
  induction L generalizing acc with
  | nil => simp
  | cons p L ih =>
    simp only [List.foldl_cons]
    rw [ih, senseCell_eq]
    by_cases h : 0 ≤ getIdx E (sensorX + (p.1 : α)) (sensorY + (p.2 : α))
    · simp only [h, if_true, List.filter_cons, decide_True, List.map_cons, List.sum_cons,
        List.length_cons]
      congr 1
      · ring
      · omega
    · simp only [h, if_false, List.filter_cons, decide_False]
      simp

/-- C20: `sense(offsetAngle)` is the arithmetic mean, over those of the 25 sample
points `(sensorX + ox, sensorY + oy)`, `ox, oy` in {-2, ..., 2}, whose `getIdx` is
valid, of `min(trail[cell] * (0.3 + 1.2 c), 80) + food[cell] * FOOD_ATTRACTION`; it
is 0 when no sample point has a valid cell, so the division is only made by a
positive count and the grids are read at valid cells only. -/
theorem sense_mean (E : Env α) (s : State α) (a : Agent α) (offsetAngle : α) :
    sense E s a offsetAngle
      = (if validSamples E (a.x + E.cos (a.angle + offsetAngle) * s.SENSOR_DIST)
            (a.y + E.sin (a.angle + offsetAngle) * s.SENSOR_DIST) = [] then 0
         else
          ((validSamples E (a.x + E.cos (a.angle + offsetAngle) * s.SENSOR_DIST)
              (a.y + E.sin (a.angle + offsetAngle) * s.SENSOR_DIST)).map
            (fun p => cellSignal s
              (getIdx E (a.x + E.cos (a.angle + offsetAngle) * s.SENSOR_DIST + (p.1 : α))
                (a.y + E.sin (a.angle + offsetAngle) * s.SENSOR_DIST + (p.2 : α))).toNat)).sum
          / ((validSamples E (a.x + E.cos (a.angle + offsetAngle) * s.SENSOR_DIST)
              (a.y + E.sin (a.angle + offsetAngle) * s.SENSOR_DIST)).length : α)) ∧
    sampleOffsets.length = 25 ∧
    (∀ p : Int × Int, p ∈ sampleOffsets ↔ (-2 ≤ p.1 ∧ p.1 ≤ 2) ∧ (-2 ≤ p.2 ∧ p.2 ≤ 2)) ∧
    (∀ p ∈ validSamples E (a.x + E.cos (a.angle + offsetAngle) * s.SENSOR_DIST)
        (a.y + E.sin (a.angle + offsetAngle) * s.SENSOR_DIST),
      0 ≤ getIdx E (a.x + E.cos (a.angle + offsetAngle) * s.SENSOR_DIST + (p.1 : α))
        (a.y + E.sin (a.angle + offsetAngle) * s.SENSOR_DIST + (p.2 : α)) ∧
      (getIdx E (a.x + E.cos (a.angle + offsetAngle) * s.SENSOR_DIST + (p.1 : α))
        (a.y + E.sin (a.angle + offsetAngle) * s.SENSOR_DIST + (p.2 : α))).toNat
        < E.width * E.height) := by
  refine ⟨?_, by decide, fun p => mem_offsets _ _ _ _ p, ?_⟩
  · simp only [sense]
    rw [forInt_nested (-2) 2 (-2) 2
      (fun oy ox acc => senseCell E s (a.x + E.cos (a.angle + offsetAngle) * s.SENSOR_DIST)
        (a.y + E.sin (a.angle + offsetAngle) * s.SENSOR_DIST) ox oy acc) (0, 0)]
    rw [foldl_senseCell]
    simp only [zero_add]
    unfold validSamples sampleOffsets
    generalize (offsets (-2) 2 (-2) 2).filter (fun p =>
      decide (0 ≤ getIdx E (a.x + E.cos (a.angle + offsetAngle) * s.SENSOR_DIST + (p.1 : α))
        (a.y + E.sin (a.angle + offsetAngle) * s.SENSOR_DIST + (p.2 : α)))) = V
    rcases V with _ | ⟨p, V⟩
    · simp
    · simp
  · intro p hp
    unfold validSamples at hp
    have h := (List.mem_filter.1 hp).2
    have h' : 0 ≤ getIdx E (a.x + E.cos (a.angle + offsetAngle) * s.SENSOR_DIST + (p.1 : α))
        (a.y + E.sin (a.angle + offsetAngle) * s.SENSOR_DIST + (p.2 : α)) := by
      simpa using h
    exact ⟨h', getIdx_nonneg_lt E _ _ h'⟩

theorem sense_mean_witness :
    0 ≤ getIdx (testEnv 100 100)
        ((testAgent 50 50).x + (testEnv 100 100).cos ((testAgent 50 50).angle + 0)
          * (initialState (testEnv 100 100)).SENSOR_DIST + (((0 : Int), (0 : Int)).1 : ℚ))
        ((testAgent 50 50).y + (testEnv 100 100).sin ((testAgent 50 50).angle + 0)
          * (initialState (testEnv 100 100)).SENSOR_DIST + (((0 : Int), (0 : Int)).2 : ℚ)) ∧
    (getIdx (testEnv 100 100)
        ((testAgent 50 50).x + (testEnv 100 100).cos ((testAgent 50 50).angle + 0)
          * (initialState (testEnv 100 100)).SENSOR_DIST + (((0 : Int), (0 : Int)).1 : ℚ))
        ((testAgent 50 50).y + (testEnv 100 100).sin ((testAgent 50 50).angle + 0)
          * (initialState (testEnv 100 100)).SENSOR_DIST + (((0 : Int), (0 : Int)).2 : ℚ))).toNat
      < (testEnv 100 100).width * (testEnv 100 100).height :=
  (sense_mean (testEnv 100 100) (initialState (testEnv 100 100)) (testAgent 50 50) 0).2.2.2
    ((0 : Int), (0 : Int))
    (by
      unfold validSamples
      rw [List.mem_filter]
      refine ⟨(mem_offsets _ _ _ _ _).2 (by decide), ?_⟩
      norm_num [getIdx, testEnv, testAgent, initialState])

end Sensing

/-! ## Diffusion as a function of the grid before the pass -/

section Diffusion

variable {α : Type} [LinearOrderedField α] [FloorRing α]

theorem blendValue_eq (s : State α) (m v : α) :
    blendValue s m v
      = floor03 (prune (min ((s.simulationSteps : α) / 3000) 1)
          (decay s (m * s.DIFFUSE_RATE + v * (1 - s.DIFFUSE_RATE)))) := by
  simp only [blendValue, floor03, prune, decay, convergence_eq]
  rw [mul_comm (min ((s.simulationSteps : α) / 3000) 1) 8,
    mul_comm (min ((s.simulationSteps : α) / 3000) 1) 0.1]

theorem floor03_cases (v : α) : floor03 v = 0 ∨ 0.3 ≤ floor03 v := by
  unfold floor03
  split_ifs with h
  · exact Or.inl rfl
  · exact Or.inr (not_lt.1 h)

theorem size_moldCell (E : Env α) (x y falloff base gain : α) (dx dy : Int) (t : Array α) :
    (moldCell E x y falloff base gain dx dy t).size = t.size := by
  simp only [moldCell]
  split_ifs
  · exact size_wr _ _ _
  · rfl
  · rfl

theorem size_stampMold (E : Env α) (x y falloff base gain : α) (t : Array α) :
    (stampMold E x y falloff base gain t).size = t.size := by
  unfold stampMold
  apply forInt_invariant (fun g : Array α => g.size = t.size) _ _ _ _ rfl
  intro dy g _ _ hg
  apply forInt_invariant (fun g : Array α => g.size = t.size) _ _ _ _ hg
  intro dx g' _ _ hg'
  rw [size_moldCell]
  exact hg'

theorem size_stampFood (E : Env α) (x y : α) (g : Array α) :
    (stampFood E x y g).size = g.size := by
  rw [stampFood_eq, size_foldl_maxWrite]

theorem size_deposit (E : Env α) (s : State α) (a : Agent α) :
    (deposit E s a).size = s.trailMap.size := by
  simp only [deposit]
  split_ifs
  · exact size_wr _ _ _
  · rfl

theorem updateSeq_trail_size (E : Env α) (draws : Nat → Draws α) (k : Nat) (s : State α)
    (l : List (Agent α)) :
    (updateSeq E draws k s l).2.trailMap.size = s.trailMap.size := by
  induction l generalizing k s with
  | nil => rfl
  | cons a l ih =>
    simp only [updateSeq]
    rw [ih]
    exact size_deposit E s _

theorem placeFood_tempMap (E : Env α) (numFood : Nat) (rndAngle rndDist : Nat → α)
    (fuel attempts : Nat) (s : State α) :
    (placeFood E numFood rndAngle rndDist fuel attempts s).tempMap = s.tempMap := by
  induction fuel generalizing attempts s with
  | zero => rfl
  | succ n ih =>
    simp only [placeFood]
    split_ifs
    · rw [ih]
    · rw [ih]
    · rfl

theorem placeFood_foodMap_size (E : Env α) (numFood : Nat) (rndAngle rndDist : Nat → α)
    (fuel attempts : Nat) (s : State α) :
    (placeFood E numFood rndAngle rndDist fuel attempts s).foodMap.size = s.foodMap.size := by
  induction fuel generalizing attempts s with
  | zero => rfl
  | succ n ih =>
    simp only [placeFood]
    split_ifs
    · rw [ih]
      exact size_stampFood E _ _ s.foodMap
    · rw [ih]
    · rfl

theorem GridsOk_of_eq (E : Env α) (s s' : State α) (h : GridsOk E s)
    (h1 : s'.trailMap.size = s.trailMap.size) (h2 : s'.tempMap = s.tempMap)
    (h3 : s'.foodMap.size = s.foodMap.size) : GridsOk E s' := by
  obtain ⟨a, b, c, d⟩ := h
  refine ⟨by rw [h1, a], by rw [h2, b], by rw [h3, c], ?_⟩
  intro i hi
  rw [h2]
  exact d i hi

theorem GridsOk_initialState (E : Env α) : GridsOk E (initialState E) := by
  refine ⟨Array.size_mkArray _ _, Array.size_mkArray _ _, Array.size_mkArray _ _, ?_⟩
  intro i _
  exact rd_mkArray_zero _ _

theorem GridsOk_diffuseTrails (E : Env α) (s : State α) (h : GridsOk E s) :
    GridsOk E (diffuseTrails E s) := by
  obtain ⟨a, b, c, d⟩ := h
  refine ⟨by rw [size_diffuse_trailMap, a], ?_, c, ?_⟩
  · rw [diffuse_tempMap, size_blur, b]
  · intro i hi
    rw [diffuse_tempMap, rd_blur]
    have hmem : ¬ i ∈ interiorCells E := fun hc => hi ((mem_interiorCells E i).1 hc)
    simp only [hmem, false_and, if_false]
    exact d i hi

theorem GridsOk_forEachUpdate (E : Env α) (draws : Nat → Draws α) (s : State α)
    (h : GridsOk E s) : GridsOk E (forEachUpdate E draws s) := by
  rw [forEachUpdate_eq]
  have hst := updateSeq_state E draws 0 s s.agents
  apply GridsOk_of_eq E s _ h
  · exact updateSeq_trail_size E draws 0 s s.agents
  · show (updateSeq E draws 0 s s.agents).2.tempMap = s.tempMap
    rw [hst]
  · show (updateSeq E draws 0 s s.agents).2.foodMap.size = s.foodMap.size
    rw [hst]

theorem GridsOk_loop (E : Env α) (draws : Nat → Draws α) (frame : Nat) (s : State α)
    (h : GridsOk E s) : GridsOk E (loop E draws frame s) := by
  unfold loop
  split_ifs
  · exact GridsOk_of_eq E s _ h rfl rfl rfl
  · have h1 : GridsOk E { s with simulationSteps := s.simulationSteps + 1 } :=
      GridsOk_of_eq E s _ h rfl rfl rfl
    have h2 := GridsOk_diffuseTrails E _ (GridsOk_forEachUpdate E draws _ h1)
    exact GridsOk_of_eq E _ _ h2 rfl rfl rfl

theorem GridsOk_btnRun (E : Env α) (draws : Nat → Draws α) (frame : Nat) (s : State α)
    (h : GridsOk E s) : GridsOk E (btnRun E draws frame s) := by
  unfold btnRun
  simp only
  have h1 : GridsOk E { s with running := !s.running } := GridsOk_of_eq E s _ h rfl rfl rfl
  split_ifs
  · exact GridsOk_loop E draws frame _ h1
  · exact h1

theorem GridsOk_mousedown (E : Env α) (s : State α) (x y : α) (rnd : Nat → α)
    (h : GridsOk E s) : GridsOk E (mousedown E s x y rnd) := by
  unfold mousedown
  split_ifs
  · exact h
  · exact GridsOk_of_eq E s _ h (size_stampMold E x y _ _ _ s.trailMap) rfl rfl
  · exact GridsOk_of_eq E s _ h rfl rfl (size_stampFood E x y s.foodMap)

theorem GridsOk_autoSetup (E : Env α) (s : State α) (numFood : Nat)
    (rnd rndAngle rndDist : Nat → α) (h : GridsOk E s) :
    GridsOk E (autoSetup E s numFood rnd rndAngle rndDist) := by
  apply GridsOk_of_eq E s _ h
  · rw [autoSetup_trailMap, size_stampMold, size_fillZero]
  · unfold autoSetup
    rw [placeFood_tempMap]
  · unfold autoSetup
    rw [placeFood_foodMap_size]
    exact size_fillZero _

theorem GridsOk_clearSim (E : Env α) (s : State α) (h : GridsOk E s) :
    GridsOk E (clearSim s) :=
  GridsOk_of_eq E s _ h (size_fillZero _) rfl (size_fillZero _)

theorem GridsOk_handle (E : Env α) (s : State α) (e : Event α) (h : GridsOk E s) :
    GridsOk E (handle E s e) := by
  cases e with
  | click x y rnd => exact GridsOk_mousedown E s x y rnd h
  | setMode m => exact GridsOk_of_eq E s _ h rfl rfl rfl
  | run draws frame => exact GridsOk_btnRun E draws frame s h
  | frame draws frame => exact GridsOk_loop E draws frame s h
  | autoSetup numFood rnd rndAngle rndDist =>
    exact GridsOk_autoSetup E s numFood rnd rndAngle rndDist h
  | clear => exact GridsOk_clearSim E s h
  | resetParameters => exact GridsOk_of_eq E s _ h rfl rfl rfl
  | agentCount v => exact GridsOk_of_eq E s _ h rfl rfl rfl
  | stepSize v => exact GridsOk_of_eq E s _ h rfl rfl rfl
  | sensorDist v => exact GridsOk_of_eq E s _ h rfl rfl rfl
  | depositAmount v => exact GridsOk_of_eq E s _ h rfl rfl rfl
  | decaySpeed v => exact GridsOk_of_eq E s _ h rfl rfl rfl
  | foodAttraction v => exact GridsOk_of_eq E s _ h rfl rfl rfl

/-- In every state the page can reach, the grids have `width * height` cells and the
scratch grid is 0 outside the interior cells. -/
theorem GridsOk_runEvents (E : Env α) (events : List (Event α)) :
    GridsOk E (runEvents E events) := by
  unfold runEvents
  apply foldl_invariant (GridsOk E) (handle E) events _ (GridsOk_initialState E)
  intro s e _ hs
  exact GridsOk_handle E s e hs

/-- C17: after `diffuseTrails`, every cell `i` holds `floor03(prune(decay(b)))` with
`b = m * DIFFUSE_RATE + t * (1 - DIFFUSE_RATE)`, `t` the value of cell `i` before the
pass and `m` the mean of the 3 x 3 block of cell `i` in the grid before the pass for
an interior cell, the scratch value for any other cell; that scratch value is 0 in
every state the page can reach, where the grids also have `width * height` cells.
Every resulting cell is 0 or at least 0.3. -/
theorem diffusion_pure (E : Env α) (s : State α)
    (hT : s.trailMap.size = E.width * E.height)
    (hS : s.tempMap.size = E.width * E.height) :
    (∀ y x, 1 ≤ y → y < E.height - 1 → 1 ≤ x → x < E.width - 1 →
      rd (diffuseTrails E s).trailMap (y * E.width + x)
        = floor03 (prune (min ((s.simulationSteps : α) / 3000) 1)
            (decay s (mean9 E s.trailMap (y * E.width + x) * s.DIFFUSE_RATE
              + rd s.trailMap (y * E.width + x) * (1 - s.DIFFUSE_RATE))))) ∧
    (∀ i, i < E.width * E.height →
      (¬ ∃ y x, (1 ≤ y ∧ y < E.height - 1) ∧ (1 ≤ x ∧ x < E.width - 1) ∧
        i = y * E.width + x) →
      rd (diffuseTrails E s).trailMap i
        = floor03 (prune (min ((s.simulationSteps : α) / 3000) 1)
            (decay s (rd s.tempMap i * s.DIFFUSE_RATE
              + rd s.trailMap i * (1 - s.DIFFUSE_RATE))))) ∧
    (∀ i, rd (diffuseTrails E s).trailMap i = 0 ∨ 0.3 ≤ rd (diffuseTrails E s).trailMap i) ∧
    (∀ (events : List (Event α)),
      (runEvents E events).trailMap.size = E.width * E.height ∧
      (runEvents E events).tempMap.size = E.width * E.height ∧
      ∀ i, (¬ ∃ y x, (1 ≤ y ∧ y < E.height - 1) ∧ (1 ≤ x ∧ x < E.width - 1) ∧
          i = y * E.width + x) →
        rd (runEvents E events).tempMap i = 0) := by
  refine ⟨?_, ?_, ?_, ?_⟩
  · intro y x hy1 hy2 hx1 hx2
    have hlt : y * E.width + x < E.width * E.height := by
      have h1 : y + 1 ≤ E.height := by omega
      have h2 : (y + 1) * E.width ≤ E.height * E.width := Nat.mul_le_mul_right _ h1
      have h3 : x < E.width := by omega
      rw [Nat.mul_comm E.width E.height]
      calc y * E.width + x < y * E.width + E.width := by omega
        _ = (y + 1) * E.width := by ring
        _ ≤ E.height * E.width := h2
    have hmem : y * E.width + x ∈ interiorCells E :=
      (mem_interiorCells E _).2 ⟨y, x, ⟨hy1, hy2⟩, ⟨hx1, hx2⟩, rfl⟩
    rw [rd_diffuse_trailMap E s _ (by rw [hT]; exact hlt), rd_blur, blendValue_eq]
    simp only [hmem, hS, hlt, and_self, if_true]
  · intro i hi hnot
    have hmem : ¬ i ∈ interiorCells E := fun hc => hnot ((mem_interiorCells E i).1 hc)
    rw [rd_diffuse_trailMap E s _ (by rw [hT]; exact hi), rd_blur, blendValue_eq]
    simp only [hmem, false_and, if_false]
  · intro i
    by_cases hi : i < s.trailMap.size
    · rw [rd_diffuse_trailMap E s i hi, blendValue_eq]
      exact floor03_cases _
    · left
      apply rd_of_size_le
      rw [size_diffuse_trailMap]
      exact Nat.not_lt.1 hi
  · intro events
    obtain ⟨a, b, _, d⟩ := GridsOk_runEvents E events
    exact ⟨a, b, d⟩

theorem diffusion_pure_witness :
    rd (diffuseTrails (testEnv 3 3) ringState).trailMap (1 * (testEnv 3 3).width + 1)
      = floor03 (prune (min ((ringState.simulationSteps : ℚ) / 3000) 1)
          (decay ringState (mean9 (testEnv 3 3) ringState.trailMap
              (1 * (testEnv 3 3).width + 1) * ringState.DIFFUSE_RATE
            + rd ringState.trailMap (1 * (testEnv 3 3).width + 1)
              * (1 - ringState.DIFFUSE_RATE)))) :=
  (diffusion_pure (testEnv 3 3) ringState (by simp [ringState, testEnv])
    (by simp [ringState, initialState, testEnv])).1 1 1 (le_refl _)
    (by simp [testEnv]) (le_refl _) (by simp [testEnv])

end Diffusion

/-! ## The nearest-food scan -/

section Scan

variable {α : Type} [LinearOrderedField α] [FloorRing α]

theorem sortedDists_perm (E : Env α) (x y : α) (l l' : List (Source α)) (h : l'.Perm l) :
    sortedDists E x y l' = sortedDists E x y l := by
  unfold sortedDists
  apply List.eq_of_perm_of_sorted (r := fun a b : α => a ≤ b)
  · refine (List.perm_insertionSort _ _).trans ?_
    refine List.Perm.trans ?_ (List.perm_insertionSort _ _).symm
    exact h.map _
  · exact List.sorted_insertionSort _ _
  · exact List.sorted_insertionSort _ _

theorem JNum.lt_or_eq_of_not_lt (a b : JNum α) (ha : a ≠ JNum.nan) (hb : b ≠ JNum.nan)
    (h : ¬ (b < a)) : a < b ∨ a = b := by
  have key : ¬ JNum.lt b a = true := h
  show JNum.lt a b = true ∨ a = b
  rcases a with x | _ | _ | _ <;> rcases b with y | _ | _ | _ <;>
    simp [JNum.lt] at ha hb key ⊢
  exact lt_or_eq_of_le key

/-- C21: after the scan loop of `calculateReward`, `minDistToFood` is the smallest
and `secondMinDistToFood` the second smallest entry of the multiset of distances
from the agent to the food sources (entries 0 and 1 of the distances in ascending
order), `+Infinity` when the list has fewer than one, respectively two, elements;
the result does not depend on the order of the list, and `minDistToFood` is never
above `secondMinDistToFood`. -/
theorem scan_two_smallest (E : Env α) (x y : α) (foodPieces : List (Source α)) :
    (scanFood E x y foodPieces).minDistToFood = nthOrInf (sortedDists E x y foodPieces) 0 ∧
    (scanFood E x y foodPieces).secondMinDistToFood
      = nthOrInf (sortedDists E x y foodPieces) 1 ∧
    (sortedDists E x y foodPieces).Sorted (fun a b => a ≤ b) ∧
    (sortedDists E x y foodPieces).Perm (foodPieces.map (foodDist E x y)) ∧
    ((scanFood E x y foodPieces).minDistToFood = JNum.posInf ↔ foodPieces.length < 1) ∧
    ((scanFood E x y foodPieces).secondMinDistToFood = JNum.posInf ↔ foodPieces.length < 2) ∧
    (∀ foodPieces' : List (Source α), foodPieces'.Perm foodPieces →
      (scanFood E x y foodPieces').minDistToFood = (scanFood E x y foodPieces).minDistToFood ∧
      (scanFood E x y foodPieces').secondMinDistToFood
        = (scanFood E x y foodPieces).secondMinDistToFood) ∧
    ¬ ((scanFood E x y foodPieces).secondMinDistToFood
        < (scanFood E x y foodPieces).minDistToFood) ∧
    ((scanFood E x y foodPieces).minDistToFood
        < (scanFood E x y foodPieces).secondMinDistToFood ∨
      (scanFood E x y foodPieces).minDistToFood
        = (scanFood E x y foodPieces).secondMinDistToFood) := by
  have hs := scanFood_sorted E x y foodPieces
  have hnl := scanFood_second_not_lt E x y foodPieces
  refine ⟨hs.1, hs.2, List.sorted_insertionSort _ _, List.perm_insertionSort _ _,
    ?_, ?_, ?_, hnl, ?_⟩
  · rw [hs.1, nthOrInf_eq_posInf_iff, length_sortedDists]
    omega
  · rw [hs.2, nthOrInf_eq_posInf_iff, length_sortedDists]
    omega
  · intro l' hperm
    have hs' := scanFood_sorted E x y l'
    rw [hs'.1, hs'.2, hs.1, hs.2, sortedDists_perm E x y foodPieces l' hperm]
    exact ⟨rfl, rfl⟩
  · apply JNum.lt_or_eq_of_not_lt _ _ _ _ hnl
    · rw [hs.1]
      exact nthOrInf_ne_nan _ _
    · rw [hs.2]
      exact nthOrInf_ne_nan _ _

theorem scan_two_smallest_witness :
    (scanFood (testEnv 100 100) 50 50
        [{ x := 50, y := 50, radius := 12 }, { x := 60, y := 50, radius := 12 }]).minDistToFood
      = (scanFood (testEnv 100 100) 50 50 twoFoodState.foodPieces).minDistToFood ∧
    (scanFood (testEnv 100 100) 50 50
        [{ x := 50, y := 50, radius := 12 },
          { x := 60, y := 50, radius := 12 }]).secondMinDistToFood
      = (scanFood (testEnv 100 100) 50 50 twoFoodState.foodPieces).secondMinDistToFood :=
  (scan_two_smallest (testEnv 100 100) 50 50 twoFoodState.foodPieces).2.2.2.2.2.2.1 _
    (List.Perm.swap _ _ _)

end Scan

/-! ## Effect of calculateReward on the agent -/

section RewardEffect

variable {α : Type} [LinearOrderedField α] [FloorRing α]

theorem JNum.lt_irrefl (a : JNum α) : ¬ (a < a) := by
  show ¬ JNum.lt a a = true
  cases a <;> simp [JNum.lt]

theorem directionTerm_self (d : JNum α) (c : α) : directionTerm d d c = JNum.fin 0 := by
  unfold directionTerm
  rw [if_neg (JNum.lt_irrefl d), if_neg (JNum.lt_irrefl d)]

theorem move_lastFoodDistance (E : Env α) (s : State α) (r : Draws α) (b : Agent α) :
    (move E s r b).lastFoodDistance = b.lastFoodDistance := by
  simp only [move]
  split_ifs <;> rfl

/-- C22: `calculateReward` sets `lastFoodDistance` to the distance from the agent's
position to the nearest food source (`+Infinity` without food), adds 0.1 times the
returned reward to `fitness`, and leaves `x`, `y` and `angle` unchanged; it returns
no grid and no food list, and in `update` the food grid and the food list stay as
they were and the trail grid changes by the deposit only. -/
theorem calculateReward_effect (E : Env α) (s : State α) (r : Draws α) (a : Agent α) :
    (calculateReward E s a).2.lastFoodDistance
      = nthOrInf (sortedDists E a.x a.y s.foodPieces) 0 ∧
    ((s.foodPieces = [] ∧ (calculateReward E s a).2.lastFoodDistance = JNum.posInf) ∨
      ∃ f ∈ s.foodPieces,
        (calculateReward E s a).2.lastFoodDistance = JNum.fin (foodDist E a.x a.y f) ∧
        ∀ g ∈ s.foodPieces, foodDist E a.x a.y f ≤ foodDist E a.x a.y g) ∧
    (calculateReward E s a).2.fitness
      = a.fitness + JNum.fin 0.1 * (calculateReward E s a).1 ∧
    (calculateReward E s a).2.x = a.x ∧
    (calculateReward E s a).2.y = a.y ∧
    (calculateReward E s a).2.angle = a.angle ∧
    (update E s r a).2.foodMap = s.foodMap ∧
    (update E s r a).2.foodPieces = s.foodPieces ∧
    (update E s r a).2.trailMap = deposit E s (update E s r a).1 := by
  refine ⟨(scanFood_sorted E a.x a.y s.foodPieces).1, ?_, ?_, rfl, rfl, rfl, rfl, rfl, rfl⟩
  · by_cases hne : s.foodPieces = []
    · left
      refine ⟨hne, ?_⟩
      show (scanFood E a.x a.y s.foodPieces).minDistToFood = JNum.posInf
      rw [hne]
      rfl
    · right
      exact scanFood_min_attained E a.x a.y s.foodPieces hne
  · rw [JNum.mul_fin_comm]
    rfl

/-- C24: a second `calculateReward` at the same position, with the same food list, has
directional term 0 and returns the sum of the four other terms; so has the first
call of the next `update` of an agent, the food list being unchanged; the call
after the movement compares the distance at the new position with the distance at
the position before the move. -/
theorem direction_term_repeat (E : Env α) (s s' : State α) (r : Draws α) (a b : Agent α)
    (hfood : s'.foodPieces = s.foodPieces)
    (hb : b = { (calculateReward E s a).2 with angle := steeredAngle E s r a }) :
    directionTerm
        (scanFood E (calculateReward E s a).2.x (calculateReward E s a).2.y
          s'.foodPieces).minDistToFood
        (calculateReward E s a).2.lastFoodDistance (convergence s'.simulationSteps)
      = JNum.fin 0 ∧
    (calculateReward E s' (calculateReward E s a).2).1
      = proximityTerm (scanFood E a.x a.y s'.foodPieces).minDistToFood
        + trailTerm (trailAt E s' a.x a.y) (convergence s'.simulationSteps)
        + farTerm (scanFood E a.x a.y s'.foodPieces).minDistToFood
            (convergence s'.simulationSteps)
        + spanTerm (2 ≤ s'.foodPieces.length) (scanFood E a.x a.y s'.foodPieces).minDistToFood
            (scanFood E a.x a.y s'.foodPieces).secondMinDistToFood
            (convergence s'.simulationSteps) ∧
    directionTerm
        (scanFood E (update E s r a).1.x (update E s r a).1.y s'.foodPieces).minDistToFood
        (update E s r a).1.lastFoodDistance (convergence s'.simulationSteps)
      = JNum.fin 0 ∧
    (calculateReward E s' (update E s r a).1).1
      = proximityTerm
          (scanFood E (update E s r a).1.x (update E s r a).1.y s'.foodPieces).minDistToFood
        + trailTerm (trailAt E s' (update E s r a).1.x (update E s r a).1.y)
            (convergence s'.simulationSteps)
        + farTerm
            (scanFood E (update E s r a).1.x (update E s r a).1.y s'.foodPieces).minDistToFood
            (convergence s'.simulationSteps)
        + spanTerm (2 ≤ s'.foodPieces.length)
            (scanFood E (update E s r a).1.x (update E s r a).1.y s'.foodPieces).minDistToFood
            (scanFood E (update E s r a).1.x (update E s r a).1.y
              s'.foodPieces).secondMinDistToFood
            (convergence s'.simulationSteps) ∧
    ((update E s r a).1 = (calculateReward E s (move E s r b)).2 ∧
      (move E s r b).lastFoodDistance = (scanFood E a.x a.y s.foodPieces).minDistToFood) := by
  have h1 : directionTerm
      (scanFood E (calculateReward E s a).2.x (calculateReward E s a).2.y
        s'.foodPieces).minDistToFood
      (calculateReward E s a).2.lastFoodDistance (convergence s'.simulationSteps)
      = JNum.fin 0 := by
    rw [hfood]
    exact directionTerm_self _ _
  have h3 : directionTerm
      (scanFood E (update E s r a).1.x (update E s r a).1.y s'.foodPieces).minDistToFood
      (update E s r a).1.lastFoodDistance (convergence s'.simulationSteps)
      = JNum.fin 0 := by
    rw [hfood]
    exact directionTerm_self _ _
  refine ⟨h1, ?_, h3, ?_, ?_⟩
  · show rewardValue E s' (calculateReward E s a).2 = _
    rw [rewardValue_eq_terms, h1, JNum.add_fin_zero]
    rfl
  · show rewardValue E s' (update E s r a).1 = _
    rw [rewardValue_eq_terms, h3, JNum.add_fin_zero]
  · rw [hb]
    refine ⟨rfl, ?_⟩
    rw [move_lastFoodDistance]
    rfl

theorem direction_term_repeat_witness :
    directionTerm
        (scanFood (testEnv 100 100)
          (update (testEnv 100 100) oneFoodState testDraws agentOnFood).1.x
          (update (testEnv 100 100) oneFoodState testDraws agentOnFood).1.y
          oneFoodState.foodPieces).minDistToFood
        (update (testEnv 100 100) oneFoodState testDraws agentOnFood).1.lastFoodDistance
        (convergence oneFoodState.simulationSteps)
      = JNum.fin 0 :=
  (direction_term_repeat (testEnv 100 100) oneFoodState oneFoodState testDraws agentOnFood _
    rfl rfl).2.2.1

end RewardEffect

/-! ## Agents without food -/

section NoFood

variable {α : Type} [LinearOrderedField α] [FloorRing α]

theorem trailTerm_fin (trail c : α) : ∃ t : α, trailTerm trail c = JNum.fin t := by
  unfold trailTerm
  split_ifs
  · exact ⟨_, rfl⟩
  · exact ⟨_, rfl⟩
  · exact ⟨_, rfl⟩

theorem directionTerm_fin (d last : JNum α) (c : α) :
    ∃ t : α, directionTerm d last c = JNum.fin t := by
  unfold directionTerm
  split_ifs
  · exact ⟨_, rfl⟩
  · exact ⟨_, rfl⟩
  · exact ⟨_, rfl⟩

theorem JNum.negInf_mul_pos (c : α) (hc : 0 < c) :
    (JNum.negInf : JNum α) * JNum.fin c = JNum.negInf := by
  show JNum.infTimes false c = JNum.negInf
  simp [JNum.infTimes, hc]

theorem JNum.posInf_mul_pos (c : α) (hc : 0 < c) :
    (JNum.posInf : JNum α) * JNum.fin c = JNum.posInf := by
  show JNum.infTimes true c = JNum.posInf
  simp [JNum.infTimes, hc]

theorem JNum.posInf_div_pos (c : α) (hc : 0 < c) :
    (JNum.posInf : JNum α) / JNum.fin c = JNum.posInf := by
  show (if c < 0 then JNum.negInf else JNum.posInf) = JNum.posInf
  rw [if_neg (not_lt.2 hc.le)]

/-- Without a nearest food source the far-from-food term is `-Infinity`. -/
theorem farTerm_posInf (c : α) (hc : 0 ≤ c) : farTerm (JNum.posInf : JNum α) c = JNum.negInf := by
  unfold farTerm
  rw [if_pos (JNum.fin_lt_posInf 150)]
  have h1 : ((JNum.posInf : JNum α) - JNum.fin 150) = JNum.posInf := rfl
  rw [h1, JNum.posInf_div_pos 15 (by norm_num),
    JNum.posInf_mul_pos (1 + 2 * c) (by linarith)]
  rfl

/-- With an empty food list the reward is `-Infinity`, whatever the agent and the
trail are. -/
theorem rewardValue_no_food (E : Env α) (s : State α) (a : Agent α)
    (hfood : s.foodPieces = []) : rewardValue E s a = JNum.negInf := by
  rw [rewardValue_eq_terms, hfood]
  obtain ⟨t2, h2⟩ := trailTerm_fin (trailAt E s a.x a.y) (convergence s.simulationSteps : α)
  obtain ⟨t3, h3⟩ := directionTerm_fin (scanFood E a.x a.y []).minDistToFood
    a.lastFoodDistance (convergence s.simulationSteps : α)
  rw [h2, h3, (scanFood_nil E a.x a.y).1, farTerm_posInf _ (convergence_nonneg _)]
  have h1 : proximityTerm (JNum.posInf : JNum α) = JNum.fin 0 := by
    unfold proximityTerm
    rw [if_neg (JNum.not_posInf_lt _)]
  have h5 : spanTerm (2 ≤ ([] : List (Source α)).length) (JNum.posInf : JNum α)
      (scanFood E a.x a.y []).secondMinDistToFood (convergence s.simulationSteps)
      = JNum.fin 0 := by
    unfold spanTerm
    rw [if_neg]
    simp
  rw [h1, h5]
  rfl

/-- With an empty food list `calculateReward` sends a fitness that is finite or
`-Infinity` to `-Infinity`. -/
theorem fitness_no_food (E : Env α) (s : State α) (a : Agent α)
    (hfood : s.foodPieces = [])
    (hfit : (∃ f : α, a.fitness = JNum.fin f) ∨ a.fitness = JNum.negInf) :
    (calculateReward E s a).2.fitness = JNum.negInf := by
  show a.fitness + rewardValue E s a * JNum.fin 0.1 = JNum.negInf
  rw [rewardValue_no_food E s a hfood, JNum.negInf_mul_pos _ (by norm_num)]
  rcases hfit with ⟨f, hf⟩ | hf
  · rw [hf]; rfl
  · rw [hf]; rfl

theorem move_fitness_negInf (E : Env α) (s : State α) (r : Draws α) (b : Agent α)
    (hb : b.fitness = JNum.negInf) : (move E s r b).fitness = JNum.negInf := by
  simp only [move]
  split_ifs
  · exact hb
  · show b.fitness - JNum.fin 10 = JNum.negInf
    rw [hb]; rfl
  · show b.fitness - JNum.fin 10 = JNum.negInf
    rw [hb]; rfl

theorem depositMultiplier_negInf : depositMultiplier (JNum.negInf : JNum α) = 0.3 := by
  unfold depositMultiplier
  rw [if_neg, if_pos]
  · rfl
  · show ¬ (JNum.lt (JNum.fin 10) (JNum.negInf : JNum α) = true)
    simp [JNum.lt]

/-- An `update` without food, of an agent whose fitness is finite or `-Infinity`:
exploration factor 0.3, final fitness `-Infinity`, deposit multiplier 0.3. -/
theorem update_no_food (E : Env α) (s : State α) (r : Draws α) (a : Agent α)
    (hfood : s.foodPieces = [])
    (hfit : (∃ f : α, a.fitness = JNum.fin f) ∨ a.fitness = JNum.negInf) :
    (if (calculateReward E s a).2.fitness > JNum.fin (-10) then (0.6 : α) else 0.3) = 0.3 ∧
    randomSteerOf r (calculateReward E s a).2 = (r.steer - 0.5) * 0.3 ∧
    (update E s r a).1.fitness = JNum.negInf ∧
    depositMultiplier (update E s r a).1.fitness = 0.3 := by
  have h1 := fitness_no_food E s a hfood hfit
  have hlt : ¬ ((calculateReward E s a).2.fitness > JNum.fin (-10)) := by
    rw [h1]
    show ¬ (JNum.lt (JNum.fin (-10)) (JNum.negInf : JNum α) = true)
    simp [JNum.lt]
  have hup : (update E s r a).1.fitness = JNum.negInf := by
    show (updateAgent E s r a).fitness = JNum.negInf
    rw [updateAgent_eq]
    apply fitness_no_food E s _ hfood
    right
    apply move_fitness_negInf
    exact h1
  refine ⟨if_neg hlt, ?_, hup, ?_⟩
  · unfold randomSteerOf
    rw [if_neg hlt]
  · rw [hup]
    exact depositMultiplier_negInf

/-- C25: with an empty food list and an agent of finite fitness, `calculateReward`
returns `-Infinity` and sets `fitness` to `-Infinity`; the `update` of that agent
uses exploration factor 0.3 and deposit multiplier 0.3, whatever the trail grid
holds, and so does every later `update` in a state without food. -/
theorem no_food_lost (E : Env α) (s : State α) (r : Draws α) (a : Agent α) (f : α)
    (hfood : s.foodPieces = []) (hfit : a.fitness = JNum.fin f) :
    (scanFood E a.x a.y s.foodPieces).minDistToFood = JNum.posInf ∧
    farTerm (scanFood E a.x a.y s.foodPieces).minDistToFood (convergence s.simulationSteps)
      = JNum.negInf ∧
    (calculateReward E s a).1 = JNum.negInf ∧
    (calculateReward E s a).2.fitness = JNum.negInf ∧
    (if (calculateReward E s a).2.fitness > JNum.fin (-10) then (0.6 : α) else 0.3) = 0.3 ∧
    randomSteerOf r (calculateReward E s a).2 = (r.steer - 0.5) * 0.3 ∧
    (update E s r a).1.fitness = JNum.negInf ∧
    depositMultiplier (update E s r a).1.fitness = 0.3 ∧
    (update E s r a).2.trailMap
      = (if getIdx E (update E s r a).1.x (update E s r a).1.y ≥ 0 then
          wr s.trailMap (getIdx E (update E s r a).1.x (update E s r a).1.y).toNat
            (min (rd s.trailMap (getIdx E (update E s r a).1.x (update E s r a).1.y).toNat
              + s.DEPOSIT_AMOUNT * 0.3) 255)
        else s.trailMap) ∧
    ∀ (s' : State α) (r' : Draws α), s'.foodPieces = [] →
      (if (calculateReward E s' (update E s r a).1).2.fitness > JNum.fin (-10)
        then (0.6 : α) else 0.3) = 0.3 ∧
      randomSteerOf r' (calculateReward E s' (update E s r a).1).2 = (r'.steer - 0.5) * 0.3 ∧
      (update E s' r' (update E s r a).1).1.fitness = JNum.negInf ∧
      depositMultiplier (update E s' r' (update E s r a).1).1.fitness = 0.3 := by
  have hu := update_no_food E s r a hfood (Or.inl ⟨f, hfit⟩)
  have hmin : (scanFood E a.x a.y s.foodPieces).minDistToFood = JNum.posInf := by
    rw [hfood]; rfl
  refine ⟨hmin, ?_, rewardValue_no_food E s a hfood,
    fitness_no_food E s a hfood (Or.inl ⟨f, hfit⟩), hu.1, hu.2.1, hu.2.2.1, hu.2.2.2, ?_, ?_⟩
  · rw [hmin]
    exact farTerm_posInf _ (convergence_nonneg _)
  · show deposit E s (update E s r a).1 = _
    simp only [deposit]
    rw [hu.2.2.2]
  · intro s' r' hfood'
    exact update_no_food E s' r' _ hfood' (Or.inr hu.2.2.1)

theorem no_food_lost_witness :
    (calculateReward (testEnv 100 100) emptyState (testAgent 50 50)).1 = JNum.negInf ∧
    depositMultiplier (update (testEnv 100 100) emptyState testDraws (testAgent 50 50)).1.fitness
      = 0.3 :=
  ⟨(no_food_lost (testEnv 100 100) emptyState testDraws (testAgent 50 50) 0 rfl rfl).2.2.1,
    (no_food_lost (testEnv 100 100) emptyState testDraws (testAgent 50 50) 0 rfl
      rfl).2.2.2.2.2.2.2.1⟩

end NoFood

/-! ## Plate points and grid cells -/

section Plate

variable {α : Type} [LinearOrderedField α] [FloorRing α]

/-- On a grid with `width >= 20` and `height >= width` a plate point lies at least 10
inside each side of the grid rectangle. -/
theorem plate_in_grid (E : Env α) (hw : 20 ≤ E.width) (hh : E.width ≤ E.height) (x y : α)
    (hin : isInCircle E x y = true) :
    10 ≤ x ∧ x ≤ (E.width : α) - 10 ∧ 10 ≤ y ∧ y ≤ (E.height : α) - 10 := by
  rw [isInCircle_iff] at hin
  have hw' : (20 : α) ≤ (E.width : α) := by exact_mod_cast hw
  have hh' : (E.width : α) ≤ (E.height : α) := by exact_mod_cast hh
  have hR : (0 : α) ≤ (E.width : α) / 2 - 10 := by linarith
  have hx : (x - (E.width : α) / 2) ^ 2 ≤ ((E.width : α) / 2 - 10) ^ 2 := by
    nlinarith [sq_nonneg (y - (E.height : α) / 2)]
  have hy : (y - (E.height : α) / 2) ^ 2 ≤ ((E.width : α) / 2 - 10) ^ 2 := by
    nlinarith [sq_nonneg (x - (E.width : α) / 2)]
  have hx' := abs_le_of_sq_le_sq' hx hR
  have hy' := abs_le_of_sq_le_sq' hy hR
  refine ⟨by linarith [hx'.1], by linarith [hx'.2], by linarith [hy'.1], by linarith [hy'.2]⟩

theorem plate_getIdx_nonneg (E : Env α) (hw : 20 ≤ E.width) (hh : E.width ≤ E.height)
    (x y : α) (hin : isInCircle E x y = true) : 0 ≤ getIdx E x y := by
  obtain ⟨hx0, hx1, hy0, hy1⟩ := plate_in_grid E hw hh x y hin
  apply (getIdx_bounds E x y _).1
  have a1 : (0 : Int) ≤ ⌊x⌋ := Int.floor_nonneg.2 (by linarith)
  have a2 : ⌊x⌋ < (E.width : Int) := by
    rw [Int.floor_lt]
    push_cast
    linarith
  have a3 : (0 : Int) ≤ ⌊y⌋ := Int.floor_nonneg.2 (by linarith)
  have a4 : ⌊y⌋ < (E.height : Int) := by
    rw [Int.floor_lt]
    push_cast
    linarith
  omega

/-- C26: on a grid with `width >= 20` and `height >= width` every point with
`isInCircle` true has `getIdx >= 0`; so for an agent inside the plate the trail
lookup of `calculateReward` reads the agent's cell, at both calls of `update`, and
the deposit of `update` writes the agent's cell. -/
theorem plate_has_cell (E : Env α) (hw : 20 ≤ E.width) (hh : E.width ≤ E.height) (x y : α)
    (hin : isInCircle E x y = true) :
    0 ≤ getIdx E x y ∧ getIdx E x y ≠ -1 ∧
    (∀ s : State α, trailAt E s x y = rd s.trailMap (getIdx E x y).toNat) ∧
    ∀ (s : State α) (r : Draws α) (a : Agent α), a.x = x → a.y = y →
      trailAt E s a.x a.y = rd s.trailMap (getIdx E a.x a.y).toNat ∧
      0 ≤ getIdx E (update E s r a).1.x (update E s r a).1.y ∧
      trailAt E s (update E s r a).1.x (update E s r a).1.y
        = rd s.trailMap (getIdx E (update E s r a).1.x (update E s r a).1.y).toNat ∧
      (update E s r a).2.trailMap
        = wr s.trailMap (getIdx E (update E s r a).1.x (update E s r a).1.y).toNat
            (min (rd s.trailMap (getIdx E (update E s r a).1.x (update E s r a).1.y).toNat
              + s.DEPOSIT_AMOUNT * depositMultiplier (update E s r a).1.fitness) 255) := by
  have h0 := plate_getIdx_nonneg E hw hh x y hin
  have hT : ∀ (s : State α) (u v : α), 0 ≤ getIdx E u v →
      trailAt E s u v = rd s.trailMap (getIdx E u v).toNat := by
    intro s u v h
    simp only [trailAt]
    rw [if_pos h]
  refine ⟨h0, by omega, fun s => hT s x y h0, ?_⟩
  intro s r a hax hay
  have hin' : isInCircle E a.x a.y = true := by rw [hax, hay]; exact hin
  have h1 := plate_getIdx_nonneg E hw hh _ _ (update_inside E s r a hin')
  refine ⟨hT s _ _ (plate_getIdx_nonneg E hw hh _ _ hin'), h1, hT s _ _ h1, ?_⟩
  show deposit E s (update E s r a).1 = _
  simp only [deposit]
  rw [if_pos h1]

theorem plate_has_cell_witness :
    0 ≤ getIdx (testEnv 100 100) (50 : ℚ) 50 :=
  (plate_has_cell (testEnv 100 100) (by decide) (by decide) 50 50
    (by simp only [isInCircle, testEnv]; norm_num)).1

end Plate

/-! ## Trail mass under diffusion -/

section Mass

variable {α : Type} [LinearOrderedField α] [FloorRing α]

theorem list_sum_eq_sum_range (L : List α) :
    L.sum = ∑ i ∈ Finset.range L.length, L.getD i 0 := by
  induction L with
  | nil => simp
  | cons a L ih =>
    rw [List.sum_cons, List.length_cons, Finset.sum_range_succ', ih]
    simp [add_comm]

theorem rd_eq_toList_getD (g : Array α) (i : Nat) : rd g i = g.toList.getD i 0 := by
  cases g with
  | mk L =>
    simp only [rd, Array.getD, List.getD]
    by_cases h : i < L.length
    · simp [h]
    · simp [h]
      rw [List.getElem?_eq_none (by omega)]
      rfl

/-- The mass of a grid is the sum of its cell reads. -/
theorem trailMass_eq_sum (g : Array α) :
    trailMass g = ∑ i ∈ Finset.range g.size, rd g i := by
  unfold trailMass
  rw [list_sum_eq_sum_range]
  apply Finset.sum_congr
  · simp
  · intro i _
    rw [rd_eq_toList_getD]

/-- Reading a non-negative grid along an injective index shift never collects more
than the mass of the grid. -/
theorem sum_shift_le (g : Array α) (hg : ∀ k, 0 ≤ rd g k) (S : Finset Nat) (σ : Nat → Nat)
    (hσ : ∀ i ∈ S, ∀ j ∈ S, σ i = σ j → i = j) :
    ∑ i ∈ S, rd g (σ i) ≤ ∑ j ∈ Finset.range g.size, rd g j := by
  rw [← Finset.sum_image hσ]
  rw [← Finset.sum_filter_add_sum_filter_not (Finset.image σ S) (fun j => j < g.size)]
  have h0 : ∑ j ∈ Finset.filter (fun j => ¬ j < g.size) (Finset.image σ S), rd g j = 0 := by
    apply Finset.sum_eq_zero
    intro j hj
    rw [Finset.mem_filter] at hj
    exact rd_of_size_le g j (not_lt.1 hj.2)
  rw [h0, add_zero]
  apply Finset.sum_le_sum_of_subset_of_nonneg
  · intro j hj
    rw [Finset.mem_filter] at hj
    exact Finset.mem_range.2 hj.2
  · intro j _ _
    exact hg j

theorem interior_ge (E : Env α) (i : Nat) (hi : i ∈ interiorCells E) : E.width + 1 ≤ i := by
  obtain ⟨y, x, hy, hx, rfl⟩ := (mem_interiorCells E i).1 hi
  have : E.width ≤ y * E.width := Nat.le_mul_of_pos_left _ hy.1
  omega

/-- The blurred values of a set of interior cells sum to at most the mass of the
grid that is blurred. -/
theorem sum_mean9_le (E : Env α) (g : Array α) (hg : ∀ k, 0 ≤ rd g k) (S : Finset Nat)
    (hS : ∀ i ∈ S, i ∈ interiorCells E) :
    ∑ i ∈ S, mean9 E g i ≤ ∑ j ∈ Finset.range g.size, rd g j := by
  have hge : ∀ i ∈ S, E.width + 1 ≤ i := fun i hi => interior_ge E i (hS i hi)
  have h1 := sum_shift_le g hg S (fun i => i) (fun i _ j _ h => h)
  have h2 := sum_shift_le g hg S (fun i => i - 1) (fun i hi j hj h => by
    have := hge i hi; have := hge j hj; simp only at h; omega)
  have h3 := sum_shift_le g hg S (fun i => i + 1) (fun i hi j hj h => by
    simp only at h; omega)
  have h4 := sum_shift_le g hg S (fun i => i - E.width) (fun i hi j hj h => by
    have := hge i hi; have := hge j hj; simp only at h; omega)
  have h5 := sum_shift_le g hg S (fun i => i + E.width) (fun i hi j hj h => by
    simp only at h; omega)
  have h6 := sum_shift_le g hg S (fun i => i - E.width - 1) (fun i hi j hj h => by
    have := hge i hi; have := hge j hj; simp only at h; omega)
  have h7 := sum_shift_le g hg S (fun i => i - E.width + 1) (fun i hi j hj h => by
    have := hge i hi; have := hge j hj; simp only at h; omega)
  have h8 := sum_shift_le g hg S (fun i => i + E.width - 1) (fun i hi j hj h => by
    have := hge i hi; have := hge j hj; simp only at h; omega)
  have h9 := sum_shift_le g hg S (fun i => i + E.width + 1) (fun i hi j hj h => by
    simp only at h; omega)
  simp only at h1 h2 h3 h4 h5 h6 h7 h8 h9
  simp only [mean9]
  rw [← Finset.sum_div, div_le_iff₀ (by norm_num : (0 : α) < 9)]
  simp only [Finset.sum_add_distrib]
  linarith

/-- The blurred scratch grid weighs at most as much as the trail grid, cell range
of the trail grid, when the scratch grid is 0 outside the interior cells. -/
theorem sum_blur_le (E : Env α) (trailMap tempMap : Array α)
    (htrail : ∀ k, 0 ≤ rd trailMap k)
    (htemp : ∀ i, i ∉ interiorCells E → rd tempMap i = 0) :
    (∀ j, 0 ≤ rd (blur E trailMap tempMap) j) ∧
    ∑ i ∈ Finset.range trailMap.size, rd (blur E trailMap tempMap) i
      ≤ ∑ j ∈ Finset.range trailMap.size, rd trailMap j := by
  have hb : ∀ j, rd (blur E trailMap tempMap) j
      = if j ∈ interiorCells E ∧ j < tempMap.size then mean9 E trailMap j else 0 := by
    intro j
    rw [rd_blur]
    by_cases hc : j ∈ interiorCells E ∧ j < tempMap.size
    · rw [if_pos hc, if_pos hc]
    · rw [if_neg hc, if_neg hc]
      by_cases hj : j ∈ interiorCells E
      · exact rd_of_size_le _ _ (not_lt.1 (fun h => hc ⟨hj, h⟩))
      · exact htemp j hj
  constructor
  · intro j
    rw [hb]
    split_ifs
    · exact mean9_nonneg E trailMap j htrail
    · exact le_refl _
  · simp only [hb]
    rw [← Finset.sum_filter]
    apply sum_mean9_le E trailMap htrail
    intro i hi
    rw [Finset.mem_filter] at hi
    exact hi.2.1

/-- Trail mass does not grow under `diffuseTrails`, for a scratch grid that is 0
outside the cells written by the blur. -/
theorem trailMass_diffuse_le (E : Env α) (s : State α)
    (htrail : ∀ k, 0 ≤ rd s.trailMap k)
    (hDR0 : 0 ≤ s.DIFFUSE_RATE) (hDR1 : s.DIFFUSE_RATE ≤ 1)
    (hDS0 : 0 ≤ s.DECAY_SPEED) (hDS1 : s.DECAY_SPEED ≤ 1000)
    (htemp : ∀ i, i ∉ interiorCells E → rd s.tempMap i = 0) :
    trailMass (diffuseTrails E s).trailMap ≤ trailMass s.trailMap := by
  rw [trailMass_eq_sum, trailMass_eq_sum, size_diffuse_trailMap]
  obtain ⟨hb0, hbs⟩ := sum_blur_le E s.trailMap s.tempMap htrail htemp
  have hpt : ∀ i ∈ Finset.range s.trailMap.size,
      rd (diffuseTrails E s).trailMap i
        ≤ rd (blur E s.trailMap s.tempMap) i * s.DIFFUSE_RATE
          + rd s.trailMap i * (1 - s.DIFFUSE_RATE) := by
    intro i hi
    rw [rd_diffuse_trailMap E s i (Finset.mem_range.1 hi)]
    exact (blendValue_bounds s _ _ (hb0 i) (htrail i) hDR0 hDR1 hDS0 hDS1).2
  refine le_trans (Finset.sum_le_sum hpt) ?_
  rw [Finset.sum_add_distrib, ← Finset.sum_mul, ← Finset.sum_mul]
  have h1 := mul_le_mul_of_nonneg_right hbs hDR0
  have : (∑ j ∈ Finset.range s.trailMap.size, rd s.trailMap j) * s.DIFFUSE_RATE
      + (∑ j ∈ Finset.range s.trailMap.size, rd s.trailMap j) * (1 - s.DIFFUSE_RATE)
      = ∑ j ∈ Finset.range s.trailMap.size, rd s.trailMap j := by ring
  linarith

/-- A scratch grid of the canvas size whose border cells are 0 is 0 outside the
interior cells. -/
theorem border_zero (E : Env α) (tempMap : Array α)
    (hsize : tempMap.size = E.width * E.height)
    (hborder : ∀ x y : Nat, x < E.width → y < E.height →
      (x = 0 ∨ x = E.width - 1 ∨ y = 0 ∨ y = E.height - 1) →
      rd tempMap (y * E.width + x) = 0)
    (i : Nat) (hi : i ∉ interiorCells E) : rd tempMap i = 0 := by
  by_cases hlt : i < E.width * E.height
  · have hw : 0 < E.width := by
      rcases Nat.eq_zero_or_pos E.width with h | h
      · rw [h] at hlt; simp at hlt
      · exact h
    have hx : i % E.width < E.width := Nat.mod_lt _ hw
    have hy : i / E.width < E.height := by
      rw [Nat.div_lt_iff_lt_mul hw, Nat.mul_comm]
      exact hlt
    have hdec : i = i / E.width * E.width + i % E.width := by
      rw [Nat.mul_comm]
      exact (Nat.div_add_mod i E.width).symm
    generalize i / E.width = y at hy hdec
    generalize i % E.width = x at hx hdec
    by_cases hbd : x = 0 ∨ x = E.width - 1 ∨ y = 0 ∨ y = E.height - 1
    · rw [hdec]
      exact hborder x y hx hy hbd
    · exfalso
      apply hi
      rw [mem_interiorCells]
      refine ⟨y, x, ?_, ?_, hdec⟩
      · omega
      · omega
  · exact rd_of_size_le _ _ (by omega)

/-- C23: for a trail grid of the canvas size with non-negative cells, `DIFFUSE_RATE`
in [0, 1], `DECAY_SPEED` in [0, 1000] and a scratch grid of the canvas size whose
border cells (first and last row, first and last column) are 0, the sum of all trail
cells after one `diffuseTrails` pass is at most the sum before the pass. -/
theorem diffusion_mass (E : Env α) (s : State α)
    (htsize : s.trailMap.size = E.width * E.height)
    (htrail : ∀ k, 0 ≤ rd s.trailMap k)
    (hDR0 : 0 ≤ s.DIFFUSE_RATE) (hDR1 : s.DIFFUSE_RATE ≤ 1)
    (hDS0 : 0 ≤ s.DECAY_SPEED) (hDS1 : s.DECAY_SPEED ≤ 1000)
    (hsize : s.tempMap.size = E.width * E.height)
    (hborder : ∀ x y : Nat, x < E.width → y < E.height →
      (x = 0 ∨ x = E.width - 1 ∨ y = 0 ∨ y = E.height - 1) →
      rd s.tempMap (y * E.width + x) = 0) :
    trailMass (diffuseTrails E s).trailMap ≤ trailMass s.trailMap ∧
    ∑ i ∈ Finset.range (E.width * E.height), rd (diffuseTrails E s).trailMap i
      ≤ ∑ i ∈ Finset.range (E.width * E.height), rd s.trailMap i := by
  have h := trailMass_diffuse_le E s htrail hDR0 hDR1 hDS0 hDS1
    (border_zero E s.tempMap hsize hborder)
  refine ⟨h, ?_⟩
  rw [trailMass_eq_sum, trailMass_eq_sum, size_diffuse_trailMap, htsize] at h
  exact h

theorem diffusion_mass_witness :
    trailMass (diffuseTrails (testEnv 3 3) ringState).trailMap ≤ trailMass ringState.trailMap := by
  have hnn : ∀ i, 0 ≤ rd ringState.trailMap i := by
    intro i
    by_cases hi : i < 9
    · interval_cases i <;> simp [ringState, rd]
    · rw [rd_of_size_le _ _ (by simpa [ringState] using hi)]
  exact (diffusion_mass (testEnv 3 3) ringState (by simp [ringState, testEnv]) hnn
    (by norm_num [ringState, initialState]) (by norm_num [ringState, initialState])
    (by norm_num [ringState, initialState]) (by norm_num [ringState, initialState])
    (by simp [ringState, initialState, testEnv])
    (fun x y _ _ _ => rd_mkArray_zero _ _)).1

end Mass

end Physarum
